import Mathlib

/-!
Verification development for the LNG language pipeline
(lexer, recursive-descent parser, semantic analyzer, tree-walking interpreter).

The Lean definitions below are a shallow embedding of the Python sources:
  backend/lexer/lexer.py, backend/parser/nodes.py, backend/parser/parser.py,
  backend/parser/semantic_analyzer.py, backend/interpreter/interpreter.py,
  backend/api/endpoints.py.

Modelling conventions, used throughout:
  - Python machine-level objects (lists, dicts, class instances, classes) are
    heap-allocated: the heap is a list of objects, values hold addresses, so
    Python reference/aliasing semantics is preserved.
  - Python environments (class Environment) are likewise allocated in a store
    (field envs) since closures and scopes alias and mutate them.
  - Python exceptions used for control flow (ReturnException, BreakException,
    ContinueException) and runtime errors (Exception with a message) are an
    explicit Except layer.  All of them derive from Exception in Python, so the
    top-level interpret catch-all catches each of them, as does the embedding.
  - Python ints are arbitrary precision, embedded as Int.
  - Python floats are embedded as exact rationals (Rat).  No claim in this
    development depends on IEEE-754 rounding; the divergence is noted here once.
  - Recursion that is unbounded in Python (while loops, user function calls,
    recursive parsing) takes a fuel argument; fuel exhaustion is the value
    none, which is distinct from every real outcome of the Python code.
  - Strings containing braces or apostrophes write them with \x7b, \x7d, \x27.
-/

namespace LNG

/-! ## AST: backend/parser/nodes.py

Every node class of nodes.py is one constructor.  Python attaches a source
line dynamically to some nodes (parser.py sets node.line on VariableDecl,
ClassDecl and Identifier); those three carry a line field here.  Dataclass
structural equality in Python ignores dynamically attached attributes; the
beqExpr and beqStmt functions below ignore the line fields accordingly. -/

/-- Value carried by a Literal node: the Python value placed there by the
parser (token values for INT/FLOAT/STRING, booleans, None). -/
inductive LitV where
  | int (n : Int)
  | float (q : Rat)
  | str (s : String)
  | bool (b : Bool)
  | null
deriving DecidableEq

/-- One parameter entry: the dict \x7b"name": ..., "type": ...\x7d built by the
parser for function, method and constructor parameters. -/
structure Param where
  name : String
  type : Option String
deriving DecidableEq

/-- Expression nodes of nodes.py.  MemberAccess stores the accessed member as
an Identifier in Python; only its name is ever read (interpreter and analyzer
use expr.member.name and never visit the member node), so the name is stored
directly. -/
inductive Expression where
  | literal (value : LitV) (rawType : String)
  | identifier (name : String) (line : Nat)
  | binaryOp (left : Expression) (operator : String) (right : Expression)
  | unaryOp (operator : String) (operand : Expression)
  | functionCall (callee : Expression) (arguments : List Expression)
  | arrayLiteral (elements : List Expression)
  | objectLiteral (properties : List (String × Expression))
  | assignment (target : Expression) (operator : String) (value : Expression)
  | memberAccess (target : Expression) (member : String)
  | indexAccess (target : Expression) (index : Expression)

/-- Statement nodes of nodes.py.  Block appears both as the statement kind and
as function/constructor bodies; bodies keep the whole Block node (constructor
block) exactly as in Python.  ConstructorDecl is an ASTNode (not a Statement)
in Python but lives in the same member lists as statements, so it is a
constructor here; the parser only ever produces it inside a class body. -/
inductive Statement where
  | block (statements : List Statement)
  | variableDecl (name : String) (varType : Option String)
      (initializer : Option Expression) (isConst : Bool) (line : Nat)
  | functionDecl (name : String) (params : List Param)
      (returnType : Option String) (body : Statement)
  | ctorDecl (params : List Param) (body : Statement)
  | classDecl (name : String) (superClass : Option String)
      (members : List Statement) (line : Nat)
  | ifStmt (condition : Expression) (thenBranch : Statement)
      (elseBranch : Option Statement)
  | whileStmt (condition : Expression) (body : Statement)
  | forStmt (init : Option Statement) (condition : Option Expression)
      (update : Option Expression) (body : Statement)
  | returnStmt (value : Option Expression)
  | breakStmt
  | continueStmt
  | exprStmt (expression : Expression)

/-- Program root node. -/
structure Program where
  statements : List Statement

/-- The statement list of a body Block (callee.body.statements in Python).
The parser always builds bodies as Block nodes. -/
def blockStatements : Statement → List Statement
  | .block l => l
  | _ => []

/-! ## Runtime values and state: backend/interpreter/interpreter.py -/

/-- Runtime values.  list/dict/inst/cls are heap addresses (Python object
references).  funcDecl is the FunctionDecl AST node itself, which is what the
interpreter stores in the environment (interpreter.py line 206): note it does
NOT carry a captured environment.  boundMethod is the closure returned by
LNGInstance.bind_method; it captures the instance and the method declaration.
nativePf and nativeClock are the two native callables installed in globals. -/
inductive Value where
  | null
  | bool (b : Bool)
  | int (n : Int)
  | float (q : Rat)
  | str (s : String)
  | list (addr : Nat)
  | dict (addr : Nat)
  | funcDecl (name : String) (params : List Param)
      (returnType : Option String) (body : Statement)
  | cls (addr : Nat)
  | inst (addr : Nat)
  | boundMethod (instAddr : Nat) (name : String) (params : List Param)
      (returnType : Option String) (body : Statement)
  | nativePf
  | nativeClock

/-- Heap objects: Python lists, dicts (object-literal results), LNGInstance
and LNGClass.  Dict keys are runtime values (string keys from object literals,
arbitrary keys can be inserted through index assignment, as in Python). -/
inductive Obj where
  | list (elems : List Value)
  | dict (entries : List (Value × Value))
  | inst (klass : Nat) (fields : List (String × Value))
  | cls (name : String) (superClass : Option Nat)
      (methods : List (String × Value)) (ctor : Option (List Param × Statement))

/-- One Environment object: values dict plus optional enclosing pointer. -/
structure Env where
  values : List (String × Value)
  enclosing : Option Nat

/-- Interpreter state: the environment store (index 0 is globals), the object
heap, the current-environment pointer (self.environment) and the output list. -/
structure St where
  envs : List Env
  heap : List Obj
  env : Nat
  output : List String

/-- Insertion-ordered dict update: replace the first matching key, else
append, as a Python dict does. -/
def dictInsert (l : List (String × Value)) (k : String) (v : Value) :
    List (String × Value) :=
  match l with
  | [] => [(k, v)]
  | (k0, v0) :: rest =>
      if k0 = k then (k0, v) :: rest else (k0, v0) :: dictInsert rest k v

/-- Lookup in an insertion-ordered string-keyed dict. -/
def dictFind (l : List (String × Value)) (k : String) : Option Value :=
  match l with
  | [] => none
  | (k0, v0) :: rest => if k0 = k then some v0 else dictFind rest k

/-! Structural equality on AST nodes.  Python AST nodes are dataclasses, whose
== is field-by-field structural equality; the interpreter reaches it through
value equality on FunctionDecl references (pyEq below). -/

mutual

/-- Structural equality of expressions (Python dataclass ==).  The line field
of Identifier is attached dynamically in Python and hence not part of
dataclass ==; it is ignored here too. -/
def beqExpr : Expression → Expression → Bool
  | .literal v1 r1, .literal v2 r2 => v1 == v2 && r1 == r2
  | .identifier n1 _, .identifier n2 _ => n1 == n2
  | .binaryOp l1 o1 r1, .binaryOp l2 o2 r2 =>
      beqExpr l1 l2 && o1 == o2 && beqExpr r1 r2
  | .unaryOp o1 e1, .unaryOp o2 e2 => o1 == o2 && beqExpr e1 e2
  | .functionCall c1 a1, .functionCall c2 a2 =>
      beqExpr c1 c2 && beqExprList a1 a2
  | .arrayLiteral l1, .arrayLiteral l2 => beqExprList l1 l2
  | .objectLiteral p1, .objectLiteral p2 => beqPropList p1 p2
  | .assignment t1 o1 v1, .assignment t2 o2 v2 =>
      beqExpr t1 t2 && o1 == o2 && beqExpr v1 v2
  | .memberAccess t1 m1, .memberAccess t2 m2 => beqExpr t1 t2 && m1 == m2
  | .indexAccess t1 i1, .indexAccess t2 i2 => beqExpr t1 t2 && beqExpr i1 i2
  | _, _ => false

/-- Structural equality of expression lists. -/
def beqExprList : List Expression → List Expression → Bool
  | [], [] => true
  | e1 :: r1, e2 :: r2 => beqExpr e1 e2 && beqExprList r1 r2
  | _, _ => false

/-- Structural equality of object-literal property lists. -/
def beqPropList : List (String × Expression) → List (String × Expression) → Bool
  | [], [] => true
  | (k1, e1) :: r1, (k2, e2) :: r2 => k1 == k2 && beqExpr e1 e2 && beqPropList r1 r2
  | _, _ => false

end

/-- Structural equality of optional expressions. -/
def beqOptExpr : Option Expression → Option Expression → Bool
  | none, none => true
  | some e1, some e2 => beqExpr e1 e2
  | _, _ => false

mutual

/-- Structural equality of statements (Python dataclass ==).  The line fields
of VariableDecl and ClassDecl are attached dynamically in Python and not part
of dataclass ==; they are ignored here. -/
def beqStmt : Statement → Statement → Bool
  | .block l1, .block l2 => beqStmtList l1 l2
  | .variableDecl n1 t1 i1 c1 _, .variableDecl n2 t2 i2 c2 _ =>
      n1 == n2 && t1 == t2 && beqOptExpr i1 i2 && c1 == c2
  | .functionDecl n1 p1 r1 b1, .functionDecl n2 p2 r2 b2 =>
      n1 == n2 && p1 == p2 && r1 == r2 && beqStmt b1 b2
  | .ctorDecl p1 b1, .ctorDecl p2 b2 => p1 == p2 && beqStmt b1 b2
  | .classDecl n1 s1 m1 _, .classDecl n2 s2 m2 _ =>
      n1 == n2 && s1 == s2 && beqStmtList m1 m2
  | .ifStmt c1 t1 e1, .ifStmt c2 t2 e2 =>
      beqExpr c1 c2 && beqStmt t1 t2 && beqOptStmt e1 e2
  | .whileStmt c1 b1, .whileStmt c2 b2 => beqExpr c1 c2 && beqStmt b1 b2
  | .forStmt i1 c1 u1 b1, .forStmt i2 c2 u2 b2 =>
      beqOptStmt i1 i2 && beqOptExpr c1 c2 && beqOptExpr u1 u2 && beqStmt b1 b2
  | .returnStmt v1, .returnStmt v2 => beqOptExpr v1 v2
  | .breakStmt, .breakStmt => true
  | .continueStmt, .continueStmt => true
  | .exprStmt e1, .exprStmt e2 => beqExpr e1 e2
  | _, _ => false

/-- Structural equality of statement lists. -/
def beqStmtList : List Statement → List Statement → Bool
  | [], [] => true
  | s1 :: r1, s2 :: r2 => beqStmt s1 s2 && beqStmtList r1 r2
  | _, _ => false

/-- Structural equality of optional statements. -/
def beqOptStmt : Option Statement → Option Statement → Bool
  | none, none => true
  | some s1, some s2 => beqStmt s1 s2
  | _, _ => false

end

/-! ## Python host operations used by the interpreter

The interpreter leans on host semantics for arithmetic, comparison, equality,
truthiness, str(), indexing and the exact TypeError messages.  These are
modelled below.  Exact CPython message texts are reproduced for the cases a
program of this language can reach; fidelity notes are attached where the
model abstracts (float printing, repr escaping, object addresses). -/

/-- type(x).__name__ for runtime values. -/
def typeName : Value → String
  | .null => "NoneType"
  | .bool _ => "bool"
  | .int _ => "int"
  | .float _ => "float"
  | .str _ => "str"
  | .list _ => "list"
  | .dict _ => "dict"
  | .funcDecl _ _ _ _ => "FunctionDecl"
  | .cls _ => "LNGClass"
  | .inst _ => "LNGInstance"
  | .boundMethod _ _ _ _ _ => "function"
  | .nativePf => "method"
  | .nativeClock => "method"

/-- str(type(x)), as interpolated by f-string \x7btype(...)\x7d in error
messages.  Class qualification follows the module layout of the backend
(classes of interpreter.py live in module interpreter.interpreter, AST nodes
in parser.nodes). -/
def typeFullName : Value → String
  | .funcDecl _ _ _ _ => "<class \x27parser.nodes.FunctionDecl\x27>"
  | .cls _ => "<class \x27interpreter.interpreter.LNGClass\x27>"
  | .inst _ => "<class \x27interpreter.interpreter.LNGInstance\x27>"
  | .boundMethod _ _ _ _ _ => "<class \x27function\x27>"
  | .nativePf => "<class \x27method\x27>"
  | .nativeClock => "<class \x27method\x27>"
  | v => "<class \x27" ++ typeName v ++ "\x27>"

/-- Interpreter.is_truthy (interpreter.py lines 480 to 486), translated
clause by clause.  Note an empty list or dict is truthy here, unlike plain
Python truthiness, because the code tests isinstance only. -/
def isTruthy : Value → Bool
  | .null => false
  | .bool b => b
  | .int n => n ≠ 0
  | .float q => q ≠ 0
  | .str _ => true
  | .list _ => true
  | .dict _ => true
  | .inst _ => true
  | _ => true

/-- Numeric view: Python treats bool as an int subclass, so bool, int and
float all take part in arithmetic and numeric comparison. -/
def numVal : Value → Option Rat
  | .bool b => some (if b then 1 else 0)
  | .int n => some (n : Rat)
  | .float q => some q
  | _ => none

/-- True when the value is an int in the Python sense (int or bool), which is
what isinstance(x, int) tests. -/
def isIntLike : Value → Bool
  | .int _ => true
  | .bool _ => true
  | _ => false

/-- Integer view of an int-like value (bool coerces to 0 or 1). -/
def intOf : Value → Int
  | .int n => n
  | .bool b => if b then 1 else 0
  | _ => 0

/-- Python repr of a string: quotes and no modelled escaping.  (CPython also
escapes backslashes, quotes and unprintable characters; no claim in this
development prints such strings.) -/
def reprStr (s : String) : String := "\x27" ++ s ++ "\x27"

/-- Repr of an optional string field of a dataclass (None or quoted). -/
def reprOptStr : Option String → String
  | none => "None"
  | some s => reprStr s

/-- Decimal rendering of a rational.  Used for Python float str()/repr().
Rationals whose denominator divides a power of ten (every float literal of
the source language) print as exact decimals; other rationals (which in
CPython would have been rounded doubles) fall back to num/den form, a
documented divergence of the exact-rational float model. -/
def ratRepr (q : Rat) : String :=
  let sign := if q < 0 then "-" else ""
  let q := |q|
  match (List.range 60).find? (fun k => (10 ^ k : Int) % (q.den : Int) = 0) with
  | some k =>
      let scaled : Int := q.num * ((10 ^ k : Int) / (q.den : Int))
      let digits := toString scaled.natAbs
      if k = 0 then sign ++ digits ++ ".0"
      else
        let digits := String.mk (List.replicate (k + 1 - digits.length) '0') ++ digits
        let intPart := digits.dropRight k
        let fracPart := digits.takeRight k
        sign ++ intPart ++ "." ++ fracPart
  | none => sign ++ toString q.num.natAbs ++ "/" ++ toString q.den

/-- Python repr of a Param dict \x7b"name": n, "type": t\x7d. -/
def reprParam (p : Param) : String :=
  "\x7b\x27name\x27: " ++ reprStr p.name ++ ", \x27type\x27: " ++ reprOptStr p.type ++ "\x7d"

/-- Python repr of a list of Param dicts. -/
def reprParams (ps : List Param) : String :=
  "[" ++ String.intercalate ", " (ps.map reprParam) ++ "]"

mutual

/-- Python dataclass repr of an expression node (used when an AST node value
is turned into a string, e.g. printed by pf). -/
def reprExpr : Expression → String
  | .literal v r =>
      "Literal(value=" ++ reprLit v ++ ", raw_type=" ++ reprStr r ++ ")"
  | .identifier n _ => "Identifier(name=" ++ reprStr n ++ ")"
  | .binaryOp l o r =>
      "BinaryOp(left=" ++ reprExpr l ++ ", operator=" ++ reprStr o ++
        ", right=" ++ reprExpr r ++ ")"
  | .unaryOp o e =>
      "UnaryOp(operator=" ++ reprStr o ++ ", operand=" ++ reprExpr e ++ ")"
  | .functionCall c a =>
      "FunctionCall(callee=" ++ reprExpr c ++ ", arguments=" ++ reprExprList a ++ ")"
  | .arrayLiteral l => "ArrayLiteral(elements=" ++ reprExprList l ++ ")"
  | .objectLiteral p => "ObjectLiteral(properties=" ++ reprPropList p ++ ")"
  | .assignment t o v =>
      "Assignment(target=" ++ reprExpr t ++ ", operator=" ++ reprStr o ++
        ", value=" ++ reprExpr v ++ ")"
  | .memberAccess t m =>
      "MemberAccess(target=" ++ reprExpr t ++ ", member=Identifier(name=" ++
        reprStr m ++ "))"
  | .indexAccess t i =>
      "IndexAccess(target=" ++ reprExpr t ++ ", index=" ++ reprExpr i ++ ")"

/-- Python repr of a Literal payload. -/
def reprLit : LitV → String
  | .int n => toString n
  | .float q => ratRepr q
  | .str s => reprStr s
  | .bool b => if b then "True" else "False"
  | .null => "None"

/-- Python repr of an expression list. -/
def reprExprList : List Expression → String
  | l => "[" ++ String.intercalate ", " (reprExprListAux l) ++ "]"

/-- Elementwise reprs of an expression list. -/
def reprExprListAux : List Expression → List String
  | [] => []
  | e :: r => reprExpr e :: reprExprListAux r

/-- Python repr of an object-literal property dict. -/
def reprPropList : List (String × Expression) → String
  | l => "\x7b" ++ String.intercalate ", " (reprPropListAux l) ++ "\x7d"

/-- Elementwise reprs of property entries. -/
def reprPropListAux : List (String × Expression) → List String
  | [] => []
  | (k, e) :: r => (reprStr k ++ ": " ++ reprExpr e) :: reprPropListAux r

end

/-- Repr of an optional expression field. -/
def reprOptExprR : Option Expression → String
  | none => "None"
  | some e => reprExpr e

mutual

/-- Python dataclass repr of a statement node. -/
def reprStmt : Statement → String
  | .block l => "Block(statements=" ++ reprStmtList l ++ ")"
  | .variableDecl n t i c _ =>
      "VariableDecl(name=" ++ reprStr n ++ ", var_type=" ++ reprOptStr t ++
        ", initializer=" ++ reprOptExprR i ++ ", is_const=" ++
        (if c then "True" else "False") ++ ")"
  | .functionDecl n p r b =>
      "FunctionDecl(name=" ++ reprStr n ++ ", params=" ++ reprParams p ++
        ", return_type=" ++ reprOptStr r ++ ", body=" ++ reprStmt b ++ ")"
  | .ctorDecl p b =>
      "ConstructorDecl(params=" ++ reprParams p ++ ", body=" ++ reprStmt b ++ ")"
  | .classDecl n s m _ =>
      "ClassDecl(name=" ++ reprStr n ++ ", super_class=" ++
        (match s with
         | none => "None"
         | some sc => "Identifier(name=" ++ reprStr sc ++ ")") ++
        ", members=" ++ reprStmtList m ++ ")"
  | .ifStmt c t e =>
      "IfStatement(condition=" ++ reprExpr c ++ ", then_branch=" ++ reprStmt t ++
        ", else_branch=" ++ reprOptStmtR e ++ ")"
  | .whileStmt c b =>
      "WhileStatement(condition=" ++ reprExpr c ++ ", body=" ++ reprStmt b ++ ")"
  | .forStmt i c u b =>
      "ForStatement(init=" ++ reprOptStmtR i ++ ", condition=" ++ reprOptExprR c ++
        ", update=" ++ reprOptExprR u ++ ", body=" ++ reprStmt b ++ ")"
  | .returnStmt v => "ReturnStatement(value=" ++ reprOptExprR v ++ ")"
  | .breakStmt => "BreakStatement()"
  | .continueStmt => "ContinueStatement()"
  | .exprStmt e => "ExpressionStatement(expression=" ++ reprExpr e ++ ")"

/-- Python repr of a statement list. -/
def reprStmtList : List Statement → String
  | l => "[" ++ String.intercalate ", " (reprStmtListAux l) ++ "]"

/-- Elementwise reprs of a statement list. -/
def reprStmtListAux : List Statement → List String
  | [] => []
  | s :: r => reprStmt s :: reprStmtListAux r

/-- Repr of an optional statement field. -/
def reprOptStmtR : Option Statement → String
  | none => "None"
  | some s => reprStmt s

end

/-- Heap read. -/
def heapGet (s : St) (a : Nat) : Option Obj := s.heap.get? a

/-- Heap write at an existing address. -/
def heapSet (s : St) (a : Nat) (o : Obj) : St :=
  { s with heap := s.heap.set a o }

/-- Heap allocation: append a fresh object, return its address. -/
def heapAlloc (s : St) (o : Obj) : Nat × St :=
  (s.heap.length, { s with heap := s.heap ++ [o] })

/-- Work items for the fueled Python == computation (value comparison, list
contents, dict inclusion, dict key lookup).  A single fuel-structural
function keeps kernel reduction available for concrete evaluation. -/
inductive EqIn where
  | val (a b : Value)
  | list (xs ys : List Value)
  | dictIncl (xs ys : List (Value × Value))
  | dictLook (entries : List (Value × Value)) (k : Value)

/-- Results of pyEqGo: a boolean, or a dict lookup result. -/
inductive EqOut where
  | bool (b : Bool)
  | found (v : Option Value)

/-- Python == on runtime values (fueled; fuel only runs out on heap cycles,
where CPython instead detects recursion).  Numbers compare across
bool/int/float; lists and dicts compare by content; instances and classes by
identity (no user __eq__); FunctionDecl values structurally (dataclass ==).
Two distinct bound-method closures with equal components compare equal here
but not in Python (identity); no claim observes this. -/
def pyEqGo (heap : List Obj) : Nat → EqIn → Option EqOut
  | 0, _ => none
  | fuel + 1, task =>
    match task with
    | .val a b =>
      match numVal a, numVal b with
      | some x, some y => some (.bool (x = y))
      | _, _ =>
        match a, b with
        | .null, .null => some (.bool true)
        | .str x, .str y => some (.bool (x = y))
        | .list x, .list y =>
            match heap.get? x, heap.get? y with
            | some (.list ex), some (.list ey) => pyEqGo heap fuel (.list ex ey)
            | _, _ => some (.bool false)
        | .dict x, .dict y =>
            match heap.get? x, heap.get? y with
            | some (.dict ex), some (.dict ey) =>
                if ex.length = ey.length then pyEqGo heap fuel (.dictIncl ex ey)
                else some (.bool false)
            | _, _ => some (.bool false)
        | .inst x, .inst y => some (.bool (x = y))
        | .cls x, .cls y => some (.bool (x = y))
        | .funcDecl n1 p1 r1 b1, .funcDecl n2 p2 r2 b2 =>
            some (.bool (n1 == n2 && p1 == p2 && r1 == r2 && beqStmt b1 b2))
        | .boundMethod i1 n1 p1 r1 b1, .boundMethod i2 n2 p2 r2 b2 =>
            some (.bool (i1 == i2 && n1 == n2 && p1 == p2 && r1 == r2 &&
              beqStmt b1 b2))
        | .nativePf, .nativePf => some (.bool true)
        | .nativeClock, .nativeClock => some (.bool true)
        | _, _ => some (.bool false)
    | .list xs ys =>
      match xs, ys with
      | [], [] => some (.bool true)
      | x :: xr, y :: yr =>
          match pyEqGo heap fuel (.val x y) with
          | some (.bool true) => pyEqGo heap fuel (.list xr yr)
          | some (.bool false) => some (.bool false)
          | _ => none
      | _, _ => some (.bool false)
    | .dictIncl xs ys =>
      match xs with
      | [] => some (.bool true)
      | (k, v) :: rest =>
          match pyEqGo heap fuel (.dictLook ys k) with
          | some (.found none) => some (.bool false)
          | some (.found (some w)) =>
              match pyEqGo heap fuel (.val v w) with
              | some (.bool true) => pyEqGo heap fuel (.dictIncl rest ys)
              | some (.bool false) => some (.bool false)
              | _ => none
          | _ => none
    | .dictLook entries k =>
      match entries with
      | [] => some (.found none)
      | (k0, v0) :: rest =>
          match pyEqGo heap fuel (.val k0 k) with
          | some (.bool true) => some (.found (some v0))
          | some (.bool false) => pyEqGo heap fuel (.dictLook rest k)
          | _ => none

/-- Python == of two values. -/
def pyEq (fuel : Nat) (heap : List Obj) (a b : Value) : Option Bool :=
  match pyEqGo heap fuel (.val a b) with
  | some (.bool b) => some b
  | _ => none

/-- Dict entry lookup by Python == on keys. -/
def pyDictLookup (fuel : Nat) (heap : List Obj)
    (entries : List (Value × Value)) (k : Value) : Option (Option Value) :=
  match pyEqGo heap fuel (.dictLook entries k) with
  | some (.found r) => some r
  | _ => none

/-- Three-way comparison from decidable < and =. -/
def cmpRat (x y : Rat) : Ordering :=
  if x < y then .lt else if x = y then .eq else .gt

/-- Three-way comparison on strings (code-point lexicographic, as Python). -/
def cmpStr (x y : String) : Ordering :=
  if x < y then .lt else if x = y then .eq else .gt

/-- Work items for the fueled Python ordering comparison. -/
inductive CmpIn where
  | val (a b : Value)
  | list (xs ys : List Value)

/-- Python ordering comparison used by <, <=, >, >=.  Numbers compare across
bool/int/float, strings lexicographically, lists lexicographically
elementwise.  The error carries the type-name pair of the two values whose
comparison raised TypeError (for lists, the offending elements), from which
the caller builds the CPython message. -/
def pyCmpGo (heap : List Obj) : Nat → CmpIn → Option (Except (String × String) Ordering)
  | 0, _ => none
  | fuel + 1, task =>
    match task with
    | .val a b =>
      match numVal a, numVal b with
      | some x, some y => some (.ok (cmpRat x y))
      | _, _ =>
        match a, b with
        | .str x, .str y => some (.ok (cmpStr x y))
        | .list x, .list y =>
            match heap.get? x, heap.get? y with
            | some (.list ex), some (.list ey) => pyCmpGo heap fuel (.list ex ey)
            | _, _ => some (.error (typeName a, typeName b))
        | _, _ => some (.error (typeName a, typeName b))
    | .list xs ys =>
      match xs, ys with
      | [], [] => some (.ok .eq)
      | [], _ :: _ => some (.ok .lt)
      | _ :: _, [] => some (.ok .gt)
      | x :: xr, y :: yr =>
          match pyEqGo heap fuel (.val x y) with
          | some (.bool true) => pyCmpGo heap fuel (.list xr yr)
          | some (.bool false) => pyCmpGo heap fuel (.val x y)
          | _ => none

/-- Python comparison of two values. -/
def pyCmp (fuel : Nat) (heap : List Obj) (a b : Value) :
    Option (Except (String × String) Ordering) :=
  pyCmpGo heap fuel (.val a b)

/-- Work items for the fueled value printer. -/
inductive StrIn where
  | val (v : Value) (strq : Bool)
  | list (vs : List Value)
  | dict (entries : List (Value × Value))

/-- Printer results: a string, or the collected element strings. -/
inductive StrOut where
  | str (s : String)
  | parts (l : List String)

/-- Python str()/repr() of a runtime value; strq true selects repr (quotes
around strings; default object repr for classes and instances).  Fueled for
heap recursion; where CPython default reprs embed the object memory address,
the address is omitted (machine addresses are outside the model). -/
def pyStrGo (heap : List Obj) : Nat → StrIn → Option StrOut
  | 0, _ => none
  | fuel + 1, task =>
    match task with
    | .val v strq =>
      match v with
      | .null => some (.str "None")
      | .bool b => some (.str (if b then "True" else "False"))
      | .int n => some (.str (toString n))
      | .float q => some (.str (ratRepr q))
      | .str s => some (.str (if strq then reprStr s else s))
      | .list a =>
          match heap.get? a with
          | some (.list elems) =>
              match pyStrGo heap fuel (.list elems) with
              | some (.parts parts) =>
                  some (.str ("[" ++ String.intercalate ", " parts ++ "]"))
              | _ => none
          | _ => none
      | .dict a =>
          match heap.get? a with
          | some (.dict entries) =>
              match pyStrGo heap fuel (.dict entries) with
              | some (.parts parts) =>
                  some (.str ("\x7b" ++ String.intercalate ", " parts ++ "\x7d"))
              | _ => none
          | _ => none
      | .funcDecl n p r b => some (.str (reprStmt (.functionDecl n p r b)))
      | .cls a =>
          match heap.get? a with
          | some (.cls n _ _ _) =>
              some (.str (if strq then "<interpreter.interpreter.LNGClass object>"
                else "<class " ++ n ++ ">"))
          | _ => none
      | .inst a =>
          match heap.get? a with
          | some (.inst k _) =>
              if strq then some (.str "<interpreter.interpreter.LNGInstance object>")
              else
                match heap.get? k with
                | some (.cls n _ _ _) => some (.str ("<instance of " ++ n ++ ">"))
                | _ => none
          | _ => none
      | .boundMethod _ _ _ _ _ =>
          some (.str "<function LNGInstance.bind_method.<locals>.bound_method>")
      | .nativePf => some (.str "<bound method Interpreter.native_print>")
      | .nativeClock => some (.str "<bound method Interpreter.native_clock>")
    | .list vs =>
      match vs with
      | [] => some (.parts [])
      | v :: rest =>
          match pyStrGo heap fuel (.val v true) with
          | some (.str s) =>
              match pyStrGo heap fuel (.list rest) with
              | some (.parts ss) => some (.parts (s :: ss))
              | _ => none
          | _ => none
    | .dict entries =>
      match entries with
      | [] => some (.parts [])
      | (k, v) :: rest =>
          match pyStrGo heap fuel (.val k true), pyStrGo heap fuel (.val v true) with
          | some (.str ks), some (.str vs) =>
              match pyStrGo heap fuel (.dict rest) with
              | some (.parts ss) => some (.parts ((ks ++ ": " ++ vs) :: ss))
              | _ => none
          | _, _ => none

/-- Python str() of a value: like repr but strings print without quotes and
LNGClass and LNGInstance use their __str__ methods. -/
def pyStrV (fuel : Nat) (heap : List Obj) (v : Value) : Option String :=
  match pyStrGo heap fuel (.val v false) with
  | some (.str s) => some s
  | _ => none

/-! ## Environments (class Environment, interpreter.py lines 9 to 41) -/

/-- In-place update of the i-th element of a list. -/
def listModify {α : Type} : List α → Nat → (α → α) → List α
  | [], _, _ => []
  | x :: r, 0, f => f x :: r
  | x :: r, n + 1, f => x :: listModify r n f

/-- Environment.get: look in this scope, else walk the enclosing chain.
Internally fueled; enclosing pointers always reference earlier store entries,
so the store length bounds the chain and the fuel never runs out on states
the interpreter builds (outer none is the unreachable dangling case; inner
none means the name is nowhere defined, which Environment.get turns into the
runtime error).  The result some none is the raised exception case. -/
def envGetGo (envs : List Env) : Nat → Nat → String → Option (Option Value)
  | 0, _, _ => none
  | fuel + 1, id, name =>
    match envs.get? id with
    | none => some none
    | some e =>
      match dictFind e.values name with
      | some v => some (some v)
      | none =>
        match e.enclosing with
        | some p => envGetGo envs fuel p name
        | none => some none

/-- Environment.get from the current environment of a state. -/
def envGet (s : St) (name : String) : Option (Option Value) :=
  envGetGo s.envs (s.envs.length + 1) s.env name

/-- Environment.assign: set in the scope that defines the name, walking the
enclosing chain; some none means no scope defines it (the raised error). -/
def envAssignGo (envs : List Env) : Nat → Nat → String → Value →
    Option (Option (List Env))
  | 0, _, _, _ => none
  | fuel + 1, id, name, v =>
    match envs.get? id with
    | none => some none
    | some e =>
      match dictFind e.values name with
      | some _ =>
          some (some (listModify envs id (fun e0 =>
            { e0 with values := dictInsert e0.values name v })))
      | none =>
        match e.enclosing with
        | some p => envAssignGo envs fuel p name v
        | none => some none

/-- Environment.assign from the current environment of a state. -/
def envAssign (s : St) (name : String) (v : Value) : Option (Option St) :=
  match envAssignGo s.envs (s.envs.length + 1) s.env name v with
  | none => none
  | some none => some none
  | some (some envs) => some (some { s with envs := envs })

/-- Environment.define in the current environment. -/
def envDefine (s : St) (name : String) (v : Value) : St :=
  { s with envs := listModify s.envs s.env (fun e =>
      { e with values := dictInsert e.values name v }) }

/-- Environment.define in a given environment of the store. -/
def envDefineAt (s : St) (id : Nat) (name : String) (v : Value) : St :=
  { s with envs := listModify s.envs id (fun e =>
      { e with values := dictInsert e.values name v }) }

/-- Allocate Environment(enclosing): a fresh empty scope whose parent is the
given environment; returns its store index. -/
def envAlloc (s : St) (parent : Nat) : Nat × St :=
  (s.envs.length, { s with envs := s.envs ++ [⟨[], some parent⟩] })

/-- Bind parameters positionally in an environment (the define loop of the
call paths); arity was checked by the caller. -/
def bindParams (s : St) (id : Nat) (params : List Param) (args : List Value) : St :=
  match params, args with
  | p :: ps, a :: as_ => bindParams (envDefineAt s id p.name a) id ps as_
  | _, _ => s

/-- LNGClass.find_method: the method dict of the class, else the superclass
chain.  Superclass addresses always precede the class in the heap, so the
heap length bounds the chain (outer none is unreachable). -/
def findMethodGo (heap : List Obj) : Nat → Nat → String → Option (Option Value)
  | 0, _, _ => none
  | fuel + 1, a, name =>
    match heap.get? a with
    | some (.cls _ superc methods _) =>
      match dictFind methods name with
      | some m => some (some m)
      | none =>
        match superc with
        | some sa => findMethodGo heap fuel sa name
        | none => some none
    | _ => some none

/-- find_method from a class address. -/
def findMethod (heap : List Obj) (a : Nat) (name : String) : Option (Option Value) :=
  findMethodGo heap (heap.length + 1) a name

/-! ## Host arithmetic (the Python operators applied by evaluate) -/

/-- Exceptions.  err is a Python exception carrying its message (Exception
raised by the interpreter, or a host TypeError and friends); ret, brk and
cont are ReturnException, BreakException and ContinueException.  All of them
are Exception subclasses in Python, so the catch-all in interpret catches
every constructor. -/
inductive Exc where
  | err (msg : String)
  | ret (v : Value)
  | brk
  | cont

/-- The CPython message of an unsupported binary operation. -/
def unsupportedMsg (op : String) (a b : Value) : String :=
  "unsupported operand type(s) for " ++ op ++ ": \x27" ++ typeName a ++
    "\x27 and \x27" ++ typeName b ++ "\x27"

/-- Sum with Python numeric promotion: int-like pairs stay int, any float
makes a float. -/
def numAdd (a b : Value) : Value :=
  if isIntLike a && isIntLike b then .int (intOf a + intOf b)
  else .float ((numVal a).getD 0 + (numVal b).getD 0)

/-- Product with Python numeric promotion. -/
def numMul (a b : Value) : Value :=
  if isIntLike a && isIntLike b then .int (intOf a * intOf b)
  else .float ((numVal a).getD 0 * (numVal b).getD 0)

/-- Difference with Python numeric promotion. -/
def numSub (a b : Value) : Value :=
  if isIntLike a && isIntLike b then .int (intOf a - intOf b)
  else .float ((numVal a).getD 0 - (numVal b).getD 0)

/-- String repetition (s * n, n an int-like value; negative gives ""). -/
def strRepeat (s : String) (n : Int) : String :=
  String.join (List.replicate n.toNat s)

/-- List repetition ([..] * n). -/
def listRepeat {α : Type} (l : List α) (n : Int) : List α :=
  List.flatten (List.replicate n.toNat l)

/-- Python + (interpreter line 394): numbers, string concatenation, list
concatenation (which allocates), with CPython TypeError texts otherwise. -/
def pyAdd (s : St) (a b : Value) : Except Exc Value × St :=
  match numVal a, numVal b with
  | some _, some _ => (.ok (numAdd a b), s)
  | _, _ =>
    match a, b with
    | .str x, .str y => (.ok (.str (x ++ y)), s)
    | .list x, .list y =>
        match heapGet s x, heapGet s y with
        | some (.list ex), some (.list ey) =>
            (.ok (.list (heapAlloc s (.list (ex ++ ey))).1),
              (heapAlloc s (.list (ex ++ ey))).2)
        | _, _ => (.error (.err "unreachable: dangling heap address"), s)
    | .str _, _ =>
        (.error (.err ("can only concatenate str (not \x22" ++ typeName b ++
          "\x22) to str")), s)
    | .list _, _ =>
        (.error (.err ("can only concatenate list (not \x22" ++ typeName b ++
          "\x22) to list")), s)
    | _, _ => (.error (.err (unsupportedMsg "+" a b)), s)

/-- Python - (interpreter line 395): numbers only. -/
def pySub (s : St) (a b : Value) : Except Exc Value × St :=
  match numVal a, numVal b with
  | some _, some _ => (.ok (numSub a b), s)
  | _, _ => (.error (.err (unsupportedMsg "-" a b)), s)

/-- Python * (interpreter line 396): numbers, sequence repetition. -/
def pyMul (s : St) (a b : Value) : Except Exc Value × St :=
  match numVal a, numVal b with
  | some _, some _ => (.ok (numMul a b), s)
  | _, _ =>
    match a, b with
    | .str x, v =>
        if isIntLike v then (.ok (.str (strRepeat x (intOf v))), s)
        else (.error (.err ("can\x27t multiply sequence by non-int of type \x27" ++
          typeName v ++ "\x27")), s)
    | v, .str x =>
        if isIntLike v then (.ok (.str (strRepeat x (intOf v))), s)
        else (.error (.err (unsupportedMsg "*" a b)), s)
    | .list x, v =>
        if isIntLike v then
          match heapGet s x with
          | some (.list ex) =>
              (.ok (.list (heapAlloc s (.list (listRepeat ex (intOf v)))).1),
                (heapAlloc s (.list (listRepeat ex (intOf v)))).2)
          | _ => (.error (.err "unreachable: dangling heap address"), s)
        else (.error (.err ("can\x27t multiply sequence by non-int of type \x27" ++
          typeName v ++ "\x27")), s)
    | v, .list x =>
        if isIntLike v then
          match heapGet s x with
          | some (.list ex) =>
              (.ok (.list (heapAlloc s (.list (listRepeat ex (intOf v)))).1),
                (heapAlloc s (.list (listRepeat ex (intOf v)))).2)
          | _ => (.error (.err "unreachable: dangling heap address"), s)
        else (.error (.err (unsupportedMsg "*" a b)), s)
    | _, _ => (.error (.err (unsupportedMsg "*" a b)), s)

/-- Python / (interpreter line 397): true division, always a float. -/
def pyDiv (s : St) (a b : Value) : Except Exc Value × St :=
  match numVal a, numVal b with
  | some x, some y =>
      if y = 0 then
        if isIntLike a && isIntLike b then
          (.error (.err "division by zero"), s)
        else (.error (.err "float division by zero"), s)
      else (.ok (.float (x / y)), s)
  | _, _ => (.error (.err (unsupportedMsg "/" a b)), s)

/-- Python % (interpreter line 398): int and float modulo with Python sign
convention (Int.fmod and the floor formula agree with CPython).  A string
left operand is %-formatting; the language never produces format specifiers,
so the constant everything-unconsumed TypeError is the modelled outcome. -/
def pyMod (s : St) (a b : Value) : Except Exc Value × St :=
  if isIntLike a && isIntLike b then
    if intOf b = 0 then (.error (.err "integer division or modulo by zero"), s)
    else (.ok (.int (Int.fmod (intOf a) (intOf b))), s)
  else
    match numVal a, numVal b with
    | some x, some y =>
        if y = 0 then (.error (.err "float modulo"), s)
        else (.ok (.float (x - y * (Rat.floor (x / y) : Int))), s)
    | _, _ =>
      match a with
      | .str _ =>
          (.error (.err "not all arguments converted during string formatting"), s)
      | _ => (.error (.err (unsupportedMsg "%" a b)), s)

/-- Dispatch of the five arithmetic operators by token name, as evaluate does
for BinaryOp and the compound-assignment paths reproduce via the same host
operators. -/
def pyArith (s : St) (op : String) (a b : Value) : Option (Except Exc Value × St) :=
  if op = "PLUS" then some (pyAdd s a b)
  else if op = "MINUS" then some (pySub s a b)
  else if op = "MUL" then some (pyMul s a b)
  else if op = "DIV" then some (pyDiv s a b)
  else if op = "MOD" then some (pyMod s a b)
  else none

/-- Python list read indexing: int indices wrap from the end when negative;
outside -n..n-1 is IndexError. -/
def pyListGet (elems : List Value) (i : Int) : Option Value :=
  let n : Int := elems.length
  if 0 ≤ i && i < n then elems.get? i.toNat
  else if -n ≤ i && i < 0 then elems.get? (i + n).toNat
  else none

/-- Python list write indexing, same index rule. -/
def pyListSet (elems : List Value) (i : Int) (v : Value) : Option (List Value) :=
  let n : Int := elems.length
  if 0 ≤ i && i < n then some (elems.set i.toNat v)
  else if -n ≤ i && i < 0 then some (elems.set (i + n).toNat v)
  else none

/-- Hashability of a value as a Python dict key: lists and dicts are
unhashable, and dataclasses with eq (the AST nodes, hence FunctionDecl
values) have __hash__ None. -/
def isHashable : Value → Bool
  | .list _ => false
  | .dict _ => false
  | .funcDecl _ _ _ _ => false
  | _ => true

/-- Dict write with Python == key matching: replace the first equal key,
else append (insertion order preserved). -/
def pyDictInsertV (fuel : Nat) (heap : List Obj)
    (entries : List (Value × Value)) (k : Value) (v : Value) :
    Option (List (Value × Value)) :=
  match entries with
  | [] => some [(k, v)]
  | (k0, v0) :: rest =>
      match pyEq fuel heap k0 k with
      | none => none
      | some true => some ((k0, v) :: rest)
      | some false =>
          match pyDictInsertV fuel heap rest k v with
          | none => none
          | some r => some ((k0, v0) :: r)

/-! ## The tree-walking interpreter (Interpreter.execute / Interpreter.evaluate)

One fuel-structural function run covers Interpreter.execute,
Interpreter.evaluate, Interpreter.execute_block, the while / for loop bodies
and the three call paths (FunctionDecl call, LNGClass.__call__, bound
method).  Each Task constructor names the piece of Python control flow it
embeds.  Fuel decreases on every recursive call; none is fuel exhaustion,
reachable only for runs the Python program would continue longer than the
supplied fuel (including genuine nontermination). -/

/-- Fuel for the fueled host helpers (Python ==, ordering, str()) when the
interpreter invokes them: a generous bound derived from the current heap.
On every acyclic heap a run of those helpers visits bounded structure; on a
cyclic heap (where CPython would detect recursion) the helpers return none,
which surfaces as interpreter fuel exhaustion, never as a wrong value. -/
def objSize : Obj → Nat
  | .list elems => elems.length + 2
  | .dict entries => 2 * entries.length + 2
  | .inst _ fields => fields.length + 2
  | .cls _ _ methods _ => methods.length + 2

/-- See objSize. -/
def heapFuel (heap : List Obj) : Nat :=
  (heap.foldl (fun a o => a + objSize o) 2) ^ (heap.length + 2)

/-- Work items of the interpreter. -/
inductive Task where
  | expr (e : Expression)
  | stmt (s : Statement)
  | seq (l : List Statement)
  | exprs (l : List Expression)
  | whileLoop (cond : Expression) (body : Statement)
  | forLoop (cond : Option Expression) (body : Statement) (update : Option Expression)

/-- Results of run: statements yield unit, expressions a value, expression
lists their values. -/
inductive Out where
  | unit
  | val (v : Value)
  | vals (vs : List Value)

/-- Interpreter results: none is fuel exhaustion, otherwise an outcome (value
or in-flight exception) with the post-state. -/
abbrev RRes := Option (Except Exc Out × St)

/-- Sequencing with exception propagation (the ordinary statement-after-
statement and subexpression flow of the Python code). -/
def andThenR (r : RRes) (k : Out → St → RRes) : RRes :=
  match r with
  | none => none
  | some (.error e, s) => some (.error e, s)
  | some (.ok o, s) => k o s

/-- The value of an expression outcome (run on Task.expr always produces
Out.val; the default is never read). -/
def outVal : Out → Value
  | .val v => v
  | _ => .null

/-- The values of an expression-list outcome. -/
def outVals : Out → List Value
  | .vals vs => vs
  | _ => []

/-- Restore a previous current-environment pointer on every outcome: the
finally clause of execute_block and of the ForStatement handler. -/
def withEnvRes (previous : Nat) (x : RRes) : RRes :=
  match x with
  | none => none
  | some (r, s1) => some (r, { s1 with env := previous })

/-- execute_block (interpreter.py lines 282 to 290): run the statements with
the given environment current, restoring the previous one on every exit path
(the try/finally).  Parameterized by the recursive interpreter at the next
fuel level. -/
def withEnvRun (stepSeq : List Statement → St → RRes)
    (envId : Nat) (stmts : List Statement) (s : St) : RRes :=
  withEnvRes s.env (stepSeq stmts { s with env := envId })

/-- Apply a compound-assignment operator (the PLUS_EQ .. MOD_EQ chains of the
three assignment paths); unknownMsg is the message of the final else (it
differs between the Identifier path and the member/index paths). -/
def applyCompound (s : St) (op : String) (unknownMsg : String)
    (current v : Value) : Except Exc Value × St :=
  if op = "PLUS_EQ" then pyAdd s current v
  else if op = "MINUS_EQ" then pySub s current v
  else if op = "MUL_EQ" then pyMul s current v
  else if op = "DIV_EQ" then pyDiv s current v
  else if op = "MOD_EQ" then pyMod s current v
  else (.error (.err (unknownMsg ++ op)), s)

/-- The Identifier assignment path (interpreter.py lines 310 to 328): plain
EQ assigns along the chain; a compound operator reads the current value,
applies the host operator and assigns. -/
def assignIdent (name : String) (op : String) (v : Value) (s1 : St) : RRes :=
  if op = "EQ" then
    match envAssign s1 name v with
    | none => none
    | some none =>
        some (.error (.err ("Variable non définie \x27" ++ name ++ "\x27.")), s1)
    | some (some s2) => some (.ok (.val v), s2)
  else
    match envGet s1 name with
    | none => none
    | some none =>
        some (.error (.err ("Variable non définie \x27" ++ name ++ "\x27.")), s1)
    | some (some current) =>
      match applyCompound s1 op "Opérateur d\x27assignation inconnu: " current v with
      | (.error e, s2) => some (.error e, s2)
      | (.ok v2, s2) =>
        match envAssign s2 name v2 with
        | none => none
        | some none =>
            some (.error (.err ("Variable non définie \x27" ++ name ++ "\x27.")), s2)
        | some (some s3) => some (.ok (.val v2), s3)

/-- LNGInstance.get_field (interpreter.py lines 113 to 124): field dict
first, then the method chain (returned as a bound-method closure), else the
undefined-property error.  The none result is the unreachable dangling-chain
fuel case; the some catch-all arm is only reached when find_method misses,
since method tables hold FunctionDecl values by construction. -/
def instGetField (heap : List Obj) (a k : Nat) (fields : List (String × Value))
    (member : String) : Option (Except Exc Value) :=
  match dictFind fields member with
  | some c => some (.ok c)
  | none =>
    match findMethod heap k member with
    | some (some (.funcDecl n p r b)) => some (.ok (.boundMethod a n p r b))
    | none => none
    | some _ =>
        some (.error (.err ("Propriété non définie \x27" ++ member ++
          "\x27 sur l\x27objet de type " ++
          (match heap.get? k with
           | some (.cls n _ _ _) => n
           | _ => "?") ++ ".")))

/-- The MemberAccess assignment path (interpreter.py lines 330 to 355), after
the object expression was evaluated to objV. -/
def assignMember (member : String) (op : String) (v objV : Value) (s2 : St) : RRes :=
  match objV with
  | .inst a =>
      (match heapGet s2 a with
      | some (.inst k fields) =>
          if op = "EQ" then
            some (.ok (.val v),
              heapSet s2 a (.inst k (dictInsert fields member v)))
          else
            match instGetField s2.heap a k fields member with
            | none => none
            | some (.error e) => some (.error e, s2)
            | some (.ok current) =>
              match applyCompound s2 op
                  "Opérateur d\x27assignation composé inconnu: " current v with
              | (.error e, s3) => some (.error e, s3)
              | (.ok v2, s3) =>
                match heapGet s3 a with
                | some (.inst k2 fields2) =>
                    some (.ok (.val v2),
                      heapSet s3 a (.inst k2 (dictInsert fields2 member v2)))
                | _ => some (.error (.err "unreachable: dangling heap address"), s3)
      | _ => some (.error (.err "unreachable: dangling heap address"), s2))
  | _ => some (.error (.err "Accès membre sur une valeur non-instance."), s2)

/-- The IndexAccess assignment path (interpreter.py lines 357 to 386), after
collection and index were evaluated. -/
def assignIndex (op : String) (v collection index : Value) (s3 : St) : RRes :=
  match collection with
  | .list a =>
      if isIntLike index then
        (match heapGet s3 a with
        | some (.list elems) =>
            if op = "EQ" then
              match pyListSet elems (intOf index) v with
              | some elems2 =>
                  some (.ok (.val v), heapSet s3 a (.list elems2))
              | none =>
                  some (.error (.err "list assignment index out of range"), s3)
            else
              match pyListGet elems (intOf index) with
              | none => some (.error (.err "list index out of range"), s3)
              | some current =>
                match applyCompound s3 op
                    "Opérateur d\x27assignation composé inconnu: " current v with
                | (.error e, s4) => some (.error e, s4)
                | (.ok v2, s4) =>
                  match heapGet s4 a with
                  | some (.list elems2) =>
                      (match pyListSet elems2 (intOf index) v2 with
                      | some elems3 =>
                          some (.ok (.val v2), heapSet s4 a (.list elems3))
                      | none =>
                          some (.error (.err "list assignment index out of range"), s4))
                  | _ => some (.error (.err "unreachable: dangling heap address"), s4)
        | _ => some (.error (.err "unreachable: dangling heap address"), s3))
      else
        some (.error (.err "L\x27index de liste doit être un entier."), s3)
  | .dict a =>
      (match heapGet s3 a with
      | some (.dict entries) =>
          if isHashable index then
            if op = "EQ" then
              match pyDictInsertV (heapFuel s3.heap) s3.heap entries index v with
              | none => none
              | some entries2 =>
                  some (.ok (.val v), heapSet s3 a (.dict entries2))
            else
              match pyDictLookup (heapFuel s3.heap) s3.heap entries index with
              | none => none
              | some none =>
                  match pyStrGo s3.heap (heapFuel s3.heap) (.val index true) with
                  | some (.str ks) => some (.error (.err ks), s3)
                  | _ => none
              | some (some current) =>
                match applyCompound s3 op
                    "Opérateur d\x27assignation composé inconnu: " current v with
                | (.error e, s4) => some (.error e, s4)
                | (.ok v2, s4) =>
                  match heapGet s4 a with
                  | some (.dict entries2) =>
                      (match pyDictInsertV (heapFuel s4.heap) s4.heap entries2 index v2 with
                      | none => none
                      | some entries3 =>
                          some (.ok (.val v2), heapSet s4 a (.dict entries3)))
                  | _ => some (.error (.err "unreachable: dangling heap address"), s4)
          else
            some (.error (.err ("unhashable type: \x27" ++
              typeName index ++ "\x27")), s3)
      | _ => some (.error (.err "unreachable: dangling heap address"), s3))
  | _ =>
      some (.error (.err
        "L\x27indexation n\x27est supportée que sur les listes ou dictionnaires."), s3)

/-- BinaryOp dispatch on the operator token (interpreter.py lines 394 to
408), after both operands were evaluated. -/
def binOpEval (op : String) (l r : Value) (s2 : St) : RRes :=
  if op = "AND" then
    some (.ok (.val (.bool (isTruthy l && isTruthy r))), s2)
  else if op = "OR" then
    some (.ok (.val (.bool (isTruthy l || isTruthy r))), s2)
  else if op = "EQ_EQ" then
    match pyEq (heapFuel s2.heap) s2.heap l r with
    | none => none
    | some b => some (.ok (.val (.bool b)), s2)
  else if op = "NOT_EQ" then
    match pyEq (heapFuel s2.heap) s2.heap l r with
    | none => none
    | some b => some (.ok (.val (.bool (!b))), s2)
  else if op = "GREATER" then
    match pyCmp (heapFuel s2.heap) s2.heap l r with
    | none => none
    | some (.error (ta, tb)) =>
        some (.error (.err ("\x27>\x27 not supported between instances of \x27" ++
          ta ++ "\x27 and \x27" ++ tb ++ "\x27")), s2)
    | some (.ok o) => some (.ok (.val (.bool (o = .gt))), s2)
  else if op = "GREATER_EQ" then
    match pyCmp (heapFuel s2.heap) s2.heap l r with
    | none => none
    | some (.error (ta, tb)) =>
        some (.error (.err ("\x27>=\x27 not supported between instances of \x27" ++
          ta ++ "\x27 and \x27" ++ tb ++ "\x27")), s2)
    | some (.ok o) => some (.ok (.val (.bool (o ≠ .lt))), s2)
  else if op = "LESS" then
    match pyCmp (heapFuel s2.heap) s2.heap l r with
    | none => none
    | some (.error (ta, tb)) =>
        some (.error (.err ("\x27<\x27 not supported between instances of \x27" ++
          ta ++ "\x27 and \x27" ++ tb ++ "\x27")), s2)
    | some (.ok o) => some (.ok (.val (.bool (o = .lt))), s2)
  else if op = "LESS_EQ" then
    match pyCmp (heapFuel s2.heap) s2.heap l r with
    | none => none
    | some (.error (ta, tb)) =>
        some (.error (.err ("\x27<=\x27 not supported between instances of \x27" ++
          ta ++ "\x27 and \x27" ++ tb ++ "\x27")), s2)
    | some (.ok o) => some (.ok (.val (.bool (o ≠ .gt))), s2)
  else
    match pyArith s2 op l r with
    | some (.ok v, s3) => some (.ok (.val v), s3)
    | some (.error e, s3) => some (.error e, s3)
    | none =>
        some (.error (.err ("Opérateur binaire inconnu: " ++ op)), s2)

/-- UnaryOp dispatch (interpreter.py lines 410 to 414). -/
def unaryEval (op : String) (v : Value) (s1 : St) : RRes :=
  if op = "MINUS" then
    if isIntLike v then some (.ok (.val (.int (-(intOf v)))), s1)
    else
      match v with
      | .float q => some (.ok (.val (.float (-q))), s1)
      | _ => some (.error (.err ("bad operand type for unary -: \x27" ++
          typeName v ++ "\x27")), s1)
  else if op = "NOT" then
    some (.ok (.val (.bool (!isTruthy v))), s1)
  else some (.error (.err ("Opérateur unaire inconnu: " ++ op)), s1)

/-- MemberAccess read (interpreter.py lines 442 to 454), after the target
was evaluated. -/
def memberEval (member : String) (obj : Value) (s1 : St) : RRes :=
  match obj with
  | .inst a =>
      (match heapGet s1 a with
      | some (.inst k fields) =>
          (match instGetField s1.heap a k fields member with
          | none => none
          | some (.ok v) => some (.ok (.val v), s1)
          | some (.error e) => some (.error e, s1))
      | _ => some (.error (.err "unreachable: dangling heap address"), s1))
  | .dict a =>
      (match heapGet s1 a with
      | some (.dict entries) =>
          (match pyDictLookup (heapFuel s1.heap) s1.heap entries (.str member) with
          | none => none
          | some (some v) => some (.ok (.val v), s1)
          | some none =>
              some (.error (.err ("Propriété non définie \x27" ++ member ++
                "\x27 sur l\x27objet littéral.")), s1))
      | _ => some (.error (.err "unreachable: dangling heap address"), s1))
  | _ =>
      some (.error (.err ("Accès membre invalide sur l\x27objet de type " ++
        typeFullName obj ++ ".")), s1)

/-- IndexAccess read (interpreter.py lines 456 to 466), after the target and
index were evaluated. -/
def indexEval (collection index : Value) (s2 : St) : RRes :=
  match collection with
  | .list a =>
      (match heapGet s2 a with
      | some (.list elems) =>
          if isIntLike index then
            match pyListGet elems (intOf index) with
            | some v => some (.ok (.val v), s2)
            | none =>
                match pyStrV (heapFuel s2.heap) s2.heap index with
                | none => none
                | some si =>
                    some (.error (.err ("Index ou clé invalide: " ++ si ++ ".")), s2)
          else
            some (.error (.err ("list indices must be integers or slices, not " ++
              typeName index)), s2)
      | _ => some (.error (.err "unreachable: dangling heap address"), s2))
  | .dict a =>
      (match heapGet s2 a with
      | some (.dict entries) =>
          if isHashable index then
            match pyDictLookup (heapFuel s2.heap) s2.heap entries index with
            | none => none
            | some (some v) => some (.ok (.val v), s2)
            | some none =>
                match pyStrV (heapFuel s2.heap) s2.heap index with
                | none => none
                | some si =>
                    some (.error (.err ("Index ou clé invalide: " ++ si ++ ".")), s2)
          else
            some (.error (.err ("unhashable type: \x27" ++ typeName index ++ "\x27")), s2)
      | _ => some (.error (.err "unreachable: dangling heap address"), s2))
  | _ =>
      some (.error (.err ("L\x27indexation n\x27est pas supportée sur le type " ++
        typeFullName collection ++ ".")), s2)

/-- native_print (interpreter.py lines 174 to 175): append the space-joined
str() forms of the arguments as one output line. -/
def callNativePf (args : List Value) (s2 : St) : RRes :=
  match args.foldr (fun v acc =>
      match acc with
      | none => none
      | some tail =>
        match pyStrV (heapFuel s2.heap) s2.heap v with
        | none => none
        | some sv => some (sv :: tail)) (some []) with
  | none => none
  | some parts =>
      some (.ok (.val .null),
        { s2 with output := s2.output ++ [String.intercalate " " parts] })

/-- A call of a FunctionDecl value (interpreter.py lines 423 to 435): arity
check, a child of the CURRENT environment (no captured environment exists),
positional parameter binding, body in execute_block, ReturnException caught. -/
def callFuncDecl (rec : Task → St → RRes) (params : List Param) (body : Statement)
    (args : List Value) (s2 : St) : RRes :=
  if args.length ≠ params.length then
    some (.error (.err ("Attendait " ++ toString params.length ++
      " arguments mais " ++ toString args.length ++ " reçus.")), s2)
  else
    match withEnvRun (fun l s => rec (.seq l) s) (envAlloc s2 s2.env).1
        (blockStatements body)
        (bindParams (envAlloc s2 s2.env).2 (envAlloc s2 s2.env).1 params args) with
    | none => none
    | some (.ok _, s5) => some (.ok (.val .null), s5)
    | some (.error (.ret v), s5) => some (.ok (.val v), s5)
    | some (.error e, s5) => some (.error e, s5)

/-- A call of a bound method (LNGInstance.bind_method, interpreter.py lines
130 to 150): child of the current environment with this bound to the
instance, arity check, body, ReturnException caught. -/
def callBoundMethod (rec : Task → St → RRes) (instAddr : Nat) (mname : String)
    (params : List Param) (body : Statement) (args : List Value) (s2 : St) : RRes :=
  if args.length ≠ params.length then
    some (.error (.err ("Méthode " ++ mname ++ " attendait " ++
      toString params.length ++ " arguments mais " ++
      toString args.length ++ " reçus.")),
      envDefineAt (envAlloc s2 s2.env).2 (envAlloc s2 s2.env).1 "this"
        (.inst instAddr))
  else
    match withEnvRun (fun l s => rec (.seq l) s) (envAlloc s2 s2.env).1
        (blockStatements body)
        (bindParams (envDefineAt (envAlloc s2 s2.env).2 (envAlloc s2 s2.env).1
          "this" (.inst instAddr)) (envAlloc s2 s2.env).1 params args) with
    | none => none
    | some (.ok _, s6) => some (.ok (.val .null), s6)
    | some (.error (.ret v), s6) => some (.ok (.val v), s6)
    | some (.error e, s6) => some (.error e, s6)

/-- A call of an LNGClass (its __call__, interpreter.py lines 77 to 102):
allocate the instance, then run the declared constructor, if any, in a child
of the current environment with this bound; a ReturnException carrying a
non-None value is an error. -/
def callClassV (rec : Task → St → RRes) (a : Nat) (args : List Value) (s2 : St) : RRes :=
  match heapGet s2 a with
  | some (.cls cname _ _ ctor) =>
      (match ctor with
      | none => some (.ok (.val (.inst (heapAlloc s2 (.inst a [])).1)),
          (heapAlloc s2 (.inst a [])).2)
      | some (params, body) =>
          if args.length ≠ params.length then
            some (.error (.err ("Constructeur de " ++ cname ++
              " attendait " ++ toString params.length ++
              " arguments mais " ++ toString args.length ++ " reçus.")),
              envDefineAt
                (envAlloc (heapAlloc s2 (.inst a [])).2
                  (heapAlloc s2 (.inst a [])).2.env).2
                (envAlloc (heapAlloc s2 (.inst a [])).2
                  (heapAlloc s2 (.inst a [])).2.env).1
                "this" (.inst (heapAlloc s2 (.inst a [])).1))
          else
            match withEnvRun (fun l s => rec (.seq l) s)
                (envAlloc (heapAlloc s2 (.inst a [])).2
                  (heapAlloc s2 (.inst a [])).2.env).1
                (blockStatements body)
                (bindParams (envDefineAt
                  (envAlloc (heapAlloc s2 (.inst a [])).2
                    (heapAlloc s2 (.inst a [])).2.env).2
                  (envAlloc (heapAlloc s2 (.inst a [])).2
                    (heapAlloc s2 (.inst a [])).2.env).1
                  "this" (.inst (heapAlloc s2 (.inst a [])).1))
                  (envAlloc (heapAlloc s2 (.inst a [])).2
                    (heapAlloc s2 (.inst a [])).2.env).1
                  params args) with
            | none => none
            | some (.ok _, s7) =>
                some (.ok (.val (.inst (heapAlloc s2 (.inst a [])).1)), s7)
            | some (.error (.ret v), s7) =>
                (match v with
                | .null =>
                    some (.ok (.val (.inst (heapAlloc s2 (.inst a [])).1)), s7)
                | _ =>
                  some (.error (.err
                    "Ne peut pas retourner de valeur depuis un constructeur."), s7))
            | some (.error e, s7) => some (.error e, s7))
  | _ => some (.error (.err "unreachable: dangling heap address"), s2)

/-- One step of the interpreter: the body of Interpreter.execute and
Interpreter.evaluate with every recursive interpretation delegated to rec
(the interpreter at the next lower fuel) and fuel used only by the fueled
host helpers (equality, comparison, printing on the heap).  Keeping the step
as a functional lets the fuel-monotonicity and state-invariant lemmas be
proved once, by one case analysis. -/
def runStep (rec : Task → St → RRes) (task : Task) (s : St) : RRes :=
    match task with
    /- Statement lists: the top-level loop of interpret and the body loop of
    execute_block. -/
    | .seq [] => some (.ok .unit, s)
    | .seq (st :: rest) =>
        andThenR (rec (.stmt st) s) fun _ s1 => rec (.seq rest) s1
    /- Argument/element lists: evaluated left to right. -/
    | .exprs [] => some (.ok (.vals []), s)
    | .exprs (e :: rest) =>
        andThenR (rec (.expr e) s) fun o s1 =>
        andThenR (rec (.exprs rest) s1) fun os s2 =>
        some (.ok (.vals (outVal o :: outVals os)), s2)
    | .stmt st =>
      match st with
      /- Block: execute_block in a fresh child environment. -/
      | .block stmts =>
          withEnvRun (fun l s => rec (.seq l) s) (envAlloc s s.env).1 stmts
            (envAlloc s s.env).2
      /- VariableDecl: evaluate the initializer if any, then define. -/
      | .variableDecl name _ initializer _ _ =>
          match initializer with
          | none => some (.ok .unit, envDefine s name .null)
          | some init =>
              andThenR (rec (.expr init) s) fun o s1 =>
              some (.ok .unit, envDefine s1 name (outVal o))
      /- FunctionDecl: define the name to the declaration itself
      (interpreter.py line 206).  No environment is captured. -/
      | .functionDecl name params returnType body =>
          some (.ok .unit, envDefine s name (.funcDecl name params returnType body))
      /- ClassDecl: collect methods and constructor, resolve the superclass,
      build the LNGClass and define it. -/
      | .classDecl name superClass members _ =>
          let methods := members.foldl (fun acc m =>
            match m with
            | .functionDecl n p r b => dictInsert acc n (.funcDecl n p r b)
            | _ => acc) []
          let ctor := members.foldl (fun acc m =>
            match m with
            | .ctorDecl p b => some (p, b)
            | _ => acc) none
          let superRes : Except Exc (Option Nat) :=
            match superClass with
            | none => .ok none
            | some sname =>
              match envGet s sname with
              | none => .error (.err "unreachable: dangling environment")
              | some none =>
                  .error (.err ("Variable non définie \x27" ++ sname ++ "\x27."))
              | some (some v) =>
                match v with
                | .cls a => .ok (some a)
                | _ => .error (.err ("La super-classe \x27" ++ sname ++
                    "\x27 n\x27est pas une classe."))
          match superRes with
          | .error e => some (.error e, s)
          | .ok superAddr =>
              let hc := heapAlloc s (.cls name superAddr methods ctor)
              some (.ok .unit, envDefine hc.2 name (.cls hc.1))
      /- IfStatement. -/
      | .ifStmt cond thenBranch elseBranch =>
          andThenR (rec (.expr cond) s) fun o s1 =>
          if isTruthy (outVal o) then rec (.stmt thenBranch) s1
          else
            match elseBranch with
            | some e => rec (.stmt e) s1
            | none => some (.ok .unit, s1)
      /- WhileStatement: the loop lives in Task.whileLoop. -/
      | .whileStmt cond body => rec (.whileLoop cond body)  s
      /- ForStatement: child environment for the whole loop, init once, then
      the iteration task; the previous environment is restored by the
      try/finally on every path. -/
      | .forStmt init cond update body =>
          withEnvRes s.env (andThenR
            (match init with
             | none => some (.ok Out.unit,
                 { (envAlloc s s.env).2 with env := (envAlloc s s.env).1 })
             | some i => rec (.stmt i)
                 { (envAlloc s s.env).2 with env := (envAlloc s s.env).1 })
            fun _ s3 => rec (.forLoop cond body update) s3)
      /- ReturnStatement: evaluate the optional value, raise ReturnException. -/
      | .returnStmt value =>
          match value with
          | none => some (.error (.ret .null), s)
          | some e =>
              andThenR (rec (.expr e) s) fun o s1 =>
              some (.error (.ret (outVal o)), s1)
      | .breakStmt => some (.error .brk, s)
      | .continueStmt => some (.error .cont, s)
      | .exprStmt e =>
          andThenR (rec (.expr e) s) fun _ s1 => some (.ok .unit, s1)
      /- A ConstructorDecl reaching execute falls through every isinstance
      test to the unknown-statement raise. -/
      | .ctorDecl _ _ =>
          some (.error (.err
            "Type d\x27instruction inconnu: <class \x27parser.nodes.ConstructorDecl\x27>"), s)
    /- The while loop: evaluate the condition, run the body catching
    BreakException and ContinueException, iterate. -/
    | .whileLoop cond body =>
        andThenR (rec (.expr cond) s) fun o s1 =>
        if isTruthy (outVal o) then
          match rec (.stmt body) s1 with
          | none => none
          | some (.error .brk, s2) => some (.ok .unit, s2)
          | some (.error .cont, s2) => rec (.whileLoop cond body) s2
          | some (.error e, s2) => some (.error e, s2)
          | some (.ok _, s2) => rec (.whileLoop cond body) s2
        else some (.ok .unit, s1)
    /- One for iteration: condition (absent means true), body with break
    ending and continue falling through to the update, then update. -/
    | .forLoop cond body update =>
        let condRes :=
          match cond with
          | none => some (.ok (Out.val (.bool true)), s)
          | some c => rec (.expr c) s
        andThenR condRes fun o s1 =>
        if isTruthy (outVal o) then
          let bodyRes : RRes :=
            match rec (.stmt body) s1 with
            | none => none
            | some (.error .brk, s2) => some (.error Exc.brk, s2)
            | some (.error .cont, s2) => some (.ok Out.unit, s2)
            | some (.error e, s2) => some (.error e, s2)
            | some (.ok _, s2) => some (.ok Out.unit, s2)
          match bodyRes with
          | none => none
          | some (.error .brk, s2) => some (.ok .unit, s2)
          | some (.error e, s2) => some (.error e, s2)
          | some (.ok _, s2) =>
              let updRes :=
                match update with
                | none => some (.ok (Out.val .null), s2)
                | some u => rec (.expr u) s2
              andThenR updRes fun _ s3 => rec (.forLoop cond body update) s3
        else some (.ok .unit, s1)
    | .expr e =>
      match e with
      /- Literal. -/
      | .literal v _ =>
          let value : Value :=
            match v with
            | .int n => .int n
            | .float q => .float q
            | .str x => .str x
            | .bool b => .bool b
            | .null => .null
          some (.ok (.val value), s)
      /- Identifier: Environment.get along the chain. -/
      | .identifier name _ =>
          match envGet s name with
          | none => none
          | some none =>
              some (.error (.err ("Variable non définie \x27" ++ name ++ "\x27.")), s)
          | some (some v) => some (.ok (.val v), s)
      /- Assignment: the value is evaluated first, then the target decides
      the path (identifier / member / index). -/
      | .assignment target op valueExpr =>
          andThenR (rec (.expr valueExpr) s) fun ov s1 =>
          match target with
          | .identifier name _ => assignIdent name op (outVal ov) s1
          | .memberAccess mtarget member =>
              andThenR (rec (.expr mtarget) s1) fun oo s2 =>
              assignMember member op (outVal ov) (outVal oo) s2
          | .indexAccess itarget indexExpr =>
              andThenR (rec (.expr itarget) s1) fun oc s2 =>
              andThenR (rec (.expr indexExpr) s2) fun oi s3 =>
              assignIndex op (outVal ov) (outVal oc) (outVal oi) s3
          | _ => some (.error (.err "Cible d\x27assignation invalide."), s1)
      /- BinaryOp: both operands evaluated left then right, then dispatch on
      the operator token name (interpreter.py lines 390 to 408). -/
      | .binaryOp left op right =>
          andThenR (rec (.expr left) s) fun ol s1 =>
          andThenR (rec (.expr right) s1) fun or_ s2 =>
          binOpEval op (outVal ol) (outVal or_) s2
      /- UnaryOp. -/
      | .unaryOp op operand =>
          andThenR (rec (.expr operand) s) fun o s1 =>
          unaryEval op (outVal o) s1
      /- FunctionCall: callee then arguments left to right, then dispatch.
      callable() in Python selects the native bound methods, the bound-method
      closures and LNGClass (its __call__); then isinstance FunctionDecl. -/
      | .functionCall callee args =>
          andThenR (rec (.expr callee) s) fun oc s1 =>
          andThenR (rec (.exprs args)  s1) fun oa s2 =>
          match outVal oc with
          /- native_print / native_clock (callable() dispatch).  The clock
          reading is outside the model and is rendered as 0.0. -/
          | .nativePf => callNativePf (outVals oa) s2
          | .nativeClock => some (.ok (.val (.float 0)), s2)
          /- Bound method closure (callable() dispatch). -/
          | .boundMethod instAddr mname params _ body =>
              callBoundMethod rec instAddr mname params body (outVals oa) s2
          /- LNGClass.__call__ (callable() dispatch; the dedicated isinstance
          branch below it in the Python source is unreachable). -/
          | .cls a => callClassV rec a (outVals oa) s2
          /- isinstance(callee, FunctionDecl). -/
          | .funcDecl _ params _ body =>
              callFuncDecl rec params body (outVals oa) s2
          | calleeV =>
              some (.error (.err
                ("Ne peut appeler que des fonctions, méthodes ou classes. Type trouvé: " ++
                  typeFullName calleeV)), s2)
      /- MemberAccess: instance field, else bound method; dict key; else
      error. -/
      | .memberAccess target member =>
          andThenR (rec (.expr target) s) fun o s1 =>
          memberEval member (outVal o) s1
      /- IndexAccess (read): list int indexing (wrapping negatives) or dict
      key lookup; IndexError and KeyError become the caught message, a
      TypeError for a non-integer list index propagates with its host text. -/
      | .indexAccess target indexExpr =>
          andThenR (rec (.expr target) s) fun oc s1 =>
          andThenR (rec (.expr indexExpr) s1) fun oi s2 =>
          indexEval (outVal oc) (outVal oi) s2
      /- ArrayLiteral: elements left to right, then allocate the list. -/
      | .arrayLiteral elements =>
          andThenR (rec (.exprs elements) s) fun o s1 =>
          let ha := heapAlloc s1 (.list (outVals o))
          some (.ok (.val (.list ha.1)), ha.2)
      /- ObjectLiteral: values in declaration order, then the dict (keys are
      the literal identifier strings). -/
      | .objectLiteral properties =>
          andThenR (rec (.exprs (properties.map Prod.snd)) s) fun o s1 =>
          let entries := List.zip (properties.map (fun p => Value.str p.fst)) (outVals o)
          let ha := heapAlloc s1 (.dict entries)
          some (.ok (.val (.dict ha.1)), ha.2)

/-- The interpreter: fuel-structural iteration of runStep.  Direct
translation of Interpreter.execute (statements), Interpreter.evaluate
(expressions) and their helpers. -/
def run : Nat → Task → St → RRes
  | 0, _, _ => none
  | fuel + 1, task, s => runStep (run fuel) task s

/-! ## interpret (interpreter.py lines 180 to 189) and the initial state -/

/-- str(e) of a caught exception, as interpolated by the f-string in
interpret.  A ReturnException prints its stored value because
BaseException.__new__ records the constructor arguments even though
ReturnException.__init__ does not call super; BreakException and
ContinueException are constructed without arguments and print as "". -/
def excMsg (fuel : Nat) (heap : List Obj) : Exc → Option String
  | .err m => some m
  | .ret v => pyStrV fuel heap v
  | .brk => some ""
  | .cont => some ""

/-- Interpreter.interpret with the post-state: reset output, set the current
environment to globals, execute the top-level statements, and convert any
escaping exception into a final output line. -/
def interpretSt (fuel : Nat) (p : Program) (s0 : St) : Option (List String × St) :=
  let s := { s0 with output := [], env := 0 }
  match run fuel (.seq p.statements) s with
  | none => none
  | some (.ok _, s1) => some (s1.output, s1)
  | some (.error e, s1) =>
      match excMsg (heapFuel s1.heap) s1.heap e with
      | none => none
      | some m =>
          let s2 := { s1 with output := s1.output ++ ["Erreur d\x27exécution: " ++ m] }
          some (s2.output, s2)

/-- Interpreter.interpret, output only (its Python return value). -/
def interpret (fuel : Nat) (p : Program) (s0 : St) : Option (List String) :=
  (interpretSt fuel p s0).map Prod.fst

/-- The state of a freshly constructed Interpreter: a single global
environment holding the native bindings pf and clock. -/
def initSt : St :=
  { envs := [{ values := [("pf", .nativePf), ("clock", .nativeClock)], enclosing := none }]
    heap := []
    env := 0
    output := [] }

/-! ## Semantic analyzer: backend/parser/semantic_analyzer.py

The analyzer walks the AST with a scope stack, an error list, a set of
declared type names and an in-loop flag.  The Python visitors
visit_statement / visit_expression / visit_constructor are structurally
recursive; as with the interpreter they are embedded as one fuel-structural
function over a work-item sum so that concrete runs reduce in the kernel.
Fuel exhaustion is none and is distinct from every real outcome. -/

/-- One entry of SemanticAnalyzer.errors: the dict
\x7b"message": ..., "line": ...\x7d. -/
structure AErr where
  message : String
  line : Nat
deriving DecidableEq

/-- SemanticAnalyzer state: scopes (innermost first; Python appends the
innermost at the END of its list and reads scopes[-1], the head here is that
element), the error list in append order, declared type names (a Python set:
only membership is ever read), and the loop-context flag. -/
structure ASt where
  scopes : List (List String)
  errors : List AErr
  declaredTypes : List String
  inLoop : Bool
deriving DecidableEq

/-- enter_scope: push a fresh empty scope. -/
def enterScope (a : ASt) : ASt := { a with scopes := [] :: a.scopes }

/-- exit_scope: pop the innermost scope (never called on an empty stack). -/
def exitScope (a : ASt) : ASt := { a with scopes := a.scopes.tail }

/-- Append one error entry. -/
def aErr (a : ASt) (m : String) (line : Nat) : ASt :=
  { a with errors := a.errors ++ [⟨m, line⟩] }

/-- SemanticAnalyzer.declare: record the name in the innermost scope, error
on redeclaration.  The empty-stack case is unreachable (analyze starts with
the global scope and enter/exit calls are balanced). -/
def declare (a : ASt) (name : String) (line : Nat) : ASt :=
  match a.scopes with
  | [] => a
  | cur :: rest =>
      if cur.contains name then
        aErr a ("Variable \x27" ++ name ++ "\x27 déjà déclarée dans cette portée.") line
      else { a with scopes := (cur ++ [name]) :: rest }

/-- The base-type computation of SemanticAnalyzer.validate_type (on a
non-None type string: every call site guards with the Python truthiness of
the optional type first): strip a trailing [], collapse \x7b...\x7d struct
types to the marker. -/
def baseTypeOf (t : String) : String :=
  if List.isSuffixOf ['[', ']'] t.data then t.dropRight 2
  else if t.data.head? = some '\x7b' && t.data.getLast? = some '\x7d' then "struct_type"
  else t

/-- The membership test and error of validate_type on the base type. -/
def validate_type (a : ASt) (t : String) (line : Nat) : ASt :=
  if a.declaredTypes.contains (baseTypeOf t) then a
  else if baseTypeOf t = "struct_type" then a
  else aErr a ("Type inconnu \x27" ++ t ++ "\x27.") line

/-- SemanticAnalyzer.resolve: the name is in some scope. -/
def resolve (a : ASt) (name : String) : Bool :=
  a.scopes.any (fun sc => sc.contains name)

/-- The parameter loop shared by FunctionDecl and visit_constructor: declare
each parameter and validate its type when present. -/
def declareParams (a : ASt) (params : List Param) (line : Nat) : ASt :=
  match params with
  | [] => a
  | p :: rest =>
      let a1 := declare a p.name line
      let a2 :=
        match p.type with
        | none => a1
        | some t => validate_type a1 t line
      declareParams a2 rest line

/-- Work items of the analyzer: a statement, a statement list, an
expression, an expression list, the member list of a class body (with the
class line for its error messages), and a constructor body. -/
inductive ATask where
  | stmt (s : Statement)
  | stmts (l : List Statement)
  | expr (e : Expression)
  | exprs (l : List Expression)
  | members (line : Nat) (l : List Statement)
  | ctor (params : List Param) (body : Statement) (classLine : Nat)

/-- The analyzer visitors (semantic_analyzer.py visit_statement,
visit_expression, visit_constructor) as one fueled function.  getattr(node,
\x27line\x27, 0) is 0 for every node the parser does not decorate: only
VariableDecl, ClassDecl and Identifier carry a line. -/
def visitGo : Nat → ATask → ASt → Option ASt
  | 0, _, _ => none
  | fuel + 1, t, a =>
    match t with
    | .stmts [] => some a
    | .stmts (st :: rest) =>
        match visitGo fuel (.stmt st) a with
        | none => none
        | some a1 => visitGo fuel (.stmts rest) a1
    | .exprs [] => some a
    | .exprs (e :: rest) =>
        match visitGo fuel (.expr e) a with
        | none => none
        | some a1 => visitGo fuel (.exprs rest) a1
    | .members _ [] => some a
    | .members line (m :: rest) =>
        let step : Option ASt :=
          match m with
          | .ctorDecl p b => visitGo fuel (.ctor p b line) a
          | .functionDecl _ _ _ _ => visitGo fuel (.stmt m) a
          | .variableDecl _ _ _ _ _ => visitGo fuel (.stmt m) a
          | _ => some (aErr a "Membre de classe invalide." line)
        match step with
        | none => none
        | some a1 => visitGo fuel (.members line rest) a1
    | .ctor params body classLine =>
        match visitGo fuel (.stmt body) (declareParams (enterScope a) params classLine) with
        | none => none
        | some a1 => some (exitScope a1)
    | .stmt st =>
      match st with
      | .block stmts =>
          match visitGo fuel (.stmts stmts) (enterScope a) with
          | none => none
          | some a1 => some (exitScope a1)
      | .variableDecl name varType init isConst line =>
          let init? : Option ASt :=
            match init with
            | none => some a
            | some e => visitGo fuel (.expr e) a
          match init? with
          | none => none
          | some a1 =>
              let a2 :=
                if isConst && init.isNone then
                  aErr a1 ("La constante \x27" ++ name ++ "\x27 doit être initialisée.") line
                else a1
              let a3 := declare a2 name line
              some (match varType with
                | none => a3
                | some tn => validate_type a3 tn line)
      | .functionDecl name params returnType body =>
          let a1 := declare a name 0
          let a2 :=
            match returnType with
            | none => a1
            | some t => validate_type a1 t 0
          match visitGo fuel (.stmt body) (declareParams (enterScope a2) params 0) with
          | none => none
          | some a3 => some (exitScope a3)
      /- A bare ConstructorDecl is not a Statement subclass in Python: every
      isinstance test is False and visit_statement is a no-op on it. -/
      | .ctorDecl _ _ => some a
      | .classDecl name superClass members line =>
          let a1 := declare a name line
          let a2 := { a1 with declaredTypes := a1.declaredTypes ++ [name] }
          let a3 :=
            match superClass with
            | none => a2
            | some sname =>
                if a2.declaredTypes.contains sname then a2
                else aErr a2 ("La super-classe \x27" ++ sname ++ "\x27 n\x27est pas définie.") line
          match visitGo fuel (.members line members) (enterScope a3) with
          | none => none
          | some a4 => some (exitScope a4)
      | .ifStmt cond thenBranch elseBranch =>
          match visitGo fuel (.expr cond) a with
          | none => none
          | some a1 =>
            match visitGo fuel (.stmt thenBranch) a1 with
            | none => none
            | some a2 =>
              match elseBranch with
              | none => some a2
              | some e => visitGo fuel (.stmt e) a2
      | .whileStmt cond body =>
          match visitGo fuel (.expr cond) { a with inLoop := true } with
          | none => none
          | some a1 =>
            match visitGo fuel (.stmt body) a1 with
            | none => none
            | some a2 => some { a2 with inLoop := a.inLoop }
      | .forStmt init cond update body =>
          let a0 := enterScope { a with inLoop := true }
          let initRes : Option ASt :=
            match init with
            | none => some a0
            | some i => visitGo fuel (.stmt i) a0
          match initRes with
          | none => none
          | some a1 =>
            let condRes : Option ASt :=
              match cond with
              | none => some a1
              | some c => visitGo fuel (.expr c) a1
            match condRes with
            | none => none
            | some a2 =>
              let updRes : Option ASt :=
                match update with
                | none => some a2
                | some u => visitGo fuel (.expr u) a2
              match updRes with
              | none => none
              | some a3 =>
                match visitGo fuel (.stmt body) a3 with
                | none => none
                | some a4 => some { exitScope a4 with inLoop := a.inLoop }
      | .breakStmt =>
          some (if a.inLoop then a
            else aErr a "\x27break\x27 doit être utilisé dans une boucle." 0)
      | .continueStmt =>
          some (if a.inLoop then a
            else aErr a "\x27continue\x27 doit être utilisé dans une boucle." 0)
      | .returnStmt value =>
          match value with
          | none => some a
          | some e => visitGo fuel (.expr e) a
      | .exprStmt e => visitGo fuel (.expr e) a
    | .expr e =>
      match e with
      | .literal _ _ => some a
      | .identifier name line =>
          some (if resolve a name then a
            else aErr a ("Variable non définie \x27" ++ name ++ "\x27.") line)
      | .binaryOp left _ right =>
          match visitGo fuel (.expr left) a with
          | none => none
          | some a1 => visitGo fuel (.expr right) a1
      | .unaryOp _ operand => visitGo fuel (.expr operand) a
      /- The Assignment node carries no line attribute, so its two error
      messages use line 0. -/
      | .assignment target _ value =>
          match visitGo fuel (.expr value) a with
          | none => none
          | some a1 =>
            match target with
            | .identifier tname _ =>
                some (if resolve a1 tname then a1
                  else aErr a1 ("Variable non définie \x27" ++ tname ++ "\x27.") 0)
            | .memberAccess _ _ => visitGo fuel (.expr target) a1
            | .indexAccess _ _ => visitGo fuel (.expr target) a1
            | _ => some (aErr a1
                "Cible d\x27assignation invalide (doit être un identifiant ou un accès)." 0)
      | .functionCall callee args =>
          match visitGo fuel (.expr callee) a with
          | none => none
          | some a1 => visitGo fuel (.exprs args) a1
      | .memberAccess target _ => visitGo fuel (.expr target) a
      | .indexAccess target index =>
          match visitGo fuel (.expr target) a with
          | none => none
          | some a1 => visitGo fuel (.expr index) a1
      | .arrayLiteral elements => visitGo fuel (.exprs elements) a
      | .objectLiteral properties => visitGo fuel (.exprs (properties.map Prod.snd)) a

/-- The state SemanticAnalyzer.analyze resets to before visiting. -/
def analyzeInit : ASt :=
  { scopes := [["pf", "clock"]]
    errors := []
    declaredTypes := ["int", "float", "string", "bool", "char", "void"]
    inLoop := false }

/-- SemanticAnalyzer.analyze: reset, visit every top-level statement, return
the collected error list. -/
def analyze (fuel : Nat) (p : Program) : Option (List AErr) :=
  (visitGo fuel (.stmts p.statements) analyzeInit).map ASt.errors

/-! ## Lexer: backend/lexer/lexer.py

The source string is scanned as a character list (Python indexes the string
by integer positions).  The scanning loops (tokenize, scan_string,
scan_number, scan_identifier, the comment loops) are fueled; every loop
consumes at least one character per iteration, so source length + 1 fuel is
always enough, and tokenize instantiates the fuel that way.  Lexer.error only
prints: it records nothing and emits no token, and is a no-op here.
Python str.isalpha accepts all Unicode letters; Char.isAlpha is its
restriction to ASCII, the alphabet of every identifier and keyword of the
language. -/

/-- Values stored in tokens: None, the raw text, int(text), float(text),
True/False. -/
inductive TokValue where
  | null
  | str (s : String)
  | int (n : Int)
  | float (q : Rat)
  | bool (b : Bool)
deriving DecidableEq

/-- The Token dataclass. -/
structure Token where
  type : String
  value : TokValue
  line : Nat
  column : Nat
deriving DecidableEq

/-- Lexer state: the fields of class Lexer. -/
structure LexSt where
  source : List Char
  tokens : List Token
  current : Nat
  line : Nat
  column : Nat
  startPos : Nat
  startColumn : Nat
deriving DecidableEq

/-- Lexer.is_at_end. -/
def lexIsAtEnd (st : LexSt) : Bool := st.source.length ≤ st.current

/-- Lexer.peek. -/
def lexPeek (st : LexSt) : Char :=
  if lexIsAtEnd st then '\x00' else st.source.getD st.current '\x00'

/-- Lexer.peek_next. -/
def lexPeekNext (st : LexSt) : Char :=
  if st.source.length ≤ st.current + 1 then '\x00'
  else st.source.getD (st.current + 1) '\x00'

/-- Lexer.advance: the consumed character and the advanced state (only called
in bounds; the getD default is unreachable). -/
def lexAdvance (st : LexSt) : Char × LexSt :=
  (st.source.getD st.current '\x00',
   { st with current := st.current + 1, column := st.column + 1 })

/-- Lexer.match. -/
def lexMatch (expected : Char) (st : LexSt) : Bool × LexSt :=
  if lexIsAtEnd st then (false, st)
  else if st.source.getD st.current '\x00' ≠ expected then (false, st)
  else (true, { st with current := st.current + 1, column := st.column + 1 })

/-- Lexer.add_token: the token position is the CURRENT line paired with the
start column of the lexeme. -/
def add_token (st : LexSt) (type : String) (value : TokValue) : LexSt :=
  { st with tokens := st.tokens ++ [⟨type, value, st.line, st.startColumn⟩] }

/-- Lexer.keywords. -/
def keywords : List (String × String) :=
  [("import", "IMPORT"), ("as", "AS"),
   ("var", "VAR"), ("const", "CONST"),
   ("function", "FUNCTION"),
   ("class", "CLASS"), ("extends", "EXTENDS"), ("constructor", "CONSTRUCTOR"),
   ("return", "RETURN"),
   ("if", "IF"), ("else", "ELSE"),
   ("while", "WHILE"), ("for", "FOR"),
   ("break", "BREAK"), ("continue", "CONTINUE"),
   ("int", "TYPE_INT"), ("float", "TYPE_FLOAT"), ("string", "TYPE_STRING"),
   ("bool", "TYPE_BOOL"), ("char", "TYPE_CHAR"),
   ("true", "TRUE"), ("false", "FALSE"), ("null", "NULL")]

/-- Lexer.is_alpha. -/
def is_alpha (c : Char) : Bool := c.isAlpha || c = '_'

/-- Lexer.is_alpha_numeric. -/
def is_alpha_numeric (c : Char) : Bool := is_alpha c || c.isDigit

/-- The while loop of scan_string: accumulate characters until the closing
quote or the end of input, updating line/column on embedded newlines
(the column is set to 1 BEFORE the newline character itself is consumed by
advance, which then increments it). -/
def scanStringGo : Nat → Char → String → LexSt → String × LexSt
  | 0, _, value, st => (value, st)
  | fuel + 1, quote, value, st =>
    if lexPeek st ≠ quote && !lexIsAtEnd st then
      let st1 := if lexPeek st = '\n' then { st with line := st.line + 1, column := 1 } else st
      scanStringGo fuel quote (value.push (lexAdvance st1).1) (lexAdvance st1).2
    else (value, st)

/-- Lexer.scan_string (the opening quote is already consumed): on an
unterminated string error() only prints, so no token is emitted. -/
def scan_string (fuel : Nat) (quote : Char) (st : LexSt) : LexSt :=
  let r := scanStringGo fuel quote "" st
  if lexIsAtEnd r.2 then r.2
  else add_token (lexAdvance r.2).2 "STRING" (.str r.1)

/-- The digit-consuming loops of scan_number. -/
def consumeDigits : Nat → LexSt → LexSt
  | 0, st => st
  | fuel + 1, st =>
    if (lexPeek st).isDigit then consumeDigits fuel (lexAdvance st).2 else st

/-- The lexeme text source[start_pos:current]. -/
def lexemeChars (st : LexSt) : List Char :=
  (st.source.drop st.startPos).take (st.current - st.startPos)

/-- int(text) on a digit string. -/
def digitsToNat (l : List Char) : Nat :=
  l.foldl (fun acc c => acc * 10 + (c.toNat - 48)) 0

/-- float(text) on digits.digits text, as an exact rational (the development
models Python floats as exact rationals; see the header). -/
def floatOfChars (l : List Char) : Rat :=
  let intPart := l.takeWhile (fun c => c ≠ '.')
  let fracPart := (l.dropWhile (fun c => c ≠ '.')).drop 1
  mkRat (digitsToNat intPart * 10 ^ fracPart.length + digitsToNat fracPart)
    (10 ^ fracPart.length)

/-- Lexer.scan_number (the first digit is already consumed). -/
def scan_number (fuel : Nat) (st : LexSt) : LexSt :=
  let st1 := consumeDigits fuel st
  if lexPeek st1 = '.' && (lexPeekNext st1).isDigit then
    let st2 := consumeDigits fuel (lexAdvance st1).2
    add_token st2 "FLOAT" (.float (floatOfChars (lexemeChars st2)))
  else
    add_token st1 "INT" (.int (digitsToNat (lexemeChars st1)))

/-- The identifier-consuming loop of scan_identifier. -/
def consumeAlnum : Nat → LexSt → LexSt
  | 0, st => st
  | fuel + 1, st =>
    if is_alpha_numeric (lexPeek st) then consumeAlnum fuel (lexAdvance st).2 else st

/-- Lexer.scan_identifier (the first character is already consumed):
keyword lookup with IDENT fallback; TRUE/FALSE/NULL store their Python
values, other keywords store None, identifiers store their text. -/
def scan_identifier (fuel : Nat) (st : LexSt) : LexSt :=
  let st1 := consumeAlnum fuel st
  let text : String := ⟨lexemeChars st1⟩
  match keywords.lookup text with
  | some ty =>
      if ty = "TRUE" then add_token st1 ty (.bool true)
      else if ty = "FALSE" then add_token st1 ty (.bool false)
      else add_token st1 ty .null
  | none => add_token st1 "IDENT" (.str text)

/-- Lexer.scan_multiline_comment: skip to the closing */, updating
line/column on newlines; an unterminated comment only prints an error. -/
def scan_multiline_comment : Nat → LexSt → LexSt
  | 0, st => st
  | fuel + 1, st =>
    if lexIsAtEnd st then st
    else if lexPeek st = '*' && lexPeekNext st = '/' then
      (lexAdvance (lexAdvance st).2).2
    else
      let st1 := if lexPeek st = '\n' then { st with line := st.line + 1, column := 1 } else st
      scan_multiline_comment fuel (lexAdvance st1).2

/-- The single-line comment loop of scan_token: skip to the newline. -/
def consumeLineComment : Nat → LexSt → LexSt
  | 0, st => st
  | fuel + 1, st =>
    if lexPeek st ≠ '\n' && !lexIsAtEnd st then
      consumeLineComment fuel (lexAdvance st).2
    else st

/-- The compound-operator pattern add_token(TWO if match(c) else ONE). -/
def addMatched (st : LexSt) (expected : Char) (two one : String) : LexSt :=
  let m := lexMatch expected st
  if m.1 then add_token m.2 two .null else add_token m.2 one .null

/-- Lexer.scan_token: dispatch on the consumed character.  The error()
branches (&, |, ^, unknown characters) only print and emit nothing. -/
def scanTokenBody (fuel : Nat) (c : Char) (st : LexSt) : LexSt :=
  if c = ' ' || c = '\r' || c = '\t' then st
  else if c = '\n' then { st with line := st.line + 1, column := 1 }
  else if c = '(' then add_token st "LPAREN" .null
  else if c = ')' then add_token st "RPAREN" .null
  else if c = '\x7b' then add_token st "LBRACE" .null
  else if c = '\x7d' then add_token st "RBRACE" .null
  else if c = '[' then add_token st "LBRACKET" .null
  else if c = ']' then add_token st "RBRACKET" .null
  else if c = ',' then add_token st "COMMA" .null
  else if c = '.' then add_token st "DOT" .null
  else if c = ';' then add_token st "SEMICOLON" .null
  else if c = ':' then add_token st "COLON" .null
  else if c = '+' then addMatched st '=' "PLUS_EQ" "PLUS"
  else if c = '-' then addMatched st '=' "MINUS_EQ" "MINUS"
  else if c = '*' then addMatched st '=' "MUL_EQ" "MUL"
  else if c = '%' then addMatched st '=' "MOD_EQ" "MOD"
  else if c = '/' then
    if (lexMatch '/' st).1 then consumeLineComment fuel (lexMatch '/' st).2
    else if (lexMatch '*' st).1 then scan_multiline_comment fuel (lexMatch '*' st).2
    else addMatched st '=' "DIV_EQ" "DIV"
  else if c = '!' then addMatched st '=' "NOT_EQ" "NOT"
  else if c = '=' then addMatched st '=' "EQ_EQ" "EQ"
  else if c = '<' then addMatched st '=' "LESS_EQ" "LESS"
  else if c = '>' then addMatched st '=' "GREATER_EQ" "GREATER"
  else if c = '&' then
    if (lexMatch '&' st).1 then add_token (lexMatch '&' st).2 "AND" .null
    else (lexMatch '&' st).2
  else if c = '|' then
    if (lexMatch '|' st).1 then add_token (lexMatch '|' st).2 "OR" .null
    else (lexMatch '|' st).2
  else if c = '^' then st
  else if c = '"' || c = '\x27' then scan_string fuel c st
  else if c.isDigit then scan_number fuel st
  else if is_alpha c then scan_identifier fuel st
  else st

/-- Lexer.scan_token: consume one character and dispatch on it. -/
def scan_token (fuel : Nat) (st0 : LexSt) : LexSt :=
  scanTokenBody fuel (lexAdvance st0).1 (lexAdvance st0).2

/-- The while loop of Lexer.tokenize: remember the lexeme start position and
column, scan one token, repeat until the end of input. -/
def scanGo : Nat → Nat → LexSt → LexSt
  | 0, _, st => st
  | fuel + 1, innerFuel, st =>
    if lexIsAtEnd st then st
    else scanGo fuel innerFuel
      (scan_token innerFuel { st with startPos := st.current, startColumn := st.column })

/-- The state of a fresh Lexer(source). -/
def lexInit (src : String) : LexSt :=
  { source := src.data, tokens := [], current := 0
    line := 1, column := 1, startPos := 0, startColumn := 1 }

/-- Lexer.tokenize on a fresh Lexer(source): scan everything, then append the
EOF token (value "", at the final line/column). -/
def tokenize (src : String) : List Token :=
  let st1 := scanGo (src.data.length + 1) (src.data.length + 1) (lexInit src)
  st1.tokens ++ [⟨"EOF", .str "", st1.line, st1.column⟩]

/-! ## Parser: backend/parser/parser.py

A recursive-descent parser over the token list.  The mutually recursive
methods are embedded, like the interpreter, as one fuel-structural function
parseGo over a work-item sum, whose step functional parseStep delegates every
recursive parse to the next lower fuel; fuel exhaustion is none.  The while
loops of the grammar (binary-operator chains, postfix chains, parameter /
argument / element / member lists, the block and parse loops) are loop work
items whose self-recursion always happens after at least one token was
consumed.

Python raises ParseError and catches it in declaration(): results are an
Except layer carrying the parser state at raise time (synchronize starts
from there).  ParseError and the recorded error dicts both carry
message/line and reuse AErr.

Python peek() reads tokens[self.current] unguarded; for an EOF-terminated
token list (every list the Lexer produces) the index stays in bounds, and
the embedding's out-of-bounds default (an EOF token) is never read.
previous() with current = 0 is tokens[-1] in Python, the LAST token: that
call happens only at the very first synchronize step of an already-at-end
one-token list, where the last token is also tokens[0], which the Nat
truncation 0 - 1 = 0 reads. -/

/-- Parser state: the token list, the cursor, and the recorded errors. -/
structure PSt where
  tokens : List Token
  current : Nat
  errors : List AErr
deriving DecidableEq

/-- The out-of-bounds default for peek / previous (never read on
EOF-terminated inputs). -/
def eofTok : Token := ⟨"EOF", .str "", 0, 0⟩

/-- Parser.peek. -/
def pPeek (st : PSt) : Token := st.tokens.getD st.current eofTok

/-- Parser.previous. -/
def pPrevious (st : PSt) : Token := st.tokens.getD (st.current - 1) eofTok

/-- Parser.is_at_end. -/
def pIsAtEnd (st : PSt) : Bool := (pPeek st).type = "EOF"

/-- Parser.check. -/
def pCheck (ty : String) (st : PSt) : Bool :=
  if pIsAtEnd st then false else (pPeek st).type = ty

/-- Parser.advance (the returned token is pPrevious of the result). -/
def pAdvance (st : PSt) : PSt :=
  if pIsAtEnd st then st else { st with current := st.current + 1 }

/-- Parser.match with one type. -/
def pMatch1 (ty : String) (st : PSt) : Bool × PSt :=
  if pCheck ty st then (true, pAdvance st) else (false, st)

/-- Parser.match with several types: the first checking type advances. -/
def pMatchMany (tys : List String) (st : PSt) : Bool × PSt :=
  match tys with
  | [] => (false, st)
  | t :: rest => if pCheck t st then (true, pAdvance st) else pMatchMany rest st

/-- Parser.consume: advance on the expected type, else ParseError(message,
peek().line).  The consumed token is pPrevious of the returned state. -/
def pConsume (ty msg : String) (st : PSt) : Except AErr PSt :=
  if pCheck ty st then .ok (pAdvance st)
  else .error ⟨msg, (pPeek st).line⟩

/-- The scan loop of Parser.synchronize (after the initial advance). -/
def syncGo : Nat → Nat → PSt → PSt
  | 0, _, st => st
  | fuel + 1, currentLine, st =>
    if pIsAtEnd st then st
    else if (pPrevious st).type = "SEMICOLON" then st
    else if currentLine < (pPeek st).line then st
    else if ["CLASS", "FUNCTION", "VAR", "CONST", "FOR", "IF", "WHILE",
        "RETURN"].contains (pPeek st).type then st
    else syncGo fuel currentLine (pAdvance st)

/-- Parser.synchronize: advance once, then scan to a safe point.  Each scan
iteration consumes one token, so the list length bounds the loop. -/
def synchronize (st : PSt) : PSt :=
  let st1 := pAdvance st
  syncGo (st1.tokens.length + 1) (pPrevious st1).line st1

/-- The string stored in an IDENT/STRING token (the .value reads of the
parser; those tokens always carry a string). -/
def tokValueStr : TokValue → String
  | .str s => s
  | _ => ""

/-- A token value as the Literal value the parser stores (primary()). -/
def litOfTok : TokValue → LitV
  | .int n => .int n
  | .float q => .float q
  | .str s => .str s
  | .bool b => .bool b
  | .null => .null

/-- properties[key] = value of object_literal: Python dict update preserves
the position of an existing key and appends a new one. -/
def propInsert (l : List (String × Expression)) (k : String) (v : Expression) :
    List (String × Expression) :=
  match l with
  | [] => [(k, v)]
  | (k0, v0) :: rest =>
      if k0 = k then (k0, v) :: rest else (k0, v0) :: propInsert rest k v

/-- Work items of the parser: one per parsing method, plus one per while
loop (carrying its accumulator) since every loop iteration re-enters the
fueled function. -/
inductive PTask where
  | parseLoop (acc : List Statement)
  | declaration
  | varDecl (isConst : Bool)
  | funcDecl
  | classDecl
  | classMembers (acc : List Statement)
  | ctorDecl
  | paramList (acc : List Param) (msg : String)
  | parseType
  | parseObjectType
  | objFieldList (acc : List String)
  | statement
  | blockLoop (acc : List Statement)
  | ifS
  | whileS
  | forS
  | returnS
  | exprS
  | expression
  | assignment
  | logicalOr
  | orLoop (e : Expression)
  | logicalAnd
  | andLoop (e : Expression)
  | equality
  | eqLoop (e : Expression)
  | comparison
  | cmpLoop (e : Expression)
  | term
  | termLoop (e : Expression)
  | factor
  | factorLoop (e : Expression)
  | unary
  | call
  | callLoop (e : Expression)
  | primary
  | finishCall (callee : Expression)
  | argList (acc : List Expression)
  | arrayLit
  | arrayElems (acc : List Expression)
  | objectLit
  | objProps (acc : List (String × Expression))

/-- Results of the parsing methods. -/
inductive POut where
  | expr (e : Expression)
  | exprOpt (e : Option Expression)
  | stmt (s : Statement)
  | stmtOpt (s : Option Statement)
  | prog (p : Program)
  | tystr (t : String)
  | params (l : List Param)
  | exprs (l : List Expression)
  | props (l : List (String × Expression))
  | stmts (l : List Statement)
  | fields (l : List String)

/-- Parser outcomes: fuel exhaustion, or a ParseError / result with the
parser state. -/
abbrev PR := Option (Except AErr POut × PSt)

/-- Sequencing: a ParseError propagates (until declaration catches it). -/
def pThen (x : PR) (k : POut → PSt → PR) : PR :=
  match x with
  | none => none
  | some (.error e, st) => some (.error e, st)
  | some (.ok o, st) => k o st

/-- Result projections (each work item produces one fixed shape; the
defaults are never read). -/
def oExpr : POut → Expression
  | .expr e => e
  | _ => .literal .null "null"

/-- Optional-expression result (for-clauses, return value). -/
def oExprOpt : POut → Option Expression
  | .exprOpt e => e
  | _ => none

/-- Statement result of a work item. -/
def oStmt : POut → Statement
  | .stmt s => s
  | _ => .breakStmt

/-- Optional-statement result of declaration. -/
def oStmtOpt : POut → Option Statement
  | .stmtOpt s => s
  | _ => none

/-- Type-string result of parse_type. -/
def oStr : POut → String
  | .tystr t => t
  | _ => ""

/-- Parameter-list result. -/
def oParams : POut → List Param
  | .params l => l
  | _ => []

/-- Expression-list result. -/
def oExprs : POut → List Expression
  | .exprs l => l
  | _ => []

/-- Property-list result. -/
def oProps : POut → List (String × Expression)
  | .props l => l
  | _ => []

/-- Statement-list result. -/
def oStmts : POut → List Statement
  | .stmts l => l
  | _ => []

/-- Field-list result of the object-type loop. -/
def oFields : POut → List String
  | .fields l => l
  | _ => []

/-- One step of the parser: the body of every Parser method, with every
recursive parse delegated to rec (the parser at the next lower fuel). -/
def parseStep (rec : PTask → PSt → PR) (task : PTask) (st : PSt) : PR :=
  match task with
  /- parse(): the top-level declaration loop. -/
  | .parseLoop acc =>
      if pIsAtEnd st then some (.ok (.prog ⟨acc⟩), st)
      else
        pThen (rec .declaration st) fun o st1 =>
        match oStmtOpt o with
        | some s => rec (.parseLoop (acc ++ [s])) st1
        | none => rec (.parseLoop acc) st1
  /- declaration(): dispatch, with the ParseError catch that synchronizes
  and records the error. -/
  | .declaration =>
      let body : PR :=
        let mv := pMatch1 "VAR" st
        if mv.1 then rec (.varDecl false) mv.2
        else
          let mc := pMatch1 "CONST" st
          if mc.1 then rec (.varDecl true) mc.2
          else
            let mf := pMatch1 "FUNCTION" st
            if mf.1 then rec .funcDecl mf.2
            else
              let mk := pMatch1 "CLASS" st
              if mk.1 then rec .classDecl mk.2
              else rec .statement st
      match body with
      | none => none
      | some (.ok o, st1) => some (.ok (.stmtOpt (some (oStmt o))), st1)
      | some (.error e, stE) =>
          let stS := synchronize stE
          some (.ok (.stmtOpt none), { stS with errors := stS.errors ++ [e] })
  /- variable_declaration (VAR/CONST already consumed; previous() is the
  keyword token). -/
  | .varDecl isConst =>
      let keyword := pPrevious st
      let cname := if isConst then "constante" else "variable"
      match pConsume "IDENT" ("Nom de " ++ cname ++ " attendu.") st with
      | .error e => some (.error e, st)
      | .ok st1 =>
        let name := tokValueStr (pPrevious st1).value
        let cont : Option String → PSt → PR := fun varType st2 =>
          let me := pMatch1 "EQ" st2
          if me.1 then
            pThen (rec .expression me.2) fun ov st3 =>
            match pConsume "SEMICOLON"
                ("Attendait \x27;\x27 après la déclaration de " ++ cname ++ ".") st3 with
            | .error e => some (.error e, st3)
            | .ok st4 => some (.ok (.stmt (.variableDecl name varType
                (some (oExpr ov)) isConst keyword.line)), st4)
          else if isConst then
            some (.error ⟨"Les constantes doivent être initialisées.", keyword.line⟩, st2)
          else
            match pConsume "SEMICOLON"
                ("Attendait \x27;\x27 après la déclaration de " ++ cname ++ ".") st2 with
            | .error e => some (.error e, st2)
            | .ok st3 => some (.ok (.stmt (.variableDecl name varType
                none isConst keyword.line)), st3)
        let mc := pMatch1 "COLON" st1
        if mc.1 then
          pThen (rec .parseType mc.2) fun ot st2 => cont (some (oStr ot)) st2
        else cont none st1
  /- function_declaration (FUNCTION already consumed). -/
  | .funcDecl =>
      match pConsume "IDENT" "Nom de fonction attendu." st with
      | .error e => some (.error e, st)
      | .ok st1 =>
        let name := tokValueStr (pPrevious st1).value
        match pConsume "LPAREN" "Attendait \x27(\x27 après le nom de la fonction." st1 with
        | .error e => some (.error e, st1)
        | .ok st2 =>
          let paramsRes : PR :=
            if pCheck "RPAREN" st2 then some (.ok (.params []), st2)
            else rec (.paramList [] "Nom de paramètre attendu.") st2
          pThen paramsRes fun op st3 =>
          match pConsume "RPAREN" "Attendait \x27)\x27 après les paramètres." st3 with
          | .error e => some (.error e, st3)
          | .ok st4 =>
            let cont : Option String → PSt → PR := fun returnType st5 =>
              match pConsume "LBRACE"
                  "Attendait \x27\x7b\x27 avant le corps de la fonction." st5 with
              | .error e => some (.error e, st5)
              | .ok st6 =>
                pThen (rec (.blockLoop []) st6) fun ob st7 =>
                some (.ok (.stmt (.functionDecl name (oParams op) returnType
                  (.block (oStmts ob)))), st7)
            let mc := pMatch1 "COLON" st4
            if mc.1 then
              pThen (rec .parseType mc.2) fun ot st5 => cont (some (oStr ot)) st5
            else cont none st4
  /- class_declaration (CLASS already consumed; previous() is the keyword). -/
  | .classDecl =>
      let keyword := pPrevious st
      match pConsume "IDENT" "Nom de classe attendu." st with
      | .error e => some (.error e, st)
      | .ok st1 =>
        let name := tokValueStr (pPrevious st1).value
        let cont : Option String → PSt → PR := fun superClass st2 =>
          match pConsume "LBRACE" "Attendait \x27\x7b\x27 avant le corps de la classe." st2 with
          | .error e => some (.error e, st2)
          | .ok st3 =>
            pThen (rec (.classMembers []) st3) fun om st4 =>
            match pConsume "RBRACE" "Attendait \x27\x7d\x27 après le corps de la classe." st4 with
            | .error e => some (.error e, st4)
            | .ok st5 => some (.ok (.stmt (.classDecl name superClass
                (oStmts om) keyword.line)), st5)
        let mx := pMatch1 "EXTENDS" st1
        if mx.1 then
          match pConsume "IDENT"
              "Nom de la super-classe attendu après \x27extends\x27." mx.2 with
          | .error e => some (.error e, mx.2)
          | .ok st2 => cont (some (tokValueStr (pPrevious st2).value)) st2
        else cont none st1
  /- The member loop of class_declaration. -/
  | .classMembers acc =>
      if !pCheck "RBRACE" st && !pIsAtEnd st then
        let mv := pMatch1 "VAR" st
        if mv.1 then
          pThen (rec (.varDecl false) mv.2) fun o st1 =>
          rec (.classMembers (acc ++ [oStmt o])) st1
        else
          let mf := pMatch1 "FUNCTION" st
          if mf.1 then
            pThen (rec .funcDecl mf.2) fun o st1 =>
            rec (.classMembers (acc ++ [oStmt o])) st1
          else
            let mc := pMatch1 "CONSTRUCTOR" st
            if mc.1 then
              pThen (rec .ctorDecl mc.2) fun o st1 =>
              rec (.classMembers (acc ++ [oStmt o])) st1
            else
              some (.error ⟨"Membre de classe inattendu: " ++ (pPeek st).type,
                (pPeek st).line⟩, st)
      else some (.ok (.stmts acc), st)
  /- constructor_declaration (CONSTRUCTOR already consumed). -/
  | .ctorDecl =>
      match pConsume "LPAREN" "Attendait \x27(\x27 après \x27constructor\x27." st with
      | .error e => some (.error e, st)
      | .ok st1 =>
        let paramsRes : PR :=
          if pCheck "RPAREN" st1 then some (.ok (.params []), st1)
          else rec (.paramList [] "Nom de paramètre attendu dans le constructeur.") st1
        pThen paramsRes fun op st2 =>
        match pConsume "RPAREN"
            "Attendait \x27)\x27 après les paramètres du constructeur." st2 with
        | .error e => some (.error e, st2)
        | .ok st3 =>
          match pConsume "LBRACE"
              "Attendait \x27\x7b\x27 avant le corps du constructeur." st3 with
          | .error e => some (.error e, st3)
          | .ok st4 =>
            pThen (rec (.blockLoop []) st4) fun ob st5 =>
            some (.ok (.stmt (.ctorDecl (oParams op) (.block (oStmts ob)))), st5)
  /- The parameter loop shared by function_declaration (msg "Nom de
  paramètre attendu.") and constructor_declaration. -/
  | .paramList acc msg =>
      match pConsume "IDENT" msg st with
      | .error e => some (.error e, st)
      | .ok st1 =>
        let pname := tokValueStr (pPrevious st1).value
        let cont : Option String → PSt → PR := fun ptype st2 =>
          let mcm := pMatch1 "COMMA" st2
          if mcm.1 then rec (.paramList (acc ++ [⟨pname, ptype⟩]) msg) mcm.2
          else some (.ok (.params (acc ++ [⟨pname, ptype⟩])), st2)
        let mc := pMatch1 "COLON" st1
        if mc.1 then
          pThen (rec .parseType mc.2) fun ot st2 => cont (some (oStr ot)) st2
        else cont none st1
  /- parse_type. -/
  | .parseType =>
      let suffix : String → PSt → PR := fun tyStr st1 =>
        let mb := pMatch1 "LBRACKET" st1
        if mb.1 then
          match pConsume "RBRACKET"
              "Attendait \x27]\x27 pour fermer la déclaration de type tableau." mb.2 with
          | .error e => some (.error e, mb.2)
          | .ok st2 => some (.ok (.tystr (tyStr ++ "[]")), st2)
        else some (.ok (.tystr tyStr), st1)
      let m1 := pMatch1 "TYPE_INT" st
      if m1.1 then suffix "int" m1.2
      else
        let m2 := pMatch1 "TYPE_FLOAT" st
        if m2.1 then suffix "float" m2.2
        else
          let m3 := pMatch1 "TYPE_STRING" st
          if m3.1 then suffix "string" m3.2
          else
            let m4 := pMatch1 "TYPE_BOOL" st
            if m4.1 then suffix "bool" m4.2
            else
              let m5 := pMatch1 "TYPE_CHAR" st
              if m5.1 then suffix "char" m5.2
              else
                let mi := pMatch1 "IDENT" st
                if mi.1 then suffix (tokValueStr (pPrevious mi.2).value) mi.2
                else if pCheck "LBRACE" st then rec .parseObjectType st
                else some (.error ⟨"Type attendu", (pPeek st).line⟩, st)
  /- parse_object_type. -/
  | .parseObjectType =>
      match pConsume "LBRACE" "Attendait \x27\x7b\x27 pour le type objet." st with
      | .error e => some (.error e, st)
      | .ok st1 =>
        let fieldsRes : PR :=
          if pCheck "RBRACE" st1 then some (.ok (.fields []), st1)
          else rec (.objFieldList []) st1
        pThen fieldsRes fun ofl st2 =>
        match pConsume "RBRACE"
            "Attendait \x27\x7d\x27 après la définition du type objet." st2 with
        | .error e => some (.error e, st2)
        | .ok st3 => some (.ok (.tystr
            ("\x7b" ++ String.intercalate "," (oFields ofl) ++ "\x7d")), st3)
  /- The field loop of parse_object_type. -/
  | .objFieldList acc =>
      match pConsume "IDENT" "Nom de champ attendu dans le type objet." st with
      | .error e => some (.error e, st)
      | .ok st1 =>
        let fieldName := tokValueStr (pPrevious st1).value
        match pConsume "COLON"
            "Attendait \x27:\x27 après le nom de champ dans le type objet." st1 with
        | .error e => some (.error e, st1)
        | .ok st2 =>
          pThen (rec .parseType st2) fun ot st3 =>
          let acc1 := acc ++ [fieldName ++ ":" ++ oStr ot]
          let mc := pMatch1 "COMMA" st3
          if mc.1 then rec (.objFieldList acc1) mc.2
          else some (.ok (.fields acc1), st3)
  /- statement(). -/
  | .statement =>
      let mb := pMatch1 "LBRACE" st
      if mb.1 then
        pThen (rec (.blockLoop []) mb.2) fun ob st1 =>
        some (.ok (.stmt (.block (oStmts ob))), st1)
      else
        let mi := pMatch1 "IF" st
        if mi.1 then rec .ifS mi.2
        else
          let mw := pMatch1 "WHILE" st
          if mw.1 then rec .whileS mw.2
          else
            let mf := pMatch1 "FOR" st
            if mf.1 then rec .forS mf.2
            else
              let mr := pMatch1 "RETURN" st
              if mr.1 then rec .returnS mr.2
              else
                let mbk := pMatch1 "BREAK" st
                if mbk.1 then
                  match pConsume "SEMICOLON" "Attendait \x27;\x27 après \x27break\x27." mbk.2 with
                  | .error e => some (.error e, mbk.2)
                  | .ok st1 => some (.ok (.stmt .breakStmt), st1)
                else
                  let mct := pMatch1 "CONTINUE" st
                  if mct.1 then
                    match pConsume "SEMICOLON"
                        "Attendait \x27;\x27 après \x27continue\x27." mct.2 with
                    | .error e => some (.error e, mct.2)
                    | .ok st1 => some (.ok (.stmt .continueStmt), st1)
                  else rec .exprS st
  /- block() (LBRACE already consumed): the statement loop then the closing
  RBRACE; returns the statement list. -/
  | .blockLoop acc =>
      if !pCheck "RBRACE" st && !pIsAtEnd st then
        pThen (rec .declaration st) fun o st1 =>
        match oStmtOpt o with
        | some s => rec (.blockLoop (acc ++ [s])) st1
        | none => rec (.blockLoop acc) st1
      else
        match pConsume "RBRACE" "Attendait \x27\x7d\x27 après le bloc." st with
        | .error e => some (.error e, st)
        | .ok st1 => some (.ok (.stmts acc), st1)
  /- if_statement (IF already consumed). -/
  | .ifS =>
      match pConsume "LPAREN" "Attendait \x27(\x27 après \x27if\x27." st with
      | .error e => some (.error e, st)
      | .ok st1 =>
        pThen (rec .expression st1) fun oc st2 =>
        match pConsume "RPAREN" "Attendait \x27)\x27 après la condition du if." st2 with
        | .error e => some (.error e, st2)
        | .ok st3 =>
          pThen (rec .statement st3) fun ot st4 =>
          let me := pMatch1 "ELSE" st4
          if me.1 then
            pThen (rec .statement me.2) fun oe st5 =>
            some (.ok (.stmt (.ifStmt (oExpr oc) (oStmt ot) (some (oStmt oe)))), st5)
          else some (.ok (.stmt (.ifStmt (oExpr oc) (oStmt ot) none)), st4)
  /- while_statement (WHILE already consumed). -/
  | .whileS =>
      match pConsume "LPAREN" "Attendait \x27(\x27 après \x27while\x27." st with
      | .error e => some (.error e, st)
      | .ok st1 =>
        pThen (rec .expression st1) fun oc st2 =>
        match pConsume "RPAREN" "Attendait \x27)\x27 après la condition du while." st2 with
        | .error e => some (.error e, st2)
        | .ok st3 =>
          pThen (rec .statement st3) fun ob st4 =>
          some (.ok (.stmt (.whileStmt (oExpr oc) (oStmt ob))), st4)
  /- for_statement (FOR already consumed). -/
  | .forS =>
      match pConsume "LPAREN" "Attendait \x27(\x27 après \x27for\x27." st with
      | .error e => some (.error e, st)
      | .ok st1 =>
        let initRes : PR :=
          let ms := pMatch1 "SEMICOLON" st1
          if ms.1 then some (.ok (.stmtOpt none), ms.2)
          else
            let mv := pMatch1 "VAR" st1
            if mv.1 then
              pThen (rec (.varDecl false) mv.2) fun o s =>
              some (.ok (.stmtOpt (some (oStmt o))), s)
            else
              pThen (rec .expression st1) fun oe s =>
              match pConsume "SEMICOLON"
                  "Attendait \x27;\x27 après l\x27initialiseur du for." s with
              | .error e => some (.error e, s)
              | .ok s2 => some (.ok (.stmtOpt (some (.exprStmt (oExpr oe)))), s2)
        pThen initRes fun oi st2 =>
        let condRes : PR :=
          if pCheck "SEMICOLON" st2 then some (.ok (.exprOpt none), st2)
          else
            pThen (rec .expression st2) fun o s =>
            some (.ok (.exprOpt (some (oExpr o))), s)
        pThen condRes fun oc st3 =>
        match pConsume "SEMICOLON" "Attendait \x27;\x27 après la condition du for." st3 with
        | .error e => some (.error e, st3)
        | .ok st4 =>
          let updRes : PR :=
            if pCheck "RPAREN" st4 then some (.ok (.exprOpt none), st4)
            else
              pThen (rec .expression st4) fun o s =>
              some (.ok (.exprOpt (some (oExpr o))), s)
          pThen updRes fun ou st5 =>
          match pConsume "RPAREN" "Attendait \x27)\x27 après les clauses du for." st5 with
          | .error e => some (.error e, st5)
          | .ok st6 =>
            pThen (rec .statement st6) fun ob st7 =>
            some (.ok (.stmt (.forStmt (oStmtOpt oi) (oExprOpt oc) (oExprOpt ou)
              (oStmt ob))), st7)
  /- return_statement (RETURN already consumed). -/
  | .returnS =>
      let valRes : PR :=
        if pCheck "SEMICOLON" st then some (.ok (.exprOpt none), st)
        else
          pThen (rec .expression st) fun o s =>
          some (.ok (.exprOpt (some (oExpr o))), s)
      pThen valRes fun ov st1 =>
      match pConsume "SEMICOLON" "Attendait \x27;\x27 après la valeur de retour." st1 with
      | .error e => some (.error e, st1)
      | .ok st2 => some (.ok (.stmt (.returnStmt (oExprOpt ov))), st2)
  /- expression_statement. -/
  | .exprS =>
      pThen (rec .expression st) fun oe st1 =>
      match pConsume "SEMICOLON" "Attendait \x27;\x27 après l\x27expression." st1 with
      | .error e => some (.error e, st1)
      | .ok st2 => some (.ok (.stmt (.exprStmt (oExpr oe))), st2)
  /- expression(). -/
  | .expression => rec .assignment st
  /- assignment(): right associative; the invalid-target ParseError is
  raised AFTER the value was parsed. -/
  | .assignment =>
      pThen (rec .logicalOr st) fun oe st1 =>
      let m := pMatchMany ["EQ", "PLUS_EQ", "MINUS_EQ", "MUL_EQ", "DIV_EQ", "MOD_EQ"] st1
      if m.1 then
        let operator := (pPrevious m.2).type
        pThen (rec .assignment m.2) fun ov st2 =>
        match oExpr oe with
        | .identifier n l =>
            some (.ok (.expr (.assignment (.identifier n l) operator (oExpr ov))), st2)
        | .memberAccess t mm =>
            some (.ok (.expr (.assignment (.memberAccess t mm) operator (oExpr ov))), st2)
        | .indexAccess t i =>
            some (.ok (.expr (.assignment (.indexAccess t i) operator (oExpr ov))), st2)
        | _ => some (.error
            ⟨"Cible d\x27assignation invalide. Attendait identifiant, accès membre ou index.",
             (pPeek st2).line⟩, st2)
      else some (.ok (.expr (oExpr oe)), st1)
  /- logical_or / logical_and / equality / comparison / term / factor:
  parse the tighter level, then the operator loop. -/
  | .logicalOr =>
      pThen (rec .logicalAnd st) fun o st1 => rec (.orLoop (oExpr o)) st1
  | .orLoop e =>
      let m := pMatch1 "OR" st
      if m.1 then
        pThen (rec .logicalAnd m.2) fun o st1 =>
        rec (.orLoop (.binaryOp e (pPrevious m.2).type (oExpr o))) st1
      else some (.ok (.expr e), st)
  | .logicalAnd =>
      pThen (rec .equality st) fun o st1 => rec (.andLoop (oExpr o)) st1
  | .andLoop e =>
      let m := pMatch1 "AND" st
      if m.1 then
        pThen (rec .equality m.2) fun o st1 =>
        rec (.andLoop (.binaryOp e (pPrevious m.2).type (oExpr o))) st1
      else some (.ok (.expr e), st)
  | .equality =>
      pThen (rec .comparison st) fun o st1 => rec (.eqLoop (oExpr o)) st1
  | .eqLoop e =>
      let m := pMatchMany ["EQ_EQ", "NOT_EQ"] st
      if m.1 then
        pThen (rec .comparison m.2) fun o st1 =>
        rec (.eqLoop (.binaryOp e (pPrevious m.2).type (oExpr o))) st1
      else some (.ok (.expr e), st)
  | .comparison =>
      pThen (rec .term st) fun o st1 => rec (.cmpLoop (oExpr o)) st1
  | .cmpLoop e =>
      let m := pMatchMany ["LESS", "LESS_EQ", "GREATER", "GREATER_EQ"] st
      if m.1 then
        pThen (rec .term m.2) fun o st1 =>
        rec (.cmpLoop (.binaryOp e (pPrevious m.2).type (oExpr o))) st1
      else some (.ok (.expr e), st)
  | .term =>
      pThen (rec .factor st) fun o st1 => rec (.termLoop (oExpr o)) st1
  | .termLoop e =>
      let m := pMatchMany ["PLUS", "MINUS"] st
      if m.1 then
        pThen (rec .factor m.2) fun o st1 =>
        rec (.termLoop (.binaryOp e (pPrevious m.2).type (oExpr o))) st1
      else some (.ok (.expr e), st)
  | .factor =>
      pThen (rec .unary st) fun o st1 => rec (.factorLoop (oExpr o)) st1
  | .factorLoop e =>
      let m := pMatchMany ["MUL", "DIV", "MOD"] st
      if m.1 then
        pThen (rec .unary m.2) fun o st1 =>
        rec (.factorLoop (.binaryOp e (pPrevious m.2).type (oExpr o))) st1
      else some (.ok (.expr e), st)
  /- unary(). -/
  | .unary =>
      let m := pMatchMany ["NOT", "MINUS"] st
      if m.1 then
        pThen (rec .unary m.2) fun o st1 =>
        some (.ok (.expr (.unaryOp (pPrevious m.2).type (oExpr o))), st1)
      else rec .call st
  /- call(): primary then the postfix loop. -/
  | .call =>
      pThen (rec .primary st) fun o st1 => rec (.callLoop (oExpr o)) st1
  | .callLoop e =>
      let ml := pMatch1 "LPAREN" st
      if ml.1 then
        pThen (rec (.finishCall e) ml.2) fun o st1 => rec (.callLoop (oExpr o)) st1
      else
        let md := pMatch1 "DOT" st
        if md.1 then
          match pConsume "IDENT" "Nom de membre attendu après \x27.\x27." md.2 with
          | .error e2 => some (.error e2, md.2)
          | .ok st1 =>
              rec (.callLoop (.memberAccess e (tokValueStr (pPrevious st1).value))) st1
        else
          let mb := pMatch1 "LBRACKET" st
          if mb.1 then
            pThen (rec .expression mb.2) fun oi st1 =>
            match pConsume "RBRACKET" "Attendait \x27]\x27 après l\x27index." st1 with
            | .error e2 => some (.error e2, st1)
            | .ok st2 => rec (.callLoop (.indexAccess e (oExpr oi))) st2
          else some (.ok (.expr e), st)
  /- finish_call (LPAREN already consumed). -/
  | .finishCall callee =>
      let argsRes : PR :=
        if pCheck "RPAREN" st then some (.ok (.exprs []), st)
        else rec (.argList []) st
      pThen argsRes fun oa st1 =>
      match pConsume "RPAREN" "Attendait \x27)\x27 après les arguments." st1 with
      | .error e => some (.error e, st1)
      | .ok st2 => some (.ok (.expr (.functionCall callee (oExprs oa))), st2)
  /- The argument loop of finish_call. -/
  | .argList acc =>
      pThen (rec .expression st) fun o st1 =>
      let mc := pMatch1 "COMMA" st1
      if mc.1 then rec (.argList (acc ++ [oExpr o])) mc.2
      else some (.ok (.exprs (acc ++ [oExpr o])), st1)
  /- primary(). -/
  | .primary =>
      let mf := pMatch1 "FALSE" st
      if mf.1 then some (.ok (.expr (.literal (.bool false) "bool")), mf.2)
      else
        let mt := pMatch1 "TRUE" st
        if mt.1 then some (.ok (.expr (.literal (.bool true) "bool")), mt.2)
        else
          let mn := pMatch1 "NULL" st
          if mn.1 then some (.ok (.expr (.literal .null "null")), mn.2)
          else
            let mi := pMatch1 "INT" st
            if mi.1 then
              some (.ok (.expr (.literal (litOfTok (pPrevious mi.2).value) "int")), mi.2)
            else
              let mfl := pMatch1 "FLOAT" st
              if mfl.1 then
                some (.ok (.expr (.literal (litOfTok (pPrevious mfl.2).value) "float")), mfl.2)
              else
                let ms := pMatch1 "STRING" st
                if ms.1 then
                  some (.ok (.expr (.literal (litOfTok (pPrevious ms.2).value) "string")), ms.2)
                else
                  let mp := pMatch1 "LPAREN" st
                  if mp.1 then
                    pThen (rec .expression mp.2) fun o st1 =>
                    match pConsume "RPAREN" "Attendait \x27)\x27 après l\x27expression." st1 with
                    | .error e => some (.error e, st1)
                    | .ok st2 => some (.ok (.expr (oExpr o)), st2)
                  else
                    let mbk := pMatch1 "LBRACKET" st
                    if mbk.1 then rec .arrayLit mbk.2
                    else
                      let mbr := pMatch1 "LBRACE" st
                      if mbr.1 then rec .objectLit mbr.2
                      else
                        let mid := pMatch1 "IDENT" st
                        if mid.1 then
                          some (.ok (.expr (.identifier
                            (tokValueStr (pPrevious mid.2).value)
                            (pPrevious mid.2).line)), mid.2)
                        else
                          some (.error
                            ⟨"Expression primaire attendue, trouvé " ++ (pPeek st).type,
                             (pPeek st).line⟩, st)
  /- array_literal (LBRACKET already consumed). -/
  | .arrayLit =>
      let elemsRes : PR :=
        if pCheck "RBRACKET" st then some (.ok (.exprs []), st)
        else rec (.arrayElems []) st
      pThen elemsRes fun oe st1 =>
      match pConsume "RBRACKET"
          "Attendait \x27]\x27 après les éléments du tableau." st1 with
      | .error e => some (.error e, st1)
      | .ok st2 => some (.ok (.expr (.arrayLiteral (oExprs oe))), st2)
  /- The element loop of array_literal. -/
  | .arrayElems acc =>
      pThen (rec .expression st) fun o st1 =>
      let mc := pMatch1 "COMMA" st1
      if mc.1 then rec (.arrayElems (acc ++ [oExpr o])) mc.2
      else some (.ok (.exprs (acc ++ [oExpr o])), st1)
  /- object_literal (LBRACE already consumed). -/
  | .objectLit =>
      let propsRes : PR :=
        if pCheck "RBRACE" st then some (.ok (.props []), st)
        else rec (.objProps []) st
      pThen propsRes fun op st1 =>
      match pConsume "RBRACE"
          "Attendait \x27\x7d\x27 après les propriétés de l\x27objet." st1 with
      | .error e => some (.error e, st1)
      | .ok st2 => some (.ok (.expr (.objectLiteral (oProps op))), st2)
  /- The property loop of object_literal. -/
  | .objProps acc =>
      match pConsume "IDENT" "Nom de clé attendu dans le littéral objet." st with
      | .error e => some (.error e, st)
      | .ok st1 =>
        let key := tokValueStr (pPrevious st1).value
        match pConsume "COLON"
            "Attendait \x27:\x27 après la clé dans le littéral objet." st1 with
        | .error e => some (.error e, st1)
        | .ok st2 =>
          pThen (rec .expression st2) fun ov st3 =>
          let acc1 := propInsert acc key (oExpr ov)
          let mc := pMatch1 "COMMA" st3
          if mc.1 then rec (.objProps acc1) mc.2
          else some (.ok (.props acc1), st3)

/-- The parser: fuel-structural iteration of parseStep. -/
def parseGo : Nat → PTask → PSt → PR
  | 0, _, _ => none
  | fuel + 1, task, st => parseStep (parseGo fuel) task st

/-- Parser.parse on a fresh Parser(tokens): the Program built by the
declaration loop together with the recorded errors. -/
def parse (fuel : Nat) (tokens : List Token) : Option (Program × List AErr) :=
  match parseGo fuel (.parseLoop []) ⟨tokens, 0, []⟩ with
  | some (.ok (.prog p), st) => some (p, st.errors)
  | _ => none

/-! ## run endpoint: backend/api/endpoints.py run_code -/

/-- The RunResponse model (the fields run_code fills). -/
structure RunResponse where
  output : List String
  error : Option String
  errors : Option (List AErr)
deriving DecidableEq

/-- run_code: tokenize, parse, collect parser + analyzer errors; when any
exist, skip execution and answer the static-failure response; otherwise
interpret and mirror a trailing "Runtime Error:" output line into the error
field (the prefix test uses the character list, as String.startsWith does).
The three fuels instantiate the three fueled embeddings. -/
def run_code (pfuel afuel ifuel : Nat) (code : String) : Option RunResponse :=
  match parse pfuel (tokenize code) with
  | none => none
  | some (program, perrors) =>
    match analyze afuel program with
    | none => none
    | some serrors =>
      match perrors ++ serrors with
      | [] =>
        match interpret ifuel program initSt with
        | none => none
        | some output =>
          let error : Option String :=
            match output.getLast? with
            | some last =>
                if List.isPrefixOf "Runtime Error:".data last.data then some last
                else none
            | none => none
          some ⟨output, error, none⟩
      | errs => some ⟨[], some "Erreur d\x27analyse statique", some errs⟩

/-! Reference line/column geometry, written from the specification's words
("the 1-based line of the first character of its lexeme", "1-based starting
column"), for comparison with what the lexer records. -/

/-- Parser-state transitions: the token list is never modified, the cursor
only moves forward, and the cursor never passes the end of the token list
(every advance is guarded by the end-of-input test). -/
def PStep (st st' : PSt) : Prop :=
  st'.tokens = st.tokens ∧ st.current ≤ st'.current ∧
  (st.current ≤ st.tokens.length → st'.current ≤ st.tokens.length)

/-- The chain depth of the parser work items: every parseStep recursion
either consumes a token first, or moves to a work item of smaller rank at
the same position. -/
def pRank : PTask → Nat
  | .primary => 2
  | .callLoop _ => 3
  | .call => 4
  | .unary => 5
  | .factorLoop _ => 6
  | .factor => 7
  | .termLoop _ => 8
  | .term => 9
  | .cmpLoop _ => 10
  | .comparison => 11
  | .eqLoop _ => 12
  | .equality => 13
  | .andLoop _ => 14
  | .logicalAnd => 15
  | .orLoop _ => 16
  | .logicalOr => 17
  | .assignment => 18
  | .expression => 19
  | .argList _ => 20
  | .arrayElems _ => 20
  | .objProps _ => 20
  | .finishCall _ => 21
  | .arrayLit => 21
  | .objectLit => 21
  | .objFieldList _ => 3
  | .parseObjectType => 4
  | .parseType => 5
  | .paramList _ _ => 5
  | .varDecl _ => 22
  | .funcDecl => 22
  | .classDecl => 22
  | .ctorDecl => 22
  | .ifS => 22
  | .whileS => 22
  | .forS => 22
  | .returnS => 22
  | .exprS => 22
  | .statement => 23
  | .declaration => 24
  | .parseLoop _ => 25
  | .blockLoop _ => 25
  | .classMembers _ => 25

/-- Unread tokens. -/
def pRemaining (st : PSt) : Nat := st.tokens.length - st.current

/-- The travel property of a parser approximation: every produced state is a
forward move over the same token list. -/
def PTravel (rec : PTask → PSt → PR) : Prop :=
  ∀ t st r st', rec t st = some (r, st') → PStep st st'

/-- Lexer-state transitions that scan without emitting: the source, token
list, line and lexeme start are untouched, the cursor only moves forward,
and column and cursor move in lockstep (their difference is preserved). -/
def LexPure (st st' : LexSt) : Prop :=
  st'.source = st.source ∧ st'.tokens = st.tokens ∧ st'.line = st.line ∧
  st'.startPos = st.startPos ∧ st'.startColumn = st.startColumn ∧
  st.current ≤ st'.current ∧ st'.column + st.current = st'.current + st.column

/-- Lexer-state transitions of one token-scanning helper: like LexPure but
at most one token is appended, carrying the line and the recorded start
column of the step. -/
def LexEmits (st st' : LexSt) : Prop :=
  st'.source = st.source ∧ st'.line = st.line ∧
  st'.startPos = st.startPos ∧ st'.startColumn = st.startColumn ∧
  st.current ≤ st'.current ∧ st'.column + st.current = st'.current + st.column ∧
  (st'.tokens = st.tokens ∨
    ∃ ty v, st'.tokens = st.tokens ++ [⟨ty, v, st.line, st.startColumn⟩])

/-- The scan-loop invariant on newline-free sources: line 1 throughout, the
column counter one past the cursor, all emitted tokens on line 1 with
strictly increasing columns bounded by the cursor. -/
def LexInv (st : LexSt) : Prop :=
  (∀ c ∈ st.source, c ≠ '\n') ∧ st.line = 1 ∧ st.column = st.current + 1 ∧
  (∀ t ∈ st.tokens, t.line = 1) ∧
  List.Chain' (fun a b => a.column < b.column) st.tokens ∧
  (∀ t ∈ st.tokens, t.column ≤ st.current)

/-- The 1-based line number of position pos in src: one more than the number
of newlines strictly before it. -/
def specLineOfPos (src : List Char) (pos : Nat) : Nat :=
  1 + ((src.take pos).filter (fun c => c = '\n')).length

/-- The 1-based column of position pos in src: the distance to the last
newline before it (or to the start). -/
def specColOfPos (src : List Char) (pos : Nat) : Nat :=
  ((src.take pos).reverse.takeWhile (fun c => c ≠ '\n')).length + 1

/-! ## Concrete programs and inputs used by the claim instances -/

/-- function outer() \x7b var x = 42; function inner() \x7b pf(x); \x7d
return inner; \x7d  var f = outer();  f();  Under environment capture at
definition time, f() prints 42. -/
def progClosure : Program := ⟨[
  .functionDecl "outer" [] none (.block [
    .variableDecl "x" none (some (.literal (.int 42) "int")) false 2,
    .functionDecl "inner" [] none (.block [
      .exprStmt (.functionCall (.identifier "pf" 4) [.identifier "x" 4])]),
    .returnStmt (some (.identifier "inner" 5))]),
  .variableDecl "f" none (some (.functionCall (.identifier "outer" 7) [])) false 7,
  .exprStmt (.functionCall (.identifier "f" 8) [])]⟩

/-- pf("a"); x;  (x is undefined at run time). -/
def c3front : List Statement := [
  .exprStmt (.functionCall (.identifier "pf" 1) [.literal (.str "a") "string"]),
  .exprStmt (.identifier "x" 2)]

/-- pf("b");  statements after the failure point. -/
def c3rest : List Statement := [
  .exprStmt (.functionCall (.identifier "pf" 3) [.literal (.str "b") "string"])]

/-- var a = [10, 20, 30]; pf(a[-1]); -/
def progNeg : Program := ⟨[
  .variableDecl "a" none (some (.arrayLiteral [.literal (.int 10) "int",
    .literal (.int 20) "int", .literal (.int 30) "int"])) false 1,
  .exprStmt (.functionCall (.identifier "pf" 2)
    [.indexAccess (.identifier "a" 2) (.unaryOp "MINUS" (.literal (.int 1) "int"))])]⟩

/-- A state with a three-element list at heap address 0 and a one-entry dict
at heap address 1. -/
def c7st : St :=
  { envs := [{ values := [], enclosing := none }]
    heap := [.list [.int 10, .int 20, .int 30], .dict [(.str "k", .int 7)]]
    env := 0
    output := [] }

/-- \x7b var x = 1; \x7d  (one block, to exercise scope discipline). -/
def c9prog : Program := ⟨[
  .block [.variableDecl "x" none (some (.literal (.int 1) "int")) false 1]]⟩

/-- pf("a"); return 1; pf("b");  (a top-level return). -/
def c10prog : Program := ⟨[
  .exprStmt (.functionCall (.identifier "pf" 1) [.literal (.str "a") "string"]),
  .returnStmt (some (.literal (.int 1) "int")),
  .exprStmt (.functionCall (.identifier "pf" 3) [.literal (.str "b") "string"])]⟩

/-- while (true) \x7b function f() \x7b break; \x7d \x7d  (a break inside a
function body that is lexically nested in a loop body). -/
def c4prog : Program := ⟨[
  .whileStmt (.literal (.bool true) "bool") (.block [
    .functionDecl "f" [] none (.block [.breakStmt])])]⟩

/-- The two-line source \x27a\nb\x27 x: a string literal with an embedded
newline followed by an identifier. -/
def c8src : String := "\x27a\nb\x27 x"

/-- The scope-discipline relation between a pre-state and a post-state (used
by the invariant proofs below): the current-environment pointer is restored
and the environment store only grows. -/
def EnvsSt (s s' : St) : Prop :=
  s'.env = s.env ∧ s.envs.length ≤ s'.envs.length

/-- The scope-discipline property of an interpreter approximation. -/
def Pres (rec : Task → St → RRes) : Prop :=
  ∀ t s r s', rec t s = some (r, s') → EnvsSt s s'

/-- Pointwise refinement of interpreter approximations (fuel monotonicity:
a result obtained with some fuel persists at any larger fuel; fuel is an
artifact of the total model, not of the Python code). -/
def Below (r1 r2 : Task → St → RRes) : Prop :=
  ∀ t s r, r1 t s = some r → r2 t s = some r

/-! ## Fuel monotonicity -/

/-- andThenR respects refinement of both components. -/
theorem andThenR_below {x1 x2 : RRes} {k1 k2 : Out → St → RRes} {r}
    (hx : ∀ r', x1 = some r' → x2 = some r')
    (hk : ∀ o s r', k1 o s = some r' → k2 o s = some r')
    (h : andThenR x1 k1 = some r) : andThenR x2 k2 = some r := by
  unfold andThenR at h ⊢
  cases hx1 : x1 with
  | none => rw [hx1] at h; cases h
  | some p =>
    rw [hx _ hx1]
    rw [hx1] at h
    obtain ⟨e, s⟩ := p
    cases e with
    | error e => exact h
    | ok o => exact hk _ _ _ h

/-- withEnvRes respects refinement of the wrapped computation. -/
theorem withEnvRes_below {x1 x2 : RRes} {previous r}
    (hx : ∀ r', x1 = some r' → x2 = some r')
    (h : withEnvRes previous x1 = some r) : withEnvRes previous x2 = some r := by
  unfold withEnvRes at h ⊢
  cases hx1 : x1 with
  | none => rw [hx1] at h; cases h
  | some p => rw [hx _ hx1]; rw [hx1] at h; exact h

/-- withEnvRun respects refinement of the recursive interpreter. -/
theorem withEnvRun_below {r1 r2 : Task → St → RRes} (hb : Below r1 r2)
    {envId stmts s r} (h : withEnvRun (fun l s => r1 (.seq l) s) envId stmts s = some r) :
    withEnvRun (fun l s => r2 (.seq l) s) envId stmts s = some r := by
  unfold withEnvRun at h ⊢
  exact withEnvRes_below (fun r' h' => hb _ _ _ h') h

/-- callFuncDecl respects refinement. -/
theorem callFuncDecl_below {r1 r2 : Task → St → RRes} (hb : Below r1 r2)
    {params body args s2 r}
    (h : callFuncDecl r1 params body args s2 = some r) :
    callFuncDecl r2 params body args s2 = some r := by
  unfold callFuncDecl at h ⊢
  by_cases hlen : args.length ≠ params.length
  · rw [if_pos hlen] at h ⊢; exact h
  · rw [if_neg hlen] at h ⊢
    cases hw : withEnvRun (fun l s => r1 (.seq l) s) (envAlloc s2 s2.env).1
        (blockStatements body)
        (bindParams (envAlloc s2 s2.env).2 (envAlloc s2 s2.env).1 params args) with
    | none => rw [hw] at h; cases h
    | some q => rw [withEnvRun_below hb hw]; rw [hw] at h; exact h

/-- callBoundMethod respects refinement. -/
theorem callBoundMethod_below {r1 r2 : Task → St → RRes} (hb : Below r1 r2)
    {instAddr mname params body args s2 r}
    (h : callBoundMethod r1 instAddr mname params body args s2 = some r) :
    callBoundMethod r2 instAddr mname params body args s2 = some r := by
  unfold callBoundMethod at h ⊢
  by_cases hlen : args.length ≠ params.length
  · rw [if_pos hlen] at h ⊢; exact h
  · rw [if_neg hlen] at h ⊢
    cases hw : withEnvRun (fun l s => r1 (.seq l) s) (envAlloc s2 s2.env).1
        (blockStatements body)
        (bindParams (envDefineAt (envAlloc s2 s2.env).2 (envAlloc s2 s2.env).1
          "this" (.inst instAddr)) (envAlloc s2 s2.env).1 params args) with
    | none => rw [hw] at h; cases h
    | some q => rw [withEnvRun_below hb hw]; rw [hw] at h; exact h

/-- callClassV respects refinement. -/
theorem callClassV_below {r1 r2 : Task → St → RRes} (hb : Below r1 r2)
    {a args s2 r}
    (h : callClassV r1 a args s2 = some r) :
    callClassV r2 a args s2 = some r := by
  unfold callClassV at h ⊢
  cases hg : heapGet s2 a with
  | none => rw [hg] at h; exact h
  | some obj =>
    rw [hg] at h
    cases obj with
    | list _ => exact h
    | dict _ => exact h
    | inst _ _ => exact h
    | cls cn sc me ct =>
      cases ct with
      | none => exact h
      | some pb =>
        obtain ⟨params, body⟩ := pb
        dsimp only at h ⊢
        by_cases hlen : args.length ≠ params.length
        · rw [if_pos hlen] at h ⊢; exact h
        · rw [if_neg hlen] at h ⊢
          cases hw : withEnvRun (fun l s => r1 (.seq l) s)
              (envAlloc (heapAlloc s2 (.inst a [])).2 (heapAlloc s2 (.inst a [])).2.env).1
              (blockStatements body)
              (bindParams (envDefineAt
                (envAlloc (heapAlloc s2 (.inst a [])).2 (heapAlloc s2 (.inst a [])).2.env).2
                (envAlloc (heapAlloc s2 (.inst a [])).2 (heapAlloc s2 (.inst a [])).2.env).1
                "this" (.inst (heapAlloc s2 (.inst a [])).1))
                (envAlloc (heapAlloc s2 (.inst a [])).2 (heapAlloc s2 (.inst a [])).2.env).1
                params args) with
          | none => rw [hw] at h; cases h
          | some q => rw [withEnvRun_below hb hw]; rw [hw] at h; exact h

/-- One interpreter step preserves refinement. -/
theorem runStep_below {r1 r2 : Task → St → RRes} (hb : Below r1 r2) :
    Below (runStep r1) (runStep r2) := by
  intro t s r h
  cases t with
  | seq l =>
    cases l with
    | nil => exact h
    | cons st rest =>
      exact andThenR_below (fun r' h' => hb _ _ _ h') (fun o s1 r' h' => hb _ _ _ h') h
  | exprs l =>
    cases l with
    | nil => exact h
    | cons e rest =>
      refine andThenR_below (fun r' h' => hb _ _ _ h') ?_ h
      intro o s1 r' h'
      exact andThenR_below (fun r' h' => hb _ _ _ h') (fun _ _ _ h' => h') h'
  | whileLoop cond body =>
    refine andThenR_below (fun r' h' => hb _ _ _ h') ?_ h
    intro o s1 r' h'
    dsimp only at h' ⊢
    by_cases hc : isTruthy (outVal o) = true
    · rw [if_pos hc] at h' ⊢
      cases hx : r1 (.stmt body) s1 with
      | none => rw [hx] at h'; cases h'
      | some p =>
        rw [hb _ _ _ hx]
        rw [hx] at h'
        obtain ⟨e, s2⟩ := p
        match e with
        | .error .brk => exact h'
        | .error .cont => exact hb _ _ _ h'
        | .error (.err m) => exact h'
        | .error (.ret v) => exact h'
        | .ok o2 => exact hb _ _ _ h'
    · rw [if_neg hc] at h' ⊢; exact h'
  | forLoop cond body update =>
    refine andThenR_below ?_ ?_ h
    · intro r' h'
      cases cond with
      | none => exact h'
      | some c => exact hb _ _ _ h'
    · intro o s1 r' h'
      dsimp only at h' ⊢
      by_cases hc : isTruthy (outVal o) = true
      · rw [if_pos hc] at h' ⊢
        cases hx : r1 (.stmt body) s1 with
        | none => rw [hx] at h'; exact absurd h' (by simp)
        | some p =>
          rw [hb _ _ _ hx]
          rw [hx] at h'
          obtain ⟨e, s2⟩ := p
          match e with
          | .error .brk => exact h'
          | .error (.err m) => exact h'
          | .error (.ret v) => exact h'
          | .error .cont =>
            refine andThenR_below ?_ (fun o2 s3 r'' h'' => hb _ _ _ h'') h'
            intro r'' h''
            cases update with
            | none => exact h''
            | some u => exact hb _ _ _ h''
          | .ok o2 =>
            refine andThenR_below ?_ (fun o2 s3 r'' h'' => hb _ _ _ h'') h'
            intro r'' h''
            cases update with
            | none => exact h''
            | some u => exact hb _ _ _ h''
      · rw [if_neg hc] at h' ⊢; exact h'
  | stmt st =>
    cases st with
    | block stmts => exact withEnvRun_below hb h
    | variableDecl name vt init c line =>
      cases init with
      | none => exact h
      | some i =>
        exact andThenR_below (fun r' h' => hb _ _ _ h') (fun _ _ _ h' => h') h
    | functionDecl n p rt b => exact h
    | ctorDecl p b => exact h
    | classDecl n sc m line => exact h
    | ifStmt cond tb eb =>
      refine andThenR_below (fun r' h' => hb _ _ _ h') ?_ h
      intro o s1 r' h'
      dsimp only at h' ⊢
      by_cases hc : isTruthy (outVal o) = true
      · rw [if_pos hc] at h' ⊢; exact hb _ _ _ h'
      · rw [if_neg hc] at h' ⊢
        cases eb with
        | none => exact h'
        | some e => exact hb _ _ _ h'
    | whileStmt cond body => exact hb _ _ _ h
    | forStmt init cond update body =>
      refine withEnvRes_below ?_ h
      intro r' h'
      refine andThenR_below ?_ (fun o s3 r'' h'' => hb _ _ _ h'') h'
      intro r'' h''
      cases init with
      | none => exact h''
      | some i => exact hb _ _ _ h''
    | returnStmt value =>
      cases value with
      | none => exact h
      | some e => exact andThenR_below (fun r' h' => hb _ _ _ h') (fun _ _ _ h' => h') h
    | breakStmt => exact h
    | continueStmt => exact h
    | exprStmt e => exact andThenR_below (fun r' h' => hb _ _ _ h') (fun _ _ _ h' => h') h
  | expr e =>
    cases e with
    | literal v rt => exact h
    | identifier n line => exact h
    | assignment target op valueExpr =>
      refine andThenR_below (fun r' h' => hb _ _ _ h') ?_ h
      intro ov s1 r' h'
      cases target with
      | identifier n line => exact h'
      | assignment t2 o2 v2 => exact h'
      | memberAccess mt member =>
        exact andThenR_below (fun r' h' => hb _ _ _ h') (fun _ _ _ h' => h') h'
      | indexAccess it ie =>
        refine andThenR_below (fun r' h' => hb _ _ _ h') ?_ h'
        intro oc s2 r' h'
        exact andThenR_below (fun r' h' => hb _ _ _ h') (fun _ _ _ h' => h') h'
      | literal v rt => exact h'
      | binaryOp a o b => exact h'
      | unaryOp o a => exact h'
      | functionCall c a => exact h'
      | arrayLiteral l => exact h'
      | objectLiteral p => exact h'
    | binaryOp left op right =>
      refine andThenR_below (fun r' h' => hb _ _ _ h') ?_ h
      intro ol s1 r' h'
      exact andThenR_below (fun r' h' => hb _ _ _ h') (fun _ _ _ h' => h') h'
    | unaryOp op operand =>
      exact andThenR_below (fun r' h' => hb _ _ _ h') (fun _ _ _ h' => h') h
    | functionCall callee args =>
      refine andThenR_below (fun r' h' => hb _ _ _ h') ?_ h
      intro oc s1 r' h'
      refine andThenR_below (fun r' h' => hb _ _ _ h') ?_ h'
      intro oa s2 r' h'
      generalize outVal oc = cv at h' ⊢
      cases cv with
      | nativePf => exact h'
      | nativeClock => exact h'
      | boundMethod ia mn p rt b => exact callBoundMethod_below hb h'
      | cls a => exact callClassV_below hb h'
      | funcDecl n p rt b => exact callFuncDecl_below hb h'
      | null => exact h'
      | bool b => exact h'
      | int n => exact h'
      | float q => exact h'
      | str sv => exact h'
      | list a => exact h'
      | dict a => exact h'
      | inst a => exact h'
    | memberAccess target member =>
      exact andThenR_below (fun r' h' => hb _ _ _ h') (fun _ _ _ h' => h') h
    | indexAccess target indexExpr =>
      refine andThenR_below (fun r' h' => hb _ _ _ h') ?_ h
      intro oc s1 r' h'
      exact andThenR_below (fun r' h' => hb _ _ _ h') (fun _ _ _ h' => h') h'
    | arrayLiteral elements =>
      exact andThenR_below (fun r' h' => hb _ _ _ h') (fun _ _ _ h' => h') h
    | objectLiteral properties =>
      exact andThenR_below (fun r' h' => hb _ _ _ h') (fun _ _ _ h' => h') h

/-- Interpreter results persist at one more unit of fuel. -/
theorem run_succ_below : ∀ fuel, Below (run fuel) (run (fuel + 1)) := by
  intro fuel
  induction fuel with
  | zero => intro t s r h; cases h
  | succ f ih => exact runStep_below ih

/-- Interpreter results persist at any larger fuel. -/
theorem run_mono {f f' : Nat} (hle : f ≤ f') : Below (run f) (run f') := by
  induction hle with
  | refl => intro t s r h; exact h
  | step h ih =>
    intro t s r hr
    exact run_succ_below _ _ _ _ (ih _ _ _ hr)

/-! ## Scope discipline

Every interpreter step restores the current-environment pointer it started
with (the try/finally discipline of execute_block and ForStatement, and the
fact that no other code path assigns self.environment), and the environment
store only grows. -/

/-- EnvsSt is reflexive. -/
theorem envsSt_refl (s : St) : EnvsSt s s := ⟨rfl, le_refl _⟩

/-- EnvsSt composes. -/
theorem envsSt_trans {s1 s2 s3 : St} (h1 : EnvsSt s1 s2) (h2 : EnvsSt s2 s3) :
    EnvsSt s1 s3 := ⟨h2.1.trans h1.1, h1.2.trans h2.2⟩

/-- listModify keeps the length. -/
theorem listModify_length {α : Type} (l : List α) (i : Nat) (f : α → α) :
    (listModify l i f).length = l.length := by
  induction l generalizing i with
  | nil => rfl
  | cons x r ih =>
    cases i with
    | zero => rfl
    | succ n => simpa [listModify] using ih n

/-- envDefine does not move the pointer or the store length. -/
theorem envDefine_envsSt (s : St) (n : String) (v : Value) :
    EnvsSt s (envDefine s n v) := by
  constructor
  · rfl
  · simp [envDefine, listModify_length]

/-- envDefineAt does not move the pointer or the store length. -/
theorem envDefineAt_envsSt (s : St) (id : Nat) (n : String) (v : Value) :
    EnvsSt s (envDefineAt s id n v) := by
  constructor
  · rfl
  · simp [envDefineAt, listModify_length]

/-- envAlloc keeps the pointer and grows the store by one. -/
theorem envAlloc_envsSt (s : St) (p : Nat) : EnvsSt s (envAlloc s p).2 := by
  constructor
  · rfl
  · simp [envAlloc]

/-- bindParams does not move the pointer or the store length. -/
theorem bindParams_envsSt (params : List Param) (args : List Value) :
    ∀ s id, EnvsSt s (bindParams s id params args) := by
  induction params generalizing args with
  | nil => intro s id; cases args <;> exact envsSt_refl _
  | cons p ps ih =>
    intro s id
    cases args with
    | nil => exact envsSt_refl _
    | cons a as_ =>
      exact envsSt_trans (envDefineAt_envsSt s id p.name a) (ih as_ _ id)

/-- envAssignGo keeps the store length. -/
theorem envAssignGo_length (envs : List Env) :
    ∀ fuel id n v envs', envAssignGo envs fuel id n v = some (some envs') →
      envs'.length = envs.length := by
  intro fuel
  induction fuel with
  | zero => intro id n v envs' h; cases h
  | succ f ih =>
    intro id n v envs' h
    unfold envAssignGo at h
    cases hg : envs.get? id with
    | none => simp only [hg] at h; cases h
    | some e =>
      cases hf : dictFind e.values n with
      | some w =>
          simp only [hg, hf, Option.some.injEq] at h
          rw [← h, listModify_length]
      | none =>
          cases he : e.enclosing with
          | some p => simp only [hg, hf, he] at h; exact ih _ _ _ _ h
          | none => simp only [hg, hf, he] at h; cases h

/-- envAssign does not move the pointer or the store length. -/
theorem envAssign_envsSt {s : St} {n v s'} (h : envAssign s n v = some (some s')) :
    EnvsSt s s' := by
  unfold envAssign at h
  cases hg : envAssignGo s.envs (s.envs.length + 1) s.env n v with
  | none => rw [hg] at h; cases h
  | some o =>
    cases o with
    | none => rw [hg] at h; cases h
    | some envs2 =>
      rw [hg] at h
      simp only [Option.some.injEq] at h
      subst h
      exact ⟨rfl, le_of_eq (envAssignGo_length _ _ _ _ _ _ hg).symm⟩

/-- Python + touches the heap and nothing else. -/
theorem pyAdd_envs (s : St) (a b : Value) :
    (pyAdd s a b).2.envs = s.envs ∧ (pyAdd s a b).2.env = s.env := by
  unfold pyAdd
  repeat' split
  all_goals simp [heapAlloc]

/-- Python - touches no state. -/
theorem pySub_envs (s : St) (a b : Value) :
    (pySub s a b).2.envs = s.envs ∧ (pySub s a b).2.env = s.env := by
  unfold pySub
  repeat' split
  all_goals simp

/-- Python * touches the heap and nothing else. -/
theorem pyMul_envs (s : St) (a b : Value) :
    (pyMul s a b).2.envs = s.envs ∧ (pyMul s a b).2.env = s.env := by
  unfold pyMul
  repeat' split
  all_goals simp [heapAlloc]

/-- Python / touches no state. -/
theorem pyDiv_envs (s : St) (a b : Value) :
    (pyDiv s a b).2.envs = s.envs ∧ (pyDiv s a b).2.env = s.env := by
  unfold pyDiv
  repeat' split
  all_goals simp

/-- Python % touches no state. -/
theorem pyMod_envs (s : St) (a b : Value) :
    (pyMod s a b).2.envs = s.envs ∧ (pyMod s a b).2.env = s.env := by
  unfold pyMod
  repeat' split
  all_goals simp

/-- The five host arithmetic operators touch the heap and nothing else. -/
theorem pyArith_envs {s : St} {op a b r s'} (h : pyArith s op a b = some (r, s')) :
    s'.envs = s.envs ∧ s'.env = s.env := by
  unfold pyArith at h
  split_ifs at h <;>
    first
    | cases h
    | (have hp := Option.some.inj h
       have h2 : s' = (pyAdd s a b).2 := by rw [hp]
       rw [h2]; exact pyAdd_envs s a b)
    | (have hp := Option.some.inj h
       have h2 : s' = (pySub s a b).2 := by rw [hp]
       rw [h2]; exact pySub_envs s a b)
    | (have hp := Option.some.inj h
       have h2 : s' = (pyMul s a b).2 := by rw [hp]
       rw [h2]; exact pyMul_envs s a b)
    | (have hp := Option.some.inj h
       have h2 : s' = (pyDiv s a b).2 := by rw [hp]
       rw [h2]; exact pyDiv_envs s a b)
    | (have hp := Option.some.inj h
       have h2 : s' = (pyMod s a b).2 := by rw [hp]
       rw [h2]; exact pyMod_envs s a b)

/-- applyCompound touches the heap and nothing else. -/
theorem applyCompound_envs {s : St} {op msg cur v r s'}
    (h : applyCompound s op msg cur v = (r, s')) :
    s'.envs = s.envs ∧ s'.env = s.env := by
  unfold applyCompound at h
  split_ifs at h <;>
    first
    | (have h2 : s' = (pyAdd s cur v).2 := by rw [h]
       rw [h2]; exact pyAdd_envs s cur v)
    | (have h2 : s' = (pySub s cur v).2 := by rw [h]
       rw [h2]; exact pySub_envs s cur v)
    | (have h2 : s' = (pyMul s cur v).2 := by rw [h]
       rw [h2]; exact pyMul_envs s cur v)
    | (have h2 : s' = (pyDiv s cur v).2 := by rw [h]
       rw [h2]; exact pyDiv_envs s cur v)
    | (have h2 : s' = (pyMod s cur v).2 := by rw [h]
       rw [h2]; exact pyMod_envs s cur v)
    | (injection h with h1 h2
       subst h2; exact ⟨rfl, rfl⟩)

/-- Package applyCompound state preservation as EnvsSt. -/
theorem applyCompound_envsSt {s : St} {op msg cur v r s'}
    (h : applyCompound s op msg cur v = (r, s')) : EnvsSt s s' :=
  ⟨(applyCompound_envs h).2,
    le_of_eq (congrArg List.length (applyCompound_envs h).1.symm)⟩

/-- Package pyArith state preservation as EnvsSt. -/
theorem pyArith_envsSt {s : St} {op a b x s'}
    (h : pyArith s op a b = some (x, s')) : EnvsSt s s' :=
  ⟨(pyArith_envs h).2, le_of_eq (congrArg List.length (pyArith_envs h).1.symm)⟩

/-- Transport EnvsSt through a terminal interpreter result. -/
theorem resEq_envsSt {x : Except Exc Out} {sX : St} {r s'} {sBase : St}
    (h : (some (x, sX) : RRes) = some (r, s')) (hst : EnvsSt sBase sX) :
    EnvsSt sBase s' := by
  have hp := Option.some.inj h
  injection hp with h1 h2
  subst h2
  exact hst

/-- andThenR composes scope discipline. -/
theorem andThenR_pres {x : RRes} {k : Out → St → RRes} {s0 : St} {r s'}
    (hx : ∀ r1 s1, x = some (r1, s1) → EnvsSt s0 s1)
    (hk : ∀ o s1 r2 s2, k o s1 = some (r2, s2) → EnvsSt s1 s2)
    (h : andThenR x k = some (r, s')) : EnvsSt s0 s' := by
  unfold andThenR at h
  cases hx1 : x with
  | none => rw [hx1] at h; cases h
  | some p =>
    rw [hx1] at h
    obtain ⟨e, s1⟩ := p
    cases e with
    | error e => exact resEq_envsSt h (hx _ _ hx1)
    | ok o => exact envsSt_trans (hx _ _ hx1) (hk _ _ _ _ h)

/-- withEnvRes restores the given pointer and keeps the store growth of the
wrapped computation. -/
theorem withEnvRes_pres {x : RRes} {prev r s'} {s0 : St}
    (hx : ∀ r1 s1, x = some (r1, s1) → s0.envs.length ≤ s1.envs.length)
    (h : withEnvRes prev x = some (r, s')) :
    s'.env = prev ∧ s0.envs.length ≤ s'.envs.length := by
  unfold withEnvRes at h
  cases hx1 : x with
  | none => rw [hx1] at h; cases h
  | some p =>
    rw [hx1] at h
    obtain ⟨e, s1⟩ := p
    have hp := Option.some.inj h
    injection hp with h1 h2
    subst h2
    exact ⟨rfl, hx e s1 hx1⟩

/-- execute_block restores the caller environment and only grows the store. -/
theorem withEnvRun_pres {rec : Task → St → RRes} (hp : Pres rec)
    {envId stmts sx r s'}
    (h : withEnvRun (fun l s => rec (.seq l) s) envId stmts sx = some (r, s')) :
    s'.env = sx.env ∧ sx.envs.length ≤ s'.envs.length := by
  unfold withEnvRun at h
  exact withEnvRes_pres
    (fun r1 s1 hx => (hp (.seq stmts) { sx with env := envId } r1 s1 hx).2) h

/-- assignIdent respects scope discipline. -/
theorem assignIdent_pres {name op v s1 r s'}
    (h : assignIdent name op v s1 = some (r, s')) : EnvsSt s1 s' := by
  unfold assignIdent at h
  repeat' split at h
  all_goals try cases h
  all_goals
    first
    | exact envsSt_refl _
    | exact ⟨rfl, le_refl _⟩
    | exact envAssign_envsSt (by assumption)
    | exact applyCompound_envsSt (by assumption)
    | (have hac := applyCompound_envsSt (by assumption)
       have has := envAssign_envsSt (by assumption)
       exact envsSt_trans hac has)
    | (have hac := applyCompound_envsSt (by assumption)
       exact envsSt_trans hac ⟨rfl, le_refl _⟩)

/-- assignMember respects scope discipline. -/
theorem assignMember_pres {member op v objV s2 r s'}
    (h : assignMember member op v objV s2 = some (r, s')) : EnvsSt s2 s' := by
  unfold assignMember at h
  repeat' split at h
  all_goals try cases h
  all_goals
    first
    | exact envsSt_refl _
    | exact ⟨rfl, le_refl _⟩
    | exact applyCompound_envsSt (by assumption)
    | (have hac := applyCompound_envsSt (by assumption)
       exact envsSt_trans hac ⟨rfl, le_refl _⟩)

/-- assignIndex respects scope discipline. -/
theorem assignIndex_pres {op v collection index s3 r s'}
    (h : assignIndex op v collection index s3 = some (r, s')) : EnvsSt s3 s' := by
  unfold assignIndex at h
  repeat' split at h
  all_goals try cases h
  all_goals
    first
    | exact envsSt_refl _
    | exact ⟨rfl, le_refl _⟩
    | exact applyCompound_envsSt (by assumption)
    | (have hac := applyCompound_envsSt (by assumption)
       exact envsSt_trans hac ⟨rfl, le_refl _⟩)

/-- binOpEval respects scope discipline. -/
theorem binOpEval_pres {op l r s2 x s'}
    (h : binOpEval op l r s2 = some (x, s')) : EnvsSt s2 s' := by
  unfold binOpEval at h
  repeat' split at h
  all_goals try cases h
  all_goals
    first
    | exact envsSt_refl _
    | exact ⟨rfl, le_refl _⟩
    | exact pyArith_envsSt (by assumption)

/-- unaryEval respects scope discipline. -/
theorem unaryEval_pres {op v s1 x s'}
    (h : unaryEval op v s1 = some (x, s')) : EnvsSt s1 s' := by
  unfold unaryEval at h
  repeat' split at h
  all_goals try cases h
  all_goals
    first
    | exact envsSt_refl _

/-- memberEval respects scope discipline (it is read-only). -/
theorem memberEval_pres {member obj s1 x s'}
    (h : memberEval member obj s1 = some (x, s')) : EnvsSt s1 s' := by
  unfold memberEval at h
  repeat' split at h
  all_goals try cases h
  all_goals
    first
    | exact envsSt_refl _

/-- indexEval respects scope discipline (it is read-only). -/
theorem indexEval_pres {collection index s2 x s'}
    (h : indexEval collection index s2 = some (x, s')) : EnvsSt s2 s' := by
  unfold indexEval at h
  repeat' split at h
  all_goals try cases h
  all_goals
    first
    | exact envsSt_refl _

/-- callNativePf respects scope discipline (it only appends output). -/
theorem callNativePf_pres {args s2 x s'}
    (h : callNativePf args s2 = some (x, s')) : EnvsSt s2 s' := by
  unfold callNativePf at h
  repeat' split at h
  all_goals try cases h
  all_goals
    first
    | exact ⟨rfl, le_refl _⟩

/-- callFuncDecl respects scope discipline. -/
theorem callFuncDecl_pres {rec : Task → St → RRes} (hp : Pres rec)
    {params body args s2 r s'}
    (h : callFuncDecl rec params body args s2 = some (r, s')) : EnvsSt s2 s' := by
  unfold callFuncDecl at h
  by_cases hlen : args.length ≠ params.length
  · rw [if_pos hlen] at h
    exact resEq_envsSt h (envsSt_refl _)
  · rw [if_neg hlen] at h
    cases hw : withEnvRun (fun l s => rec (.seq l) s) (envAlloc s2 s2.env).1
        (blockStatements body)
        (bindParams (envAlloc s2 s2.env).2 (envAlloc s2 s2.env).1 params args) with
    | none => rw [hw] at h; cases h
    | some q =>
      rw [hw] at h
      obtain ⟨e, s5⟩ := q
      have hwp := withEnvRun_pres hp hw
      have hbind := bindParams_envsSt params args (envAlloc s2 s2.env).2 (envAlloc s2 s2.env).1
      have hst : EnvsSt s2 s5 := by
        refine ⟨?_, ?_⟩
        · rw [hwp.1, hbind.1]; rfl
        · exact le_trans (le_trans (envAlloc_envsSt s2 s2.env).2 hbind.2) hwp.2
      cases e with
      | error e =>
        cases e with
        | ret v => exact resEq_envsSt h hst
        | err m => exact resEq_envsSt h hst
        | brk => exact resEq_envsSt h hst
        | cont => exact resEq_envsSt h hst
      | ok o => exact resEq_envsSt h hst

/-- callBoundMethod respects scope discipline. -/
theorem callBoundMethod_pres {rec : Task → St → RRes} (hp : Pres rec)
    {instAddr mname params body args s2 r s'}
    (h : callBoundMethod rec instAddr mname params body args s2 = some (r, s')) :
    EnvsSt s2 s' := by
  unfold callBoundMethod at h
  by_cases hlen : args.length ≠ params.length
  · rw [if_pos hlen] at h
    exact resEq_envsSt h (envsSt_trans (envAlloc_envsSt s2 s2.env)
      (envDefineAt_envsSt _ _ _ _))
  · rw [if_neg hlen] at h
    cases hw : withEnvRun (fun l s => rec (.seq l) s) (envAlloc s2 s2.env).1
        (blockStatements body)
        (bindParams (envDefineAt (envAlloc s2 s2.env).2 (envAlloc s2 s2.env).1
          "this" (.inst instAddr)) (envAlloc s2 s2.env).1 params args) with
    | none => rw [hw] at h; cases h
    | some q =>
      rw [hw] at h
      obtain ⟨e, s6⟩ := q
      have hwp := withEnvRun_pres hp hw
      have hbind := bindParams_envsSt params args
        (envDefineAt (envAlloc s2 s2.env).2 (envAlloc s2 s2.env).1 "this"
          (.inst instAddr)) (envAlloc s2 s2.env).1
      have hst : EnvsSt s2 s6 := by
        refine ⟨?_, ?_⟩
        · rw [hwp.1, hbind.1]; rfl
        · exact le_trans (le_trans (le_trans (envAlloc_envsSt s2 s2.env).2
            (envDefineAt_envsSt _ _ _ _).2) hbind.2) hwp.2
      cases e with
      | error e =>
        cases e with
        | ret v => exact resEq_envsSt h hst
        | err m => exact resEq_envsSt h hst
        | brk => exact resEq_envsSt h hst
        | cont => exact resEq_envsSt h hst
      | ok o => exact resEq_envsSt h hst

/-- callClassV respects scope discipline. -/
theorem callClassV_pres {rec : Task → St → RRes} (hp : Pres rec)
    {a args s2 r s'}
    (h : callClassV rec a args s2 = some (r, s')) : EnvsSt s2 s' := by
  unfold callClassV at h
  cases hg : heapGet s2 a with
  | none => rw [hg] at h; exact resEq_envsSt h (envsSt_refl _)
  | some obj =>
    rw [hg] at h
    cases obj with
    | list _ => exact resEq_envsSt h (envsSt_refl _)
    | dict _ => exact resEq_envsSt h (envsSt_refl _)
    | inst _ _ => exact resEq_envsSt h (envsSt_refl _)
    | cls cn sc me ct =>
      cases ct with
      | none => exact resEq_envsSt h ⟨rfl, le_refl _⟩
      | some pb =>
        obtain ⟨params, body⟩ := pb
        dsimp only at h
        by_cases hlen : args.length ≠ params.length
        · rw [if_pos hlen] at h
          exact resEq_envsSt h (envsSt_trans (envsSt_trans ⟨rfl, le_refl _⟩
            (envAlloc_envsSt _ _)) (envDefineAt_envsSt _ _ _ _))
        · rw [if_neg hlen] at h
          cases hw : withEnvRun (fun l s => rec (.seq l) s)
              (envAlloc (heapAlloc s2 (.inst a [])).2 (heapAlloc s2 (.inst a [])).2.env).1
              (blockStatements body)
              (bindParams (envDefineAt
                (envAlloc (heapAlloc s2 (.inst a [])).2 (heapAlloc s2 (.inst a [])).2.env).2
                (envAlloc (heapAlloc s2 (.inst a [])).2 (heapAlloc s2 (.inst a [])).2.env).1
                "this" (.inst (heapAlloc s2 (.inst a [])).1))
                (envAlloc (heapAlloc s2 (.inst a [])).2 (heapAlloc s2 (.inst a [])).2.env).1
                params args) with
          | none => rw [hw] at h; cases h
          | some q =>
            rw [hw] at h
            obtain ⟨e, s7⟩ := q
            have hwp := withEnvRun_pres hp hw
            have hbind := bindParams_envsSt params args
              (envDefineAt
                (envAlloc (heapAlloc s2 (.inst a [])).2 (heapAlloc s2 (.inst a [])).2.env).2
                (envAlloc (heapAlloc s2 (.inst a [])).2 (heapAlloc s2 (.inst a [])).2.env).1
                "this" (.inst (heapAlloc s2 (.inst a [])).1))
              (envAlloc (heapAlloc s2 (.inst a [])).2 (heapAlloc s2 (.inst a [])).2.env).1
            have hst : EnvsSt s2 s7 := by
              refine ⟨?_, ?_⟩
              · rw [hwp.1, hbind.1]; rfl
              · exact le_trans (le_trans (le_trans
                  (envAlloc_envsSt (heapAlloc s2 (.inst a [])).2
                    (heapAlloc s2 (.inst a [])).2.env).2
                  (envDefineAt_envsSt _ _ _ _).2) hbind.2) hwp.2
            cases e with
            | error e =>
              cases e with
              | ret v =>
                cases v with
                | null => exact resEq_envsSt h hst
                | bool b => exact resEq_envsSt h hst
                | int n => exact resEq_envsSt h hst
                | float q => exact resEq_envsSt h hst
                | str sv => exact resEq_envsSt h hst
                | list al => exact resEq_envsSt h hst
                | dict al => exact resEq_envsSt h hst
                | funcDecl n p rt b => exact resEq_envsSt h hst
                | cls al => exact resEq_envsSt h hst
                | inst al => exact resEq_envsSt h hst
                | boundMethod ia nn pp rr bb => exact resEq_envsSt h hst
                | nativePf => exact resEq_envsSt h hst
                | nativeClock => exact resEq_envsSt h hst
              | err m => exact resEq_envsSt h hst
              | brk => exact resEq_envsSt h hst
              | cont => exact resEq_envsSt h hst
            | ok o => exact resEq_envsSt h hst

/-- One interpreter step obeys scope discipline when its recursive calls do:
the environment pointer is restored on every path and the store only grows. -/
theorem runStep_pres {rec : Task → St → RRes} (hp : Pres rec) :
    Pres (runStep rec) := by
  intro t s r s' h
  cases t with
  | seq l =>
    cases l with
    | nil => exact resEq_envsSt h (envsSt_refl _)
    | cons st rest =>
      exact andThenR_pres (fun r1 s1 hx => hp _ _ _ _ hx)
        (fun o s1 r2 s2 hx => hp _ _ _ _ hx) h
  | exprs l =>
    cases l with
    | nil => exact resEq_envsSt h (envsSt_refl _)
    | cons e rest =>
      refine andThenR_pres (fun r1 s1 hx => hp _ _ _ _ hx) ?_ h
      intro o s1 r2 s2 h'
      refine andThenR_pres (fun r1 s1' hx => hp _ _ _ _ hx) ?_ h'
      intro o2 s1' r3 s3 h''
      exact resEq_envsSt h'' (envsSt_refl _)
  | whileLoop cond body =>
    refine andThenR_pres (fun r1 s1 hx => hp _ _ _ _ hx) ?_ h
    intro o s1 r2 s2 h'
    by_cases hc : isTruthy (outVal o) = true
    · rw [if_pos hc] at h'
      cases hx : rec (.stmt body) s1 with
      | none => rw [hx] at h'; cases h'
      | some p =>
        rw [hx] at h'
        obtain ⟨e, s2'⟩ := p
        have hb := hp _ _ _ _ hx
        match e with
        | .error .brk => exact resEq_envsSt h' hb
        | .error (.err m) => exact resEq_envsSt h' hb
        | .error (.ret v) => exact resEq_envsSt h' hb
        | .error .cont => exact envsSt_trans hb (hp _ _ _ _ h')
        | .ok o2 => exact envsSt_trans hb (hp _ _ _ _ h')
    · rw [if_neg hc] at h'
      exact resEq_envsSt h' (envsSt_refl _)
  | forLoop cond body update =>
    refine andThenR_pres ?_ ?_ h
    · intro r1 s1 hx
      cases cond with
      | none => exact resEq_envsSt hx (envsSt_refl _)
      | some c => exact hp _ _ _ _ hx
    · intro o s1 r2 s2 h'
      dsimp only at h'
      by_cases hc : isTruthy (outVal o) = true
      · rw [if_pos hc] at h'
        cases hx : rec (.stmt body) s1 with
        | none => rw [hx] at h'; exact absurd h' (by simp)
        | some p =>
          rw [hx] at h'
          obtain ⟨e, s2'⟩ := p
          have hb := hp _ _ _ _ hx
          have tailstep : ∀ r2 s2, (andThenR
              (match update with
                | none => some (.ok (Out.val .null), s2')
                | some u => rec (.expr u) s2')
              (fun _ s3 => rec (.forLoop cond body update) s3)) = some (r2, s2) →
              EnvsSt s2' s2 := by
            intro r2 s2 h''
            refine andThenR_pres ?_ (fun o2 s3 r3 s4 hx2 => hp _ _ _ _ hx2) h''
            intro r3 s3 hx2
            cases update with
            | none => exact resEq_envsSt hx2 (envsSt_refl _)
            | some u => exact hp _ _ _ _ hx2
          match e with
          | .error .brk => exact resEq_envsSt h' hb
          | .error (.err m) => exact resEq_envsSt h' hb
          | .error (.ret v) => exact resEq_envsSt h' hb
          | .error .cont => exact envsSt_trans hb (tailstep _ _ h')
          | .ok o2 => exact envsSt_trans hb (tailstep _ _ h')
      · rw [if_neg hc] at h'
        exact resEq_envsSt h' (envsSt_refl _)
  | stmt st =>
    cases st with
    | block stmts =>
      have hw := withEnvRun_pres hp h
      exact ⟨hw.1, le_trans (envAlloc_envsSt s s.env).2 hw.2⟩
    | variableDecl name vt init c line =>
      cases init with
      | none => exact resEq_envsSt h (envDefine_envsSt s name .null)
      | some i =>
        refine andThenR_pres (fun r1 s1 hx => hp _ _ _ _ hx) ?_ h
        intro o s1 r2 s2 h'
        exact resEq_envsSt h' (envDefine_envsSt _ _ _)
    | functionDecl n p rt b => exact resEq_envsSt h (envDefine_envsSt _ _ _)
    | ctorDecl p b => exact resEq_envsSt h (envsSt_refl _)
    | classDecl n sc m line =>
      simp only [runStep] at h
      split at h
      · exact resEq_envsSt h (envsSt_refl _)
      · exact resEq_envsSt h (envsSt_trans (⟨rfl, le_refl _⟩ :
          EnvsSt s (heapAlloc s _).2) (envDefine_envsSt _ _ _))
    | ifStmt cond tb eb =>
      refine andThenR_pres (fun r1 s1 hx => hp _ _ _ _ hx) ?_ h
      intro o s1 r2 s2 h'
      by_cases hc : isTruthy (outVal o) = true
      · rw [if_pos hc] at h'
        exact hp _ _ _ _ h'
      · rw [if_neg hc] at h'
        cases eb with
        | none => exact resEq_envsSt h' (envsSt_refl _)
        | some e => exact hp _ _ _ _ h'
    | whileStmt cond body => exact hp _ _ _ _ h
    | forStmt init cond update body =>
      have hx : ∀ r1 s1, (andThenR
          (match init with
            | none => some (.ok Out.unit,
                { (envAlloc s s.env).2 with env := (envAlloc s s.env).1 })
            | some i => rec (.stmt i)
                { (envAlloc s s.env).2 with env := (envAlloc s s.env).1 })
          (fun _ s3 => rec (.forLoop cond body update) s3)) = some (r1, s1) →
          s.envs.length ≤ s1.envs.length := by
        intro r1 s1 hxx
        have hstep : EnvsSt { (envAlloc s s.env).2 with env := (envAlloc s s.env).1 } s1 := by
          refine andThenR_pres ?_ (fun o2 s3 r3 s4 hx2 => hp _ _ _ _ hx2) hxx
          intro r3 s3 hx2
          cases init with
          | none => exact resEq_envsSt hx2 (envsSt_refl _)
          | some i => exact hp _ _ _ _ hx2
        exact le_trans (envAlloc_envsSt s s.env).2 hstep.2
      have hw := withEnvRes_pres hx h
      exact ⟨hw.1, hw.2⟩
    | returnStmt value =>
      cases value with
      | none => exact resEq_envsSt h (envsSt_refl _)
      | some e =>
        refine andThenR_pres (fun r1 s1 hx => hp _ _ _ _ hx) ?_ h
        intro o s1 r2 s2 h'
        exact resEq_envsSt h' (envsSt_refl _)
    | breakStmt => exact resEq_envsSt h (envsSt_refl _)
    | continueStmt => exact resEq_envsSt h (envsSt_refl _)
    | exprStmt e =>
      refine andThenR_pres (fun r1 s1 hx => hp _ _ _ _ hx) ?_ h
      intro o s1 r2 s2 h'
      exact resEq_envsSt h' (envsSt_refl _)
  | expr e =>
    cases e with
    | literal v rt => exact resEq_envsSt h (envsSt_refl _)
    | identifier n line =>
      simp only [runStep] at h
      split at h
      · cases h
      · exact resEq_envsSt h (envsSt_refl _)
      · exact resEq_envsSt h (envsSt_refl _)
    | assignment target op valueExpr =>
      refine andThenR_pres (fun r1 s1 hx => hp _ _ _ _ hx) ?_ h
      intro ov s1 r2 s2 h'
      cases target with
      | identifier n line => exact assignIdent_pres h'
      | assignment t2 o2 v2 => exact resEq_envsSt h' (envsSt_refl _)
      | memberAccess mt member =>
        refine andThenR_pres (fun r1 s1' hx => hp _ _ _ _ hx) ?_ h'
        intro oo s2' r3 s3 h''
        exact assignMember_pres h''
      | indexAccess it ie =>
        refine andThenR_pres (fun r1 s1' hx => hp _ _ _ _ hx) ?_ h'
        intro oc s2' r3 s3 h''
        refine andThenR_pres (fun r1 s1'' hx => hp _ _ _ _ hx) ?_ h''
        intro oi s3' r4 s4 h'''
        exact assignIndex_pres h'''
      | literal v rt => exact resEq_envsSt h' (envsSt_refl _)
      | binaryOp a o b => exact resEq_envsSt h' (envsSt_refl _)
      | unaryOp o a => exact resEq_envsSt h' (envsSt_refl _)
      | functionCall c a => exact resEq_envsSt h' (envsSt_refl _)
      | arrayLiteral l => exact resEq_envsSt h' (envsSt_refl _)
      | objectLiteral p => exact resEq_envsSt h' (envsSt_refl _)
    | binaryOp left op right =>
      refine andThenR_pres (fun r1 s1 hx => hp _ _ _ _ hx) ?_ h
      intro ol s1 r2 s2 h'
      refine andThenR_pres (fun r1 s1' hx => hp _ _ _ _ hx) ?_ h'
      intro or_ s2' r3 s3 h''
      exact binOpEval_pres h''
    | unaryOp op operand =>
      refine andThenR_pres (fun r1 s1 hx => hp _ _ _ _ hx) ?_ h
      intro o s1 r2 s2 h'
      exact unaryEval_pres h'
    | functionCall callee args =>
      refine andThenR_pres (fun r1 s1 hx => hp _ _ _ _ hx) ?_ h
      intro oc s1 r2 s2 h'
      refine andThenR_pres (fun r1 s1' hx => hp _ _ _ _ hx) ?_ h'
      intro oa s2' r3 s3 h''
      generalize outVal oc = cv at h''
      cases cv with
      | nativePf => exact callNativePf_pres h''
      | nativeClock => exact resEq_envsSt h'' (envsSt_refl _)
      | boundMethod ia mn p rt b => exact callBoundMethod_pres hp h''
      | cls a => exact callClassV_pres hp h''
      | funcDecl n p rt b => exact callFuncDecl_pres hp h''
      | null => exact resEq_envsSt h'' (envsSt_refl _)
      | bool b => exact resEq_envsSt h'' (envsSt_refl _)
      | int n => exact resEq_envsSt h'' (envsSt_refl _)
      | float q => exact resEq_envsSt h'' (envsSt_refl _)
      | str sv => exact resEq_envsSt h'' (envsSt_refl _)
      | list a => exact resEq_envsSt h'' (envsSt_refl _)
      | dict a => exact resEq_envsSt h'' (envsSt_refl _)
      | inst a => exact resEq_envsSt h'' (envsSt_refl _)
    | memberAccess target member =>
      refine andThenR_pres (fun r1 s1 hx => hp _ _ _ _ hx) ?_ h
      intro o s1 r2 s2 h'
      exact memberEval_pres h'
    | indexAccess target indexExpr =>
      refine andThenR_pres (fun r1 s1 hx => hp _ _ _ _ hx) ?_ h
      intro oc s1 r2 s2 h'
      refine andThenR_pres (fun r1 s1' hx => hp _ _ _ _ hx) ?_ h'
      intro oi s2' r3 s3 h''
      exact indexEval_pres h''
    | arrayLiteral elements =>
      refine andThenR_pres (fun r1 s1 hx => hp _ _ _ _ hx) ?_ h
      intro o s1 r2 s2 h'
      exact resEq_envsSt h' ⟨rfl, le_refl _⟩
    | objectLiteral properties =>
      refine andThenR_pres (fun r1 s1 hx => hp _ _ _ _ hx) ?_ h
      intro o s1 r2 s2 h'
      exact resEq_envsSt h' ⟨rfl, le_refl _⟩

/-- The interpreter obeys scope discipline at every fuel. -/
theorem run_pres : ∀ fuel, Pres (run fuel) := by
  intro fuel
  induction fuel with
  | zero => intro t s r s' h; cases h
  | succ f ih => exact runStep_pres ih

/-! ## Statement-sequence decomposition

Running a statement list decomposes over append: an error in a prefix
short-circuits the whole list, and a successful prefix hands the suffix the
fuel left after its cons steps. -/

/-- If andThenR produced an ok result, the first component did too. -/
theorem andThenR_ok_split {x : RRes} {k : Out → St → RRes} {o : Out} {s1 : St}
    (h : andThenR x k = some (.ok o, s1)) :
    ∃ o0 s0, x = some (.ok o0, s0) ∧ k o0 s0 = some (.ok o, s1) := by
  unfold andThenR at h
  cases hx : x with
  | none => rw [hx] at h; cases h
  | some p =>
    obtain ⟨r, s'⟩ := p
    rw [hx] at h
    cases r with
    | error e => cases h
    | ok o0 => exact ⟨o0, s', rfl, h⟩

/-- If andThenR produced an error, either the first component did, or it was
ok and the continuation erred. -/
theorem andThenR_err_split {x : RRes} {k : Out → St → RRes} {e : Exc} {s1 : St}
    (h : andThenR x k = some (.error e, s1)) :
    x = some (.error e, s1) ∨
      ∃ o0 s0, x = some (.ok o0, s0) ∧ k o0 s0 = some (.error e, s1) := by
  unfold andThenR at h
  cases hx : x with
  | none => rw [hx] at h; cases h
  | some p =>
    obtain ⟨r, s'⟩ := p
    rw [hx] at h
    cases r with
    | error e0 => cases h; exact .inl rfl
    | ok o0 => exact .inr ⟨o0, s', rfl, h⟩

/-- A successful prefix: the combined list continues with the suffix at the
fuel remaining after the prefix cons steps. -/
theorem seq_ok_append (l1 l2 : List Statement) :
    ∀ (F : Nat) (s : St) (o : Out) (s1 : St),
    run F (.seq l1) s = some (.ok o, s1) →
    run F (.seq (l1 ++ l2)) s = run (F - l1.length) (.seq l2) s1 := by
  induction l1 with
  | nil =>
    intro F s o s1 h
    cases F with
    | zero => cases h
    | succ f =>
      have h' : some ((Except.ok Out.unit : Except Exc Out), s) = some (.ok o, s1) := h
      cases h'
      rfl
  | cons st0 rest ih =>
    intro F s o s1 h
    cases F with
    | zero => cases h
    | succ f =>
      have h' : andThenR (run f (.stmt st0) s)
          (fun _ s' => run f (.seq rest) s') = some (.ok o, s1) := h
      obtain ⟨o0, s0, hx, hk⟩ := andThenR_ok_split h'
      have hgoal : run (f + 1) (.seq (st0 :: rest ++ l2)) s =
          andThenR (run f (.stmt st0) s)
            (fun _ s' => run f (.seq (rest ++ l2)) s') := rfl
      rw [hgoal, hx]
      show run f (.seq (rest ++ l2)) s0 =
        run (f + 1 - (rest.length + 1)) (.seq l2) s1
      rw [Nat.succ_sub_succ]
      exact ih f s0 o s1 hk

/-- An error in a prefix short-circuits the combined list at the same error
and state. -/
theorem seq_err_append (l1 l2 : List Statement) :
    ∀ (F : Nat) (s : St) (e : Exc) (s1 : St),
    run F (.seq l1) s = some (.error e, s1) →
    run F (.seq (l1 ++ l2)) s = some (.error e, s1) := by
  induction l1 with
  | nil =>
    intro F s e s1 h
    cases F with
    | zero => cases h
    | succ f =>
      have h' : some ((Except.ok Out.unit : Except Exc Out), s) =
        some (.error e, s1) := h
      cases h'
  | cons st0 rest ih =>
    intro F s e s1 h
    cases F with
    | zero => cases h
    | succ f =>
      have h' : andThenR (run f (.stmt st0) s)
          (fun _ s' => run f (.seq rest) s') = some (.error e, s1) := h
      have hgoal : run (f + 1) (.seq (st0 :: rest ++ l2)) s =
          andThenR (run f (.stmt st0) s)
            (fun _ s' => run f (.seq (rest ++ l2)) s') := rfl
      rcases andThenR_err_split h' with hL | ⟨o0, s0, hx, hk⟩
      · rw [hgoal, hL]
        rfl
      · rw [hgoal, hx]
        show run f (.seq (rest ++ l2)) s0 = some (.error e, s1)
        exact ih f s0 e s1 hk

/-! ## Claim instances for the interpreter -/

/-- C1: the specification mandates that a FunctionDecl closes over the
environment active at its definition and that a function defined in a scope
S reading a local x of S keeps seeing that x after S exited.  The code
stores the bare declaration (interpreter.py line 206) and builds every call
environment as a child of the environment CURRENT AT CALL TIME
(interpreter.py line 426), so no environment is captured: the closure
program progClosure — whose inner function reads the local x of its defining
scope — does not print a value consistent with x = 42 but aborts with an
undefined-variable runtime error. -/
theorem c1_no_closure_capture :
    interpret 60 progClosure initSt =
      some ["Erreur d\x27exécution: Variable non définie \x27x\x27."] := rfl

/-- C3: if running a prefix of the top-level statements raises a runtime
error (an uncaught Exception message m), interpret on the whole program
never executes the remaining statements, returns normally, keeps every
output line produced before the failure in order, and appends exactly one
final line "Erreur d\x27exécution: m". -/
theorem c3_runtime_error_last_line (fuel : Nat) (l1 l2 : List Statement)
    (s0 sE : St) (m : String)
    (h : run fuel (.seq l1) { s0 with output := [], env := 0 } =
      some (.error (.err m), sE)) :
    interpret fuel ⟨l1 ++ l2⟩ s0 =
      some (sE.output ++ ["Erreur d\x27exécution: " ++ m]) := by
  have hfull := seq_err_append l1 l2 fuel _ _ _ h
  simp only [interpret, interpretSt]
  rw [hfull]
  rfl

/-- Witness for c3_runtime_error_last_line: pf("a"); x; pf("b"); prints "a",
aborts at the undefined x, and ends with the single runtime-error line ("b"
is never printed). -/
theorem c3_runtime_error_last_line_witness :
    interpret 20 ⟨c3front ++ c3rest⟩ initSt =
      some ["a", "Erreur d\x27exécution: Variable non définie \x27x\x27."] := by
  have h := c3_runtime_error_last_line 20 c3front c3rest initSt _
    "Variable non définie \x27x\x27." rfl
  exact h

/-- C5: a BinaryOp with operator && (token AND) or || (token OR) evaluates
the left operand first and then ALWAYS evaluates the right operand — even
when the left operand already decides the outcome — and on two successes
produces the boolean combination of the two truthinesses; an error raised by
the right operand propagates in every case (no short-circuiting). -/
theorem c5_and_or_no_short_circuit (fuel : Nat) (l r : Expression) (s s1 : St)
    (o1 : Out) (hl : run fuel (.expr l) s = some (.ok o1, s1)) :
    (∀ o2 s2, run fuel (.expr r) s1 = some (.ok o2, s2) →
      run (fuel + 1) (.expr (.binaryOp l "AND" r)) s =
        some (.ok (.val (.bool (isTruthy (outVal o1) && isTruthy (outVal o2)))), s2) ∧
      run (fuel + 1) (.expr (.binaryOp l "OR" r)) s =
        some (.ok (.val (.bool (isTruthy (outVal o1) || isTruthy (outVal o2)))), s2)) ∧
    (∀ e s2, run fuel (.expr r) s1 = some (.error e, s2) →
      run (fuel + 1) (.expr (.binaryOp l "AND" r)) s = some (.error e, s2) ∧
      run (fuel + 1) (.expr (.binaryOp l "OR" r)) s = some (.error e, s2)) := by
  constructor
  · intro o2 s2 hr
    constructor
    · have hu : run (fuel + 1) (.expr (.binaryOp l "AND" r)) s =
          andThenR (run fuel (.expr l) s) (fun ol s1' =>
            andThenR (run fuel (.expr r) s1') (fun or_ s2' =>
              binOpEval "AND" (outVal ol) (outVal or_) s2')) := rfl
      rw [hu, hl]
      show andThenR (run fuel (.expr r) s1) (fun or_ s2' =>
          binOpEval "AND" (outVal o1) (outVal or_) s2') = _
      rw [hr]
      rfl
    · have hu : run (fuel + 1) (.expr (.binaryOp l "OR" r)) s =
          andThenR (run fuel (.expr l) s) (fun ol s1' =>
            andThenR (run fuel (.expr r) s1') (fun or_ s2' =>
              binOpEval "OR" (outVal ol) (outVal or_) s2')) := rfl
      rw [hu, hl]
      show andThenR (run fuel (.expr r) s1) (fun or_ s2' =>
          binOpEval "OR" (outVal o1) (outVal or_) s2') = _
      rw [hr]
      rfl
  · intro e s2 hr
    constructor
    · have hu : run (fuel + 1) (.expr (.binaryOp l "AND" r)) s =
          andThenR (run fuel (.expr l) s) (fun ol s1' =>
            andThenR (run fuel (.expr r) s1') (fun or_ s2' =>
              binOpEval "AND" (outVal ol) (outVal or_) s2')) := rfl
      rw [hu, hl]
      show andThenR (run fuel (.expr r) s1) (fun or_ s2' =>
          binOpEval "AND" (outVal o1) (outVal or_) s2') = _
      rw [hr]
      rfl
    · have hu : run (fuel + 1) (.expr (.binaryOp l "OR" r)) s =
          andThenR (run fuel (.expr l) s) (fun ol s1' =>
            andThenR (run fuel (.expr r) s1') (fun or_ s2' =>
              binOpEval "OR" (outVal ol) (outVal or_) s2')) := rfl
      rw [hu, hl]
      show andThenR (run fuel (.expr r) s1) (fun or_ s2' =>
          binOpEval "OR" (outVal o1) (outVal or_) s2') = _
      rw [hr]
      rfl

/-- Witness for c5_and_or_no_short_circuit: false && zz still evaluates zz
and propagates its undefined-variable error (a short-circuiting && would
return false); true && false evaluates to false. -/
theorem c5_and_or_no_short_circuit_witness :
    run 4 (.expr (.binaryOp (.literal (.bool false) "bool") "AND"
        (.identifier "zz" 1))) initSt =
      some (.error (.err "Variable non définie \x27zz\x27."), initSt) ∧
    run 4 (.expr (.binaryOp (.literal (.bool true) "bool") "AND"
        (.literal (.bool false) "bool"))) initSt =
      some (.ok (.val (.bool false)), initSt) := by
  constructor
  · exact ((c5_and_or_no_short_circuit 3 (.literal (.bool false) "bool")
      (.identifier "zz" 1) initSt initSt (.val (.bool false)) rfl).2 _ initSt rfl).1
  · exact ((c5_and_or_no_short_circuit 3 (.literal (.bool true) "bool")
      (.literal (.bool false) "bool") initSt initSt (.val (.bool true)) rfl).1
      (.val (.bool false)) initSt rfl).1

/-- C9: scope discipline.  Every interpreter result restores the
current-environment pointer it started from (blocks, function calls,
constructor calls and for statements restore the previous environment on
every exit path, including unwinding through return/break/continue/runtime
error), the environment store only grows, and the state in which interpret
finishes has the global environment (index 0) current. -/
theorem c9_scope_discipline_env_restored :
    (∀ fuel t s r s', run fuel t s = some (r, s') →
      s'.env = s.env ∧ s.envs.length ≤ s'.envs.length) ∧
    (∀ fuel p s0 out sF, interpretSt fuel p s0 = some (out, sF) → sF.env = 0) := by
  constructor
  · intro fuel t s r s' h
    exact run_pres fuel t s r s' h
  · intro fuel p s0 out sF h
    simp only [interpretSt] at h
    cases hr : run fuel (.seq p.statements) { s0 with output := [], env := 0 } with
    | none => rw [hr] at h; cases h
    | some p2 =>
      obtain ⟨r, s1⟩ := p2
      rw [hr] at h
      cases r with
      | ok o =>
        cases h
        exact (run_pres fuel _ _ _ _ hr).1
      | error e =>
        have h' : (match excMsg (heapFuel s1.heap) s1.heap e with
          | none => (none : Option (List String × St))
          | some m => some (s1.output ++ ["Erreur d\x27exécution: " ++ m],
              { s1 with output := s1.output ++ ["Erreur d\x27exécution: " ++ m] })) =
            some (out, sF) := h
        cases he : excMsg (heapFuel s1.heap) s1.heap e with
        | none => rw [he] at h'; cases h'
        | some m =>
          rw [he] at h'
          cases h'
          exact (run_pres fuel _ _ _ _ hr).1

/-- Witness for c9_scope_discipline_env_restored: a block execution restores
the environment pointer and interpret on a block program ends in the global
environment. -/
theorem c9_scope_discipline_env_restored_witness :
    (∃ r s', run 8 (.stmt (.block [])) initSt = some (r, s') ∧
      s'.env = initSt.env ∧ initSt.envs.length ≤ s'.envs.length) ∧
    (∃ out sF, interpretSt 8 c9prog initSt = some (out, sF) ∧ sF.env = 0) := by
  constructor
  · have h1 := c9_scope_discipline_env_restored.1 8 (.stmt (.block [])) initSt _ _ rfl
    exact ⟨_, _, rfl, h1⟩
  · have h2 := c9_scope_discipline_env_restored.2 8 c9prog initSt _ _ rfl
    exact ⟨_, _, rfl, h2⟩

/-- C10: the semantic analyzer accepts a ReturnStatement anywhere — it only
visits the returned value and records no error — and at run time a top-level
return raises ReturnException through the statement loop: no later top-level
statement runs, and interpret still returns the output collected so far plus
one final runtime-error line (whose text is str(ReturnException(v)), the
printed form of v). -/
theorem c10_top_level_return_accepted :
    (∀ fuel (a : ASt), visitGo (fuel + 1) (.stmt (.returnStmt none)) a = some a) ∧
    (∀ fuel (a : ASt) (e : Expression),
      visitGo (fuel + 1) (.stmt (.returnStmt (some e))) a = visitGo fuel (.expr e) a) ∧
    (∀ fuel (l1 l2 : List Statement) (s0 sE : St) (v : Value) (m : String),
      run fuel (.seq l1) { s0 with output := [], env := 0 } =
        some (.error (.ret v), sE) →
      excMsg (heapFuel sE.heap) sE.heap (.ret v) = some m →
      interpret fuel ⟨l1 ++ l2⟩ s0 =
        some (sE.output ++ ["Erreur d\x27exécution: " ++ m])) := by
  refine ⟨fun fuel a => rfl, fun fuel a e => rfl, ?_⟩
  intro fuel l1 l2 s0 sE v m h hm
  have hfull := seq_err_append l1 l2 fuel _ _ _ h
  simp only [interpret, interpretSt]
  rw [hfull]
  show Option.map Prod.fst
      (match excMsg (heapFuel sE.heap) sE.heap (Exc.ret v) with
       | none => (none : Option (List String × St))
       | some m2 => some (sE.output ++ ["Erreur d\x27exécution: " ++ m2],
           { sE with output := sE.output ++ ["Erreur d\x27exécution: " ++ m2] })) =
    some (sE.output ++ ["Erreur d\x27exécution: " ++ m])
  rw [hm]
  rfl

/-- Witness for c10_top_level_return_accepted: the analyzer is silent on a
bare top-level return, and pf("a"); return 1; pf("b"); prints "a" then the
runtime-error line for the escaping ReturnException (no "b"). -/
theorem c10_top_level_return_accepted_witness :
    visitGo 20 (.stmt (.returnStmt none)) analyzeInit = some analyzeInit ∧
    interpret 20 c10prog initSt = some ["a", "Erreur d\x27exécution: 1"] := by
  constructor
  · exact c10_top_level_return_accepted.1 19 analyzeInit
  · exact c10_top_level_return_accepted.2.2 20
      [.exprStmt (.functionCall (.identifier "pf" 1) [.literal (.str "a") "string"]),
       .returnStmt (some (.literal (.int 1) "int"))]
      [.exprStmt (.functionCall (.identifier "pf" 3) [.literal (.str "b") "string"])]
      initSt _ (.int 1) "1" rfl rfl

/-- C4 counterexample: the claim says entering a FunctionDecl resets the
loop context, so a break inside a function body nested in a loop body is
still reported.  The analyzer's FunctionDecl visitor never touches in_loop
(semantic_analyzer.py lines 110 to 124), so on
while (true) \x7b function f() \x7b break; \x7d \x7d it reports NO error. -/
theorem c4_counterexample_break_in_function_in_loop :
    analyze 20 c4prog = some [] := rfl

/-- C4 (amended): break/continue are reported exactly when the in_loop flag
is false at the visit; While sets the flag for its condition and body and
restores it afterwards; but FunctionDecl does NOT reset the flag — its body
is visited with the caller's in_loop value unchanged. -/
theorem c4_amended_loop_context :
    (∀ fuel (a : ASt), visitGo (fuel + 1) (.stmt .breakStmt) a =
      some (if a.inLoop then a
        else aErr a "\x27break\x27 doit être utilisé dans une boucle." 0)) ∧
    (∀ fuel (a : ASt), visitGo (fuel + 1) (.stmt .continueStmt) a =
      some (if a.inLoop then a
        else aErr a "\x27continue\x27 doit être utilisé dans une boucle." 0)) ∧
    (∀ fuel (a : ASt) (cond : Expression) (body : Statement),
      visitGo (fuel + 1) (.stmt (.whileStmt cond body)) a =
        (match visitGo fuel (.expr cond) { a with inLoop := true } with
         | none => none
         | some a1 =>
           match visitGo fuel (.stmt body) a1 with
           | none => none
           | some a2 => some { a2 with inLoop := a.inLoop })) ∧
    (∀ fuel (a : ASt) (init : Option Statement) (cond update : Option Expression)
        (body : Statement),
      visitGo (fuel + 1) (.stmt (.forStmt init cond update body)) a =
        (match (match init with
                | none => some (enterScope { a with inLoop := true })
                | some i => visitGo fuel (.stmt i) (enterScope { a with inLoop := true })) with
         | none => none
         | some a1 =>
           match (match cond with
                  | none => some a1
                  | some c => visitGo fuel (.expr c) a1) with
           | none => none
           | some a2 =>
             match (match update with
                    | none => some a2
                    | some u => visitGo fuel (.expr u) a2) with
             | none => none
             | some a3 =>
               match visitGo fuel (.stmt body) a3 with
               | none => none
               | some a4 => some { exitScope a4 with inLoop := a.inLoop }) ∧
      (enterScope { a with inLoop := true }).inLoop = true) ∧
    (∀ fuel (a : ASt) (n : String) (ps : List Param) (rt : Option String)
        (body : Statement),
      visitGo (fuel + 1) (.stmt (.functionDecl n ps rt body)) a =
        (match visitGo fuel (.stmt body)
            (declareParams (enterScope
              (match rt with
               | none => declare a n 0
               | some t => validate_type (declare a n 0) t 0)) ps 0) with
         | none => none
         | some a3 => some (exitScope a3)) ∧
      (declareParams (enterScope
        (match rt with
         | none => declare a n 0
         | some t => validate_type (declare a n 0) t 0)) ps 0).inLoop = a.inLoop) := by
  refine ⟨fun fuel a => rfl, fun fuel a => rfl, fun fuel a cond body => rfl,
    fun fuel a init cond update body => ⟨rfl, rfl⟩,
    fun fuel a n ps rt body => ⟨rfl, ?_⟩⟩
  have hdecl : ∀ (b : ASt) (nm : String) (ln : Nat), (declare b nm ln).inLoop = b.inLoop := by
    intro b nm ln
    unfold declare
    split
    · rfl
    · split
      · rfl
      · rfl
  have hvt : ∀ (b : ASt) (t : String) (ln : Nat),
      (validate_type b t ln).inLoop = b.inLoop := by
    intro b t ln
    unfold validate_type
    split
    · rfl
    · split
      · rfl
      · rfl
  have hparams : ∀ (ps : List Param) (b : ASt) (ln : Nat),
      (declareParams b ps ln).inLoop = b.inLoop := by
    intro ps
    induction ps with
    | nil => intro b ln; rfl
    | cons p rest ih =>
      intro b ln
      show (declareParams (match p.type with
        | none => declare b p.name ln
        | some t => validate_type (declare b p.name ln) t ln) rest ln).inLoop = b.inLoop
      rw [ih]
      cases p.type with
      | none => exact hdecl b p.name ln
      | some t => rw [hvt, hdecl]
  rw [hparams]
  show (match rt with
    | none => declare a n 0
    | some t => validate_type (declare a n 0) t 0).inLoop = a.inLoop
  cases rt with
  | none => exact hdecl a n 0
  | some t => rw [hvt, hdecl]

/-- C2: whenever the recorded parse errors plus the semantic-analysis errors
of the parsed program form a non-empty list, /run skips execution entirely:
the response has an empty output, the static-failure error string, and the
combined error list. -/
theorem c2_static_gate (pfuel afuel ifuel : Nat) (code : String)
    (program : Program) (perrors serrors : List AErr)
    (hp : parse pfuel (tokenize code) = some (program, perrors))
    (ha : analyze afuel program = some serrors)
    (hne : perrors ++ serrors ≠ []) :
    run_code pfuel afuel ifuel code =
      some ⟨[], some "Erreur d\x27analyse statique", some (perrors ++ serrors)⟩ := by
  cases hE : perrors ++ serrors with
  | nil => exact absurd hE hne
  | cons x xs =>
    unfold run_code
    simp only [hp, ha, hE]

/-! Helper characterizations of the Python list index rule. -/

/-- A non-negative index that hits reads position i. -/
theorem pyListGet_pos {elems : List Value} {i : Int} {v : Value} (h0 : 0 ≤ i)
    (hv : elems.get? i.toNat = some v) : pyListGet elems i = some v := by
  have hlt : i.toNat < elems.length := by
    by_contra hc
    push_neg at hc
    rw [List.get?_eq_none.mpr hc] at hv
    cases hv
  have hi : i < (elems.length : Int) := by omega
  unfold pyListGet
  rw [if_pos]
  · exact hv
  · simp [h0, hi]

/-- A negative index wraps by the length. -/
theorem pyListGet_neg {elems : List Value} {i : Int} {v : Value}
    (hneg : i < 0) (hge : -(elems.length : Int) ≤ i)
    (hv : elems.get? (i + elems.length).toNat = some v) :
    pyListGet elems i = some v := by
  have hnot : ¬ (0 ≤ i) := by omega
  unfold pyListGet
  rw [if_neg, if_pos]
  · exact hv
  · simp [hge, hneg]
  · simp [hnot]

/-- An index outside -n .. n-1 misses. -/
theorem pyListGet_out {elems : List Value} {i : Int}
    (h : i < -(elems.length : Int) ∨ (elems.length : Int) ≤ i) :
    pyListGet elems i = none := by
  have hn : (0 : Int) ≤ elems.length := by positivity
  unfold pyListGet
  rw [if_neg, if_neg]
  · rcases h with h | h
    · have : ¬ (-(elems.length : Int) ≤ i) := by omega
      simp [this]
    · have : ¬ (i < 0) := by omega
      simp [this]
  · rcases h with h | h
    · have : ¬ (0 ≤ i) := by omega
      simp [this]
    · have : ¬ (i < (elems.length : Int)) := by omega
      simp [this]

/-- A non-negative write index in range sets position i. -/
theorem pyListSet_pos {elems : List Value} {i : Int} (v : Value) (h0 : 0 ≤ i)
    (hlt : i < (elems.length : Int)) :
    pyListSet elems i v = some (elems.set i.toNat v) := by
  unfold pyListSet
  rw [if_pos]
  simp [h0, hlt]

/-- A negative write index wraps by the length. -/
theorem pyListSet_neg {elems : List Value} {i : Int} (v : Value)
    (hneg : i < 0) (hge : -(elems.length : Int) ≤ i) :
    pyListSet elems i v = some (elems.set (i + elems.length).toNat v) := by
  have hnot : ¬ (0 ≤ i) := by omega
  unfold pyListSet
  rw [if_neg, if_pos]
  · simp [hge, hneg]
  · simp [hnot]

/-- A write index outside -n .. n-1 misses. -/
theorem pyListSet_out {elems : List Value} {i : Int} (v : Value)
    (h : i < -(elems.length : Int) ∨ (elems.length : Int) ≤ i) :
    pyListSet elems i v = none := by
  unfold pyListSet
  rw [if_neg, if_neg]
  · rcases h with h | h
    · have : ¬ (-(elems.length : Int) ≤ i) := by omega
      simp [this]
    · have : ¬ (i < 0) := by omega
      simp [this]
  · rcases h with h | h
    · have : ¬ (0 ≤ i) := by omega
      simp [this]
    · have : ¬ (i < (elems.length : Int)) := by omega
      simp [this]

/-- C7 counterexample: the claim says every negative integer index on an
array is a runtime error, but the code indexes the backing Python list
directly, which wraps negative indices: var a = [10, 20, 30]; pf(a[-1]);
prints "30" and raises nothing. -/
theorem c7_counterexample_negative_index_wraps :
    interpret 40 progNeg initSt = some ["30"] := rfl

/-- C7 (amended): IndexAccess on an array requires an integer index (int or
bool); indices in 0 .. n-1 read directly, indices in -n .. -1 wrap Python
style, and only indices outside -n .. n-1 raise the runtime error
"Index ou clé invalide: ....".  A non-integer index on an array raises the
host TypeError text.  On a mapping, IndexAccess is key lookup: a present key
yields its value and a missing key raises "Index ou clé invalide: ....". -/
theorem c7_amended_index_semantics (s : St) (a d : Nat) (elems : List Value)
    (entries : List (Value × Value)) (i : Int)
    (hl : heapGet s a = some (.list elems))
    (hd : heapGet s d = some (.dict entries)) :
    (∀ v, 0 ≤ i → elems.get? i.toNat = some v →
      indexEval (.list a) (.int i) s = some (.ok (.val v), s)) ∧
    (∀ v, i < 0 → -(elems.length : Int) ≤ i →
      elems.get? (i + elems.length).toNat = some v →
      indexEval (.list a) (.int i) s = some (.ok (.val v), s)) ∧
    ((i < -(elems.length : Int) ∨ (elems.length : Int) ≤ i) →
      ∀ si, pyStrV (heapFuel s.heap) s.heap (.int i) = some si →
      indexEval (.list a) (.int i) s =
        some (.error (.err ("Index ou clé invalide: " ++ si ++ ".")), s)) ∧
    (∀ k : String, indexEval (.list a) (.str k) s =
      some (.error (.err "list indices must be integers or slices, not str"), s)) ∧
    (∀ k v, isHashable k = true →
      pyDictLookup (heapFuel s.heap) s.heap entries k = some (some v) →
      indexEval (.dict d) k s = some (.ok (.val v), s)) ∧
    (∀ k, isHashable k = true →
      pyDictLookup (heapFuel s.heap) s.heap entries k = some none →
      ∀ si, pyStrV (heapFuel s.heap) s.heap k = some si →
      indexEval (.dict d) k s =
        some (.error (.err ("Index ou clé invalide: " ++ si ++ ".")), s)) ∧
    (∀ v, 0 ≤ i → i < (elems.length : Int) →
      assignIndex "EQ" v (.list a) (.int i) s =
        some (.ok (.val v), heapSet s a (.list (elems.set i.toNat v)))) ∧
    (∀ v, i < 0 → -(elems.length : Int) ≤ i →
      assignIndex "EQ" v (.list a) (.int i) s =
        some (.ok (.val v), heapSet s a (.list (elems.set (i + elems.length).toNat v)))) ∧
    ((i < -(elems.length : Int) ∨ (elems.length : Int) ≤ i) →
      ∀ v, assignIndex "EQ" v (.list a) (.int i) s =
        some (.error (.err "list assignment index out of range"), s)) ∧
    (∀ (k : String) (v : Value), assignIndex "EQ" v (.list a) (.str k) s =
      some (.error (.err "L\x27index de liste doit être un entier."), s)) ∧
    (∀ (k v : Value) (entries2 : List (Value × Value)), isHashable k = true →
      pyDictInsertV (heapFuel s.heap) s.heap entries k v = some entries2 →
      assignIndex "EQ" v (.dict d) k s =
        some (.ok (.val v), heapSet s d (.dict entries2))) := by
  have hLi : indexEval (.list a) (.int i) s =
      (match pyListGet elems i with
       | some v2 => some (.ok (.val v2), s)
       | none =>
         match pyStrV (heapFuel s.heap) s.heap (.int i) with
         | none => none
         | some si => some (.error (.err ("Index ou clé invalide: " ++ si ++ ".")), s)) := by
    simp only [indexEval, hl]
    rfl
  have hW : ∀ v, assignIndex "EQ" v (.list a) (.int i) s =
      (match pyListSet elems i v with
       | some elems2 => some (.ok (.val v), heapSet s a (.list elems2))
       | none => some (.error (.err "list assignment index out of range"), s)) := by
    intro v
    simp only [assignIndex, hl]
    rfl
  refine ⟨?_, ?_, ?_, ?_, ?_, ?_, ?_, ?_, ?_, ?_, ?_⟩
  · intro v h0 hv
    rw [hLi, pyListGet_pos h0 hv]
  · intro v hneg hge hv
    rw [hLi, pyListGet_neg hneg hge hv]
  · intro hout si hsi
    rw [hLi, pyListGet_out hout, hsi]
  · intro k
    simp only [indexEval, hl]
    rfl
  · intro k v hk hfind
    have hDk : indexEval (.dict d) k s =
        (match pyDictLookup (heapFuel s.heap) s.heap entries k with
         | none => none
         | some (some v2) => some (.ok (.val v2), s)
         | some none =>
           match pyStrV (heapFuel s.heap) s.heap k with
           | none => none
           | some si => some (.error (.err ("Index ou clé invalide: " ++ si ++ ".")), s)) := by
      simp only [indexEval, hd, hk]
      rfl
    rw [hDk, hfind]
  · intro k hk hfind si hsi
    have hDk : indexEval (.dict d) k s =
        (match pyDictLookup (heapFuel s.heap) s.heap entries k with
         | none => none
         | some (some v2) => some (.ok (.val v2), s)
         | some none =>
           match pyStrV (heapFuel s.heap) s.heap k with
           | none => none
           | some si => some (.error (.err ("Index ou clé invalide: " ++ si ++ ".")), s)) := by
      simp only [indexEval, hd, hk]
      rfl
    rw [hDk, hfind, hsi]
  · intro v h0 hlt
    rw [hW, pyListSet_pos v h0 hlt]
  · intro v hneg hge
    rw [hW, pyListSet_neg v hneg hge]
  · intro hout v
    rw [hW, pyListSet_out v hout]
  · intro k v
    rfl
  · intro k v entries2 hk hins
    have hD : assignIndex "EQ" v (.dict d) k s =
        (match pyDictInsertV (heapFuel s.heap) s.heap entries k v with
         | none => none
         | some e2 => some (.ok (.val v), heapSet s d (.dict e2))) := by
      simp only [assignIndex, hd, hk]
      rfl
    rw [hD, hins]

/-- Witness for c7_amended_index_semantics on the state c7st: a[1] = 20,
a[-1] = 30, a[5] errors, a["nope"] raises the TypeError text, d["k"] = 7 and
d["z"] errors; and for writes, a[1] = 99 sets position 1, a[-1] = 99 sets
the last position, a[5] = 99 raises the host out-of-range text, a["nope"] =
99 raises the integer-index error, and d["j"] = 9 inserts the key. -/
theorem c7_amended_index_semantics_witness :
    indexEval (.list 0) (.int 1) c7st = some (.ok (.val (.int 20)), c7st) ∧
    indexEval (.list 0) (.int (-1)) c7st = some (.ok (.val (.int 30)), c7st) ∧
    indexEval (.list 0) (.int 5) c7st =
      some (.error (.err "Index ou clé invalide: 5."), c7st) ∧
    indexEval (.list 0) (.str "nope") c7st =
      some (.error (.err "list indices must be integers or slices, not str"), c7st) ∧
    indexEval (.dict 1) (.str "k") c7st = some (.ok (.val (.int 7)), c7st) ∧
    indexEval (.dict 1) (.str "z") c7st =
      some (.error (.err "Index ou clé invalide: z."), c7st) ∧
    assignIndex "EQ" (.int 99) (.list 0) (.int 1) c7st =
      some (.ok (.val (.int 99)),
        heapSet c7st 0 (.list [.int 10, .int 99, .int 30])) ∧
    assignIndex "EQ" (.int 99) (.list 0) (.int (-1)) c7st =
      some (.ok (.val (.int 99)),
        heapSet c7st 0 (.list [.int 10, .int 20, .int 99])) ∧
    assignIndex "EQ" (.int 99) (.list 0) (.int 5) c7st =
      some (.error (.err "list assignment index out of range"), c7st) ∧
    assignIndex "EQ" (.int 99) (.list 0) (.str "nope") c7st =
      some (.error (.err "L\x27index de liste doit être un entier."), c7st) ∧
    assignIndex "EQ" (.int 9) (.dict 1) (.str "j") c7st =
      some (.ok (.val (.int 9)),
        heapSet c7st 1 (.dict [(.str "k", .int 7), (.str "j", .int 9)])) := by
  have base := c7_amended_index_semantics c7st 0 1
    [.int 10, .int 20, .int 30] [(.str "k", .int 7)]
  refine ⟨?_, ?_, ?_, ?_, ?_, ?_, ?_, ?_, ?_, ?_, ?_⟩
  · exact (base 1 rfl rfl).1 (.int 20) (by decide) rfl
  · exact (base (-1) rfl rfl).2.1 (.int 30) (by decide) (by decide) rfl
  · exact (base 5 rfl rfl).2.2.1 (by decide) "5" rfl
  · exact (base 0 rfl rfl).2.2.2.1 "nope"
  · exact (base 0 rfl rfl).2.2.2.2.1 (.str "k") (.int 7) rfl rfl
  · exact (base 0 rfl rfl).2.2.2.2.2.1 (.str "z") rfl rfl "z" rfl
  · exact (base 1 rfl rfl).2.2.2.2.2.2.1 (.int 99) (by decide) (by decide)
  · exact (base (-1) rfl rfl).2.2.2.2.2.2.2.1 (.int 99) (by decide) (by decide)
  · exact (base 5 rfl rfl).2.2.2.2.2.2.2.2.1 (by decide) (.int 99)
  · exact (base 0 rfl rfl).2.2.2.2.2.2.2.2.2.1 "nope" (.int 99)
  · exact (base 0 rfl rfl).2.2.2.2.2.2.2.2.2.2 (.str "j") (.int 9)
      [(.str "k", .int 7), (.str "j", .int 9)] rfl rfl

/-! ## Lexer position bookkeeping (C8) -/

/-- LexPure is reflexive. -/
theorem lexPure_refl (st : LexSt) : LexPure st st :=
  ⟨rfl, rfl, rfl, rfl, rfl, le_refl _, by omega⟩

/-- LexPure composes. -/
theorem lexPure_trans {s1 s2 s3 : LexSt} (h1 : LexPure s1 s2)
    (h2 : LexPure s2 s3) : LexPure s1 s3 := by
  obtain ⟨a1, b1, c1, d1, e1, f1, g1⟩ := h1
  obtain ⟨a2, b2, c2, d2, e2, f2, g2⟩ := h2
  exact ⟨a2.trans a1, b2.trans b1, c2.trans c1, d2.trans d1, e2.trans e1,
    f1.trans f2, by omega⟩

/-- A pure step followed by an emitting step emits. -/
theorem lexPure_emits {s1 s2 s3 : LexSt} (h1 : LexPure s1 s2)
    (h2 : LexEmits s2 s3) : LexEmits s1 s3 := by
  obtain ⟨a1, b1, c1, d1, e1, f1, g1⟩ := h1
  obtain ⟨a2, c2, d2, e2, f2, g2, htok⟩ := h2
  refine ⟨a2.trans a1, c2.trans c1, d2.trans d1, e2.trans e1, f1.trans f2,
    by omega, ?_⟩
  rcases htok with h | ⟨ty, v, h⟩
  · exact .inl (h.trans b1)
  · exact .inr ⟨ty, v, by rw [h, b1, c1, e1]⟩

/-- An emitting step followed by a pure step emits. -/
theorem lexEmits_pure {s1 s2 s3 : LexSt} (h1 : LexEmits s1 s2)
    (h2 : LexPure s2 s3) : LexEmits s1 s3 := by
  obtain ⟨a1, c1, d1, e1, f1, g1, htok⟩ := h1
  obtain ⟨a2, b2, c2, d2, e2, f2, g2⟩ := h2
  refine ⟨a2.trans a1, c2.trans c1, d2.trans d1, e2.trans e1, f1.trans f2,
    by omega, ?_⟩
  rcases htok with h | ⟨ty, v, h⟩
  · exact .inl (b2.trans h)
  · exact .inr ⟨ty, v, b2.trans h⟩

/-- A pure step emits (nothing). -/
theorem lexPure_to_emits {s1 s2 : LexSt} (h : LexPure s1 s2) : LexEmits s1 s2 :=
  ⟨h.1, h.2.2.1, h.2.2.2.1, h.2.2.2.2.1, h.2.2.2.2.2.1, h.2.2.2.2.2.2,
    .inl h.2.1⟩

/-- advance is pure. -/
theorem lexAdvance_pure (st : LexSt) : LexPure st (lexAdvance st).2 :=
  ⟨rfl, rfl, rfl, rfl, rfl, Nat.le_succ _, by
    show st.column + 1 + st.current = st.current + 1 + st.column
    omega⟩

/-- match is pure. -/
theorem lexMatch_pure (c : Char) (st : LexSt) : LexPure st (lexMatch c st).2 := by
  unfold lexMatch
  split
  · exact lexPure_refl st
  · split
    · exact lexPure_refl st
    · exact ⟨rfl, rfl, rfl, rfl, rfl, Nat.le_succ _, by
        show st.column + 1 + st.current = st.current + 1 + st.column
        omega⟩

/-- add_token only appends the token of the current position. -/
theorem add_token_emits (st : LexSt) (ty : String) (v : TokValue) :
    LexEmits st (add_token st ty v) :=
  ⟨rfl, rfl, rfl, rfl, le_refl _, by
    show st.column + st.current = st.current + st.column
    omega, .inr ⟨ty, v, rfl⟩⟩

/-- The compound-operator step emits one token. -/
theorem addMatched_emits (st : LexSt) (c : Char) (two one : String) :
    LexEmits st (addMatched st c two one) := by
  show LexEmits st (if (lexMatch c st).1 then add_token (lexMatch c st).2 two .null
    else add_token (lexMatch c st).2 one .null)
  split
  · exact lexPure_emits (lexMatch_pure c st) (add_token_emits _ _ _)
  · exact lexPure_emits (lexMatch_pure c st) (add_token_emits _ _ _)

/-- The digit loop is pure. -/
theorem consumeDigits_pure : ∀ (fuel : Nat) (st : LexSt),
    LexPure st (consumeDigits fuel st) := by
  intro fuel
  induction fuel with
  | zero => intro st; exact lexPure_refl st
  | succ f ih =>
    intro st
    show LexPure st (if (lexPeek st).isDigit = true
      then consumeDigits f (lexAdvance st).2 else st)
    split
    · exact lexPure_trans (lexAdvance_pure st) (ih _)
    · exact lexPure_refl st

/-- The identifier loop is pure. -/
theorem consumeAlnum_pure : ∀ (fuel : Nat) (st : LexSt),
    LexPure st (consumeAlnum fuel st) := by
  intro fuel
  induction fuel with
  | zero => intro st; exact lexPure_refl st
  | succ f ih =>
    intro st
    show LexPure st (if is_alpha_numeric (lexPeek st) = true
      then consumeAlnum f (lexAdvance st).2 else st)
    split
    · exact lexPure_trans (lexAdvance_pure st) (ih _)
    · exact lexPure_refl st

/-- The single-line comment loop is pure. -/
theorem consumeLineComment_pure : ∀ (fuel : Nat) (st : LexSt),
    LexPure st (consumeLineComment fuel st) := by
  intro fuel
  induction fuel with
  | zero => intro st; exact lexPure_refl st
  | succ f ih =>
    intro st
    show LexPure st (if (lexPeek st ≠ '\n' && !lexIsAtEnd st) = true
      then consumeLineComment f (lexAdvance st).2 else st)
    split
    · exact lexPure_trans (lexAdvance_pure st) (ih _)
    · exact lexPure_refl st

/-- peek is the end-of-input placeholder or a source character. -/
theorem lexPeek_cases (st : LexSt) :
    lexPeek st = '\x00' ∨ lexPeek st ∈ st.source := by
  unfold lexPeek
  split
  · exact .inl rfl
  · cases hg : st.source.get? st.current with
    | none =>
      left
      show (st.source.get? st.current).getD '\x00' = '\x00'
      rw [hg]
      rfl
    | some ch =>
      right
      show (st.source.get? st.current).getD '\x00' ∈ st.source
      rw [hg]
      exact List.get?_mem hg

/-- On a newline-free source peek never reads a newline. -/
theorem lexPeek_ne_nl {st : LexSt} (hn : ∀ c ∈ st.source, c ≠ '\n') :
    lexPeek st ≠ '\n' := by
  rcases lexPeek_cases st with h | h
  · rw [h]; decide
  · exact hn _ h

/-- The string-scanning loop is pure on a newline-free source. -/
theorem scanStringGo_pure : ∀ (fuel : Nat) (q : Char) (val : String) (st : LexSt),
    (∀ c ∈ st.source, c ≠ '\n') → LexPure st (scanStringGo fuel q val st).2 := by
  intro fuel
  induction fuel with
  | zero => intro q val st hn; exact lexPure_refl st
  | succ f ih =>
    intro q val st hn
    unfold scanStringGo
    rw [if_neg (lexPeek_ne_nl hn)]
    split
    · exact lexPure_trans (lexAdvance_pure st)
        (ih q _ _ (fun c hc => hn c hc))
    · exact lexPure_refl st

/-- scan_string emits at most the one STRING token of the step. -/
theorem scan_string_emits (fuel : Nat) (q : Char) (st : LexSt)
    (hn : ∀ c ∈ st.source, c ≠ '\n') : LexEmits st (scan_string fuel q st) := by
  show LexEmits st (if lexIsAtEnd (scanStringGo fuel q "" st).2 then
      (scanStringGo fuel q "" st).2
    else add_token (lexAdvance (scanStringGo fuel q "" st).2).2 "STRING"
      (.str (scanStringGo fuel q "" st).1))
  split
  · exact lexPure_to_emits (scanStringGo_pure fuel q "" st hn)
  · exact lexPure_emits
      (lexPure_trans (scanStringGo_pure fuel q "" st hn) (lexAdvance_pure _))
      (add_token_emits _ _ _)

/-- scan_number emits the one numeric token of the step. -/
theorem scan_number_emits (fuel : Nat) (st : LexSt) :
    LexEmits st (scan_number fuel st) := by
  show LexEmits st (if (lexPeek (consumeDigits fuel st) = '.' &&
      (lexPeekNext (consumeDigits fuel st)).isDigit) = true then
      add_token (consumeDigits fuel (lexAdvance (consumeDigits fuel st)).2) "FLOAT"
        (.float (floatOfChars (lexemeChars (consumeDigits fuel
          (lexAdvance (consumeDigits fuel st)).2))))
    else add_token (consumeDigits fuel st) "INT"
      (.int (digitsToNat (lexemeChars (consumeDigits fuel st)))))
  split
  · exact lexPure_emits
      (lexPure_trans (consumeDigits_pure fuel st)
        (lexPure_trans (lexAdvance_pure _) (consumeDigits_pure fuel _)))
      (add_token_emits _ _ _)
  · exact lexPure_emits (consumeDigits_pure fuel st) (add_token_emits _ _ _)

/-- scan_identifier emits the one keyword/identifier token of the step. -/
theorem scan_identifier_emits (fuel : Nat) (st : LexSt) :
    LexEmits st (scan_identifier fuel st) := by
  show LexEmits st
    (match List.lookup (⟨lexemeChars (consumeAlnum fuel st)⟩ : String) keywords with
     | some ty =>
         if ty = "TRUE" then add_token (consumeAlnum fuel st) ty (.bool true)
         else if ty = "FALSE" then add_token (consumeAlnum fuel st) ty (.bool false)
         else add_token (consumeAlnum fuel st) ty .null
     | none => add_token (consumeAlnum fuel st) "IDENT"
         (.str (⟨lexemeChars (consumeAlnum fuel st)⟩ : String)))
  split
  · split
    · exact lexPure_emits (consumeAlnum_pure fuel st) (add_token_emits _ _ _)
    · split
      · exact lexPure_emits (consumeAlnum_pure fuel st) (add_token_emits _ _ _)
      · exact lexPure_emits (consumeAlnum_pure fuel st) (add_token_emits _ _ _)
  · exact lexPure_emits (consumeAlnum_pure fuel st) (add_token_emits _ _ _)

/-- The multiline-comment loop is pure on a newline-free source. -/
theorem scan_multiline_comment_pure : ∀ (fuel : Nat) (st : LexSt),
    (∀ c ∈ st.source, c ≠ '\n') → LexPure st (scan_multiline_comment fuel st) := by
  intro fuel
  induction fuel with
  | zero => intro st hn; exact lexPure_refl st
  | succ f ih =>
    intro st hn
    show LexPure st (if lexIsAtEnd st = true then st
      else if (lexPeek st = '*' && lexPeekNext st = '/') = true then
        (lexAdvance (lexAdvance st).2).2
      else (scan_multiline_comment f (lexAdvance (if lexPeek st = '\n'
        then { st with line := st.line + 1, column := 1 } else st)).2))
    split
    · exact lexPure_refl st
    · split
      · exact lexPure_trans (lexAdvance_pure st) (lexAdvance_pure _)
      · rw [if_neg (lexPeek_ne_nl hn)]
        exact lexPure_trans (lexAdvance_pure st) (ih _ (fun c hc => hn c hc))

/-- Closing a scan_token branch: the branch acts after the initial advance
and the whole step emits, moving the cursor strictly forward. -/
theorem emits_after_advance {st0 R : LexSt}
    (h : LexEmits (lexAdvance st0).2 R) :
    LexEmits st0 R ∧ st0.current < R.current := by
  refine ⟨lexPure_emits (lexAdvance_pure st0) h, ?_⟩
  have h5 : st0.current + 1 ≤ R.current := h.2.2.2.2.1
  omega

/-- The consumed character is the placeholder or a source character. -/
theorem lexAdvanceChar_cases (st : LexSt) :
    (lexAdvance st).1 = '\x00' ∨ (lexAdvance st).1 ∈ st.source := by
  cases hg : st.source.get? st.current with
  | none =>
    left
    show (st.source.get? st.current).getD '\x00' = '\x00'
    rw [hg]
    rfl
  | some ch =>
    right
    show (st.source.get? st.current).getD '\x00' ∈ st.source
    rw [hg]
    exact List.get?_mem hg

/-- The scan_token dispatch on a non-newline character over a newline-free
source emits at most one token. -/
theorem scanTokenBody_emits (fuel : Nat) (c : Char) (st : LexSt)
    (hc : c ≠ '\n') (hn : ∀ ch ∈ st.source, ch ≠ '\n') :
    LexEmits st (scanTokenBody fuel c st) := by
  unfold scanTokenBody
  by_cases h1 : (c = ' ' || c = '\r' || c = '\t') = true
  · rw [if_pos h1]; exact lexPure_to_emits (lexPure_refl _)
  rw [if_neg h1]
  rw [if_neg hc]
  by_cases h3 : c = '('
  · rw [if_pos h3]; exact add_token_emits _ _ _
  rw [if_neg h3]
  by_cases h4 : c = ')'
  · rw [if_pos h4]; exact add_token_emits _ _ _
  rw [if_neg h4]
  by_cases h5 : c = '\x7b'
  · rw [if_pos h5]; exact add_token_emits _ _ _
  rw [if_neg h5]
  by_cases h6 : c = '\x7d'
  · rw [if_pos h6]; exact add_token_emits _ _ _
  rw [if_neg h6]
  by_cases h7 : c = '['
  · rw [if_pos h7]; exact add_token_emits _ _ _
  rw [if_neg h7]
  by_cases h8 : c = ']'
  · rw [if_pos h8]; exact add_token_emits _ _ _
  rw [if_neg h8]
  by_cases h9 : c = ','
  · rw [if_pos h9]; exact add_token_emits _ _ _
  rw [if_neg h9]
  by_cases h10 : c = '.'
  · rw [if_pos h10]; exact add_token_emits _ _ _
  rw [if_neg h10]
  by_cases h11 : c = ';'
  · rw [if_pos h11]; exact add_token_emits _ _ _
  rw [if_neg h11]
  by_cases h12 : c = ':'
  · rw [if_pos h12]; exact add_token_emits _ _ _
  rw [if_neg h12]
  by_cases h13 : c = '+'
  · rw [if_pos h13]; exact addMatched_emits _ _ _ _
  rw [if_neg h13]
  by_cases h14 : c = '-'
  · rw [if_pos h14]; exact addMatched_emits _ _ _ _
  rw [if_neg h14]
  by_cases h15 : c = '*'
  · rw [if_pos h15]; exact addMatched_emits _ _ _ _
  rw [if_neg h15]
  by_cases h16 : c = '%'
  · rw [if_pos h16]; exact addMatched_emits _ _ _ _
  rw [if_neg h16]
  by_cases h17 : c = '/'
  · rw [if_pos h17]
    by_cases hs1 : (lexMatch '/' st).1 = true
    · rw [if_pos hs1]
      exact lexPure_to_emits
        (lexPure_trans (lexMatch_pure _ _) (consumeLineComment_pure _ _))
    rw [if_neg hs1]
    by_cases hs2 : (lexMatch '*' st).1 = true
    · rw [if_pos hs2]
      refine lexPure_to_emits
        (lexPure_trans (lexMatch_pure _ _) (scan_multiline_comment_pure _ _ ?_))
      intro ch hch
      apply hn
      have hsrc : (lexMatch '*' st).2.source = st.source := (lexMatch_pure _ _).1
      rw [hsrc] at hch
      exact hch
    rw [if_neg hs2]
    exact addMatched_emits _ _ _ _
  rw [if_neg h17]
  by_cases h18 : c = '!'
  · rw [if_pos h18]; exact addMatched_emits _ _ _ _
  rw [if_neg h18]
  by_cases h19 : c = '='
  · rw [if_pos h19]; exact addMatched_emits _ _ _ _
  rw [if_neg h19]
  by_cases h20 : c = '<'
  · rw [if_pos h20]; exact addMatched_emits _ _ _ _
  rw [if_neg h20]
  by_cases h21 : c = '>'
  · rw [if_pos h21]; exact addMatched_emits _ _ _ _
  rw [if_neg h21]
  by_cases h22 : c = '&'
  · rw [if_pos h22]
    by_cases hs3 : (lexMatch '&' st).1 = true
    · rw [if_pos hs3]
      exact lexPure_emits (lexMatch_pure _ _) (add_token_emits _ _ _)
    rw [if_neg hs3]
    exact lexPure_to_emits (lexMatch_pure _ _)
  rw [if_neg h22]
  by_cases h23 : c = '|'
  · rw [if_pos h23]
    by_cases hs4 : (lexMatch '|' st).1 = true
    · rw [if_pos hs4]
      exact lexPure_emits (lexMatch_pure _ _) (add_token_emits _ _ _)
    rw [if_neg hs4]
    exact lexPure_to_emits (lexMatch_pure _ _)
  rw [if_neg h23]
  by_cases h24 : c = '^'
  · rw [if_pos h24]; exact lexPure_to_emits (lexPure_refl _)
  rw [if_neg h24]
  by_cases h25 : (c = '"' || c = '\x27') = true
  · rw [if_pos h25]; exact scan_string_emits _ _ _ hn
  rw [if_neg h25]
  by_cases h26 : c.isDigit = true
  · rw [if_pos h26]; exact scan_number_emits _ _
  rw [if_neg h26]
  by_cases h27 : is_alpha c = true
  · rw [if_pos h27]; exact scan_identifier_emits _ _
  rw [if_neg h27]
  exact lexPure_to_emits (lexPure_refl _)

/-- One scan_token step on a newline-free source: at most one token is
emitted, carrying the step line and start column, and the cursor moves
strictly forward. -/
theorem scan_token_emits (fuel : Nat) (st0 : LexSt)
    (hn : ∀ c ∈ st0.source, c ≠ '\n') :
    LexEmits st0 (scan_token fuel st0) ∧ st0.current < (scan_token fuel st0).current := by
  have hc : (lexAdvance st0).1 ≠ '\n' := by
    rcases lexAdvanceChar_cases st0 with h | h
    · rw [h]; decide
    · exact hn _ h
  exact emits_after_advance
    (scanTokenBody_emits fuel (lexAdvance st0).1 (lexAdvance st0).2 hc
      (fun ch hch => hn ch hch))

/-- The tokenize loop preserves the newline-free scan invariant. -/
theorem scanGo_inv : ∀ (fuel inner : Nat) (st : LexSt),
    LexInv st → LexInv (scanGo fuel inner st) := by
  intro fuel
  induction fuel with
  | zero => intro inner st h; exact h
  | succ f ih =>
    intro inner st h
    show LexInv (if lexIsAtEnd st = true then st
      else scanGo f inner (scan_token inner
        { st with startPos := st.current, startColumn := st.column }))
    split
    · exact h
    · apply ih
      obtain ⟨hn, hl1, hcol, htl, hch, htc⟩ := h
      have hmain := scan_token_emits inner
        { st with startPos := st.current, startColumn := st.column }
        (fun c hc => hn c hc)
      obtain ⟨⟨hsrc, hline, hsp, hsc, hle, hdiff, htok⟩, hstrict⟩ := hmain
      have hle' : st.current ≤ (scan_token inner
        { st with startPos := st.current, startColumn := st.column }).current := hle
      have hstrict' : st.current < (scan_token inner
        { st with startPos := st.current, startColumn := st.column }).current := hstrict
      refine ⟨?_, ?_, ?_, ?_, ?_, ?_⟩
      · rw [hsrc]; exact fun c hc => hn c hc
      · rw [hline]; exact hl1
      · have hd2 : (scan_token inner
            { st with startPos := st.current, startColumn := st.column }).column +
            st.current = (scan_token inner
            { st with startPos := st.current, startColumn := st.column }).current +
            st.column := hdiff
        omega
      · intro t ht
        rcases htok with htok | ⟨ty, v, htok⟩
        · rw [htok] at ht
          exact htl t ht
        · rw [htok] at ht
          rcases List.mem_append.mp ht with hmem | hmem
          · exact htl t hmem
          · rw [List.mem_singleton] at hmem
            rw [hmem]
            exact hl1
      · rcases htok with htok | ⟨ty, v, htok⟩
        · rw [htok]; exact hch
        · rw [htok]
          apply List.chain'_append.mpr
          refine ⟨hch, List.chain'_singleton _, ?_⟩
          intro x hx y hy
          simp only [List.head?_cons, Option.mem_def, Option.some.injEq] at hy
          have hxc : x.column ≤ st.current := by
            apply htc
            obtain ⟨hne, hxeq⟩ := List.mem_getLast?_eq_getLast hx
            rw [hxeq]
            exact List.getLast_mem hne
          rw [← hy]
          show x.column < st.column
          omega
      · intro t ht
        rcases htok with htok | ⟨ty, v, htok⟩
        · rw [htok] at ht
          have := htc t ht
          omega
        · rw [htok] at ht
          rcases List.mem_append.mp ht with hmem | hmem
          · have := htc t hmem
            omega
          · rw [List.mem_singleton] at hmem
            rw [hmem]
            show st.column ≤ _
            omega

/-- takeWhile of the no-newline predicate keeps a newline-free list whole. -/
theorem takeWhile_ne_nl : ∀ (xs : List Char), (∀ c ∈ xs, c ≠ '\n') →
    xs.takeWhile (fun c => c ≠ '\n') = xs := by
  intro xs
  induction xs with
  | nil => intro h; rfl
  | cons x rest ih =>
    intro h
    have hx : x ≠ '\n' := h x (List.mem_cons_self x rest)
    have hr := ih (fun c hc => h c (List.mem_cons_of_mem x hc))
    rw [List.takeWhile_cons, if_pos (decide_eq_true hx), hr]

/-- On a newline-free source every position is on line 1. -/
theorem specLineOfPos_no_nl {l : List Char} (p : Nat) (h : ∀ c ∈ l, c ≠ '\n') :
    specLineOfPos l p = 1 := by
  unfold specLineOfPos
  have hfil : (l.take p).filter (fun c => c = '\n') = [] := by
    rw [List.filter_eq_nil_iff]
    intro a ha
    simp only [decide_eq_true_eq]
    exact h a (List.take_subset _ _ ha)
  rw [hfil]
  rfl

/-- On a newline-free source the 1-based column of an in-bounds position is
one more than the position. -/
theorem specColOfPos_no_nl {l : List Char} {p : Nat} (h : ∀ c ∈ l, c ≠ '\n')
    (hp : p ≤ l.length) : specColOfPos l p = p + 1 := by
  unfold specColOfPos
  rw [takeWhile_ne_nl _ (fun c hc => h c (List.take_subset _ _ (List.mem_reverse.mp hc)))]
  rw [List.length_reverse, List.length_take]
  omega

/-- C8 counterexample: the claim says every token carries the line of the
FIRST character of its lexeme and the 1-based starting column.  On the
two-line source \x27a\\nb\x27 x the string token\x27s lexeme starts at position 0
(line 1 by the reference geometry) yet the lexer records line 2, because
add_token uses the line counter after the whole lexeme was scanned; and the
identifier x starts at position 6 (column 4 of line 2) yet the lexer records
column 5, because scan_string resets the column counter to 1 before the
newline character itself is consumed. -/
theorem c8_counterexample_multiline_string :
    tokenize c8src =
      [⟨"STRING", .str "a\nb", 2, 1⟩, ⟨"IDENT", .str "x", 2, 5⟩,
       ⟨"EOF", .str "", 2, 6⟩] ∧
    specLineOfPos c8src.data 0 = 1 ∧
    specColOfPos c8src.data 6 = 4 := ⟨rfl, rfl, rfl⟩

/-- C8 (amended): on a newline-free source the recorded positions are
faithful in the claimed sense: every token (including EOF) carries line 1,
and token columns are strictly increasing across the token list.  (On
sources with newlines inside string literals, the token line is the line on
which the lexeme ENDS and the column counter after an embedded newline is
offset by one, as the counterexample shows.) -/
theorem c8_amended_lexer_positions (src : String)
    (hn : ∀ c ∈ src.data, c ≠ '\n') :
    (∀ t ∈ tokenize src, t.line = 1) ∧
    List.Chain' (fun a b => a.column < b.column) (tokenize src) ∧
    (∀ (st : LexSt) (inner : Nat), st.source = src.data → st.line = 1 →
      st.column = st.current + 1 → st.current ≤ src.data.length →
      (scan_token inner
        { st with startPos := st.current, startColumn := st.column }).tokens
        = st.tokens ∨
      ∃ ty v, (scan_token inner
        { st with startPos := st.current, startColumn := st.column }).tokens
        = st.tokens ++ [⟨ty, v, specLineOfPos src.data st.current,
            specColOfPos src.data st.current⟩]) := by
  have h0 : LexInv (lexInit src) := by
    refine ⟨hn, rfl, rfl, ?_, ?_, ?_⟩
    · intro t ht; cases ht
    · exact List.chain'_nil
    · intro t ht; cases ht
  have h1 := scanGo_inv (src.data.length + 1) (src.data.length + 1) _ h0
  obtain ⟨hn1, hl1, hcol1, htl1, hch1, htc1⟩ := h1
  have heq : tokenize src =
      (scanGo (src.data.length + 1) (src.data.length + 1) (lexInit src)).tokens ++
      [⟨"EOF", .str "",
        (scanGo (src.data.length + 1) (src.data.length + 1) (lexInit src)).line,
        (scanGo (src.data.length + 1) (src.data.length + 1) (lexInit src)).column⟩] := rfl
  rw [heq]
  refine ⟨?_, ?_, ?_⟩
  · intro t ht
    rcases List.mem_append.mp ht with hmem | hmem
    · exact htl1 t hmem
    · rw [List.mem_singleton] at hmem
      rw [hmem]
      exact hl1
  · apply List.chain'_append.mpr
    refine ⟨hch1, List.chain'_singleton _, ?_⟩
    intro x hx y hy
    simp only [List.head?_cons, Option.mem_def, Option.some.injEq] at hy
    have hxc : x.column ≤
        (scanGo (src.data.length + 1) (src.data.length + 1) (lexInit src)).current := by
      apply htc1
      obtain ⟨hne, hxeq⟩ := List.mem_getLast?_eq_getLast hx
      rw [hxeq]
      exact List.getLast_mem hne
    rw [← hy]
    show x.column <
      (scanGo (src.data.length + 1) (src.data.length + 1) (lexInit src)).column
    omega
  · intro st inner hsrc hline hcolumn hcur
    have hn1 : ∀ c ∈ ({ st with startPos := st.current, startColumn := st.column } : LexSt).source, c ≠ '\n' := by
      intro c hc
      apply hn
      rw [← hsrc]
      exact hc
    obtain ⟨⟨hs2, hl2, hp2, hc2, hle2, hd2, htok⟩, hstrict⟩ :=
      scan_token_emits inner _ hn1
    rcases htok with htok | ⟨ty, v, htok⟩
    · exact Or.inl htok
    · refine Or.inr ⟨ty, v, ?_⟩
      rw [htok]
      have h1 : specLineOfPos src.data st.current = st.line := by
        rw [specLineOfPos_no_nl st.current hn, hline]
      have h2 : specColOfPos src.data st.current = st.column := by
        rw [specColOfPos_no_nl hn hcur, hcolumn]
      rw [h1, h2]

/-- Witness for c8_amended_lexer_positions: the single-line source
var x = 10; has strictly increasing token columns, and its first scan step
(from the fresh lexer state, lexeme starting at position 0) emits at most
one token carrying exactly the reference line and column of that start. -/
theorem c8_amended_lexer_positions_witness :
    List.Chain' (fun a b => a.column < b.column) (tokenize "var x = 10;") ∧
    ((scan_token 12 (lexInit "var x = 10;")).tokens
        = (lexInit "var x = 10;").tokens ∨
     ∃ ty v, (scan_token 12 (lexInit "var x = 10;")).tokens
        = (lexInit "var x = 10;").tokens ++
          [⟨ty, v, specLineOfPos ("var x = 10;".data) 0,
            specColOfPos ("var x = 10;".data) 0⟩]) :=
  ⟨(c8_amended_lexer_positions "var x = 10;" (by decide)).2.1,
   (c8_amended_lexer_positions "var x = 10;" (by decide)).2.2
     (lexInit "var x = 10;") 12 rfl rfl rfl (by decide)⟩

/-- Witness for c2_static_gate: "break;" parses cleanly but fails the
semantic analysis; /run returns no output and the static-failure error. -/
theorem c2_static_gate_witness :
    run_code 99 20 20 "break;" =
      some ⟨[], some "Erreur d\x27analyse statique",
            some [⟨"\x27break\x27 doit être utilisé dans une boucle.", 0⟩]⟩ := by
  exact c2_static_gate 99 20 20 "break;" ⟨[.breakStmt]⟩ []
    [⟨"\x27break\x27 doit être utilisé dans une boucle.", 0⟩] rfl rfl (by decide)

/-! ## Parser travel discipline (C6)

The parser never rewrites the token list, never moves the cursor backwards,
and never moves it past the end: every advance is guarded by the
end-of-input test. -/

/-- PStep is reflexive. -/
theorem pStep_refl (st : PSt) : PStep st st :=
  ⟨rfl, le_refl _, fun h => h⟩

/-- PStep composes. -/
theorem pStep_trans {s1 s2 s3 : PSt} (h1 : PStep s1 s2) (h2 : PStep s2 s3) :
    PStep s1 s3 := by
  obtain ⟨a1, b1, c1⟩ := h1
  obtain ⟨a2, b2, c2⟩ := h2
  refine ⟨a2.trans a1, b1.trans b2, ?_⟩
  intro h
  have := c2 (by rw [a1]; exact c1 h)
  rw [a1] at this
  exact this

/-- A state whose cursor is in bounds is not at end exactly when the peeked
token is a real one; a cursor at or past the end always reads EOF. -/
theorem not_at_end_lt {st : PSt} (h : pIsAtEnd st = false) :
    st.current < st.tokens.length := by
  by_contra hc
  push_neg at hc
  have : pPeek st = eofTok := by
    unfold pPeek
    exact List.getD_eq_default _ _ hc
  unfold pIsAtEnd at h
  rw [this] at h
  cases h

/-- advance travels. -/
theorem pAdvance_step (st : PSt) : PStep st (pAdvance st) := by
  unfold pAdvance
  split
  · exact pStep_refl st
  · next h =>
    refine ⟨rfl, Nat.le_succ _, fun _ => ?_⟩
    have := not_at_end_lt (by simpa using h)
    show st.current + 1 ≤ st.tokens.length
    omega

/-- match travels. -/
theorem pMatch1_step (ty : String) (st : PSt) : PStep st (pMatch1 ty st).2 := by
  unfold pMatch1
  split
  · exact pAdvance_step st
  · exact pStep_refl st

/-- A successful match consumed one in-bounds token. -/
theorem pMatch1_true {ty : String} {st : PSt} (h : (pMatch1 ty st).1 = true) :
    (pMatch1 ty st).2.current = st.current + 1 ∧
    st.current < st.tokens.length ∧ (pMatch1 ty st).2.tokens = st.tokens := by
  unfold pMatch1 at h ⊢
  split at h
  · next hchk =>
    have hne : pIsAtEnd st = false := by
      unfold pCheck at hchk
      split at hchk
      · cases hchk
      · next hend => simpa using hend
    have hlt := not_at_end_lt hne
    rw [if_pos (by assumption)]
    unfold pAdvance
    rw [if_neg (by rw [hne]; exact fun hx => nomatch hx)]
    exact ⟨rfl, hlt, rfl⟩
  · cases h

/-- matchMany travels. -/
theorem pMatchMany_step (tys : List String) (st : PSt) :
    PStep st (pMatchMany tys st).2 := by
  induction tys with
  | nil => exact pStep_refl st
  | cons t rest ih =>
    show PStep st (if pCheck t st then (true, pAdvance st) else pMatchMany rest st).2
    split
    · exact pAdvance_step st
    · exact ih

/-- A successful matchMany consumed one in-bounds token. -/
theorem pMatchMany_true {tys : List String} {st : PSt}
    (h : (pMatchMany tys st).1 = true) :
    (pMatchMany tys st).2.current = st.current + 1 ∧
    st.current < st.tokens.length ∧ (pMatchMany tys st).2.tokens = st.tokens := by
  induction tys with
  | nil => cases h
  | cons t rest ih =>
    have hshape : pMatchMany (t :: rest) st =
        (if pCheck t st then (true, pAdvance st) else pMatchMany rest st) := rfl
    rw [hshape] at h ⊢
    split at h
    · next hchk =>
      rw [if_pos hchk]
      have hne : pIsAtEnd st = false := by
        unfold pCheck at hchk
        split at hchk
        · cases hchk
        · next hend => simpa using hend
      have hlt := not_at_end_lt hne
      unfold pAdvance
      rw [if_neg (by rw [hne]; exact fun hx => nomatch hx)]
      exact ⟨rfl, hlt, rfl⟩
    · next hchk =>
      rw [if_neg hchk]
      exact ih h

/-- A successful consume is an advance over an in-bounds token. -/
theorem pConsume_ok_eq {ty msg : String} {st st1 : PSt}
    (h : pConsume ty msg st = .ok st1) :
    st1 = pAdvance st ∧ st1.current = st.current + 1 ∧
    st.current < st.tokens.length ∧ st1.tokens = st.tokens := by
  unfold pConsume at h
  split at h
  · next hchk =>
    cases h
    have hne : pIsAtEnd st = false := by
      unfold pCheck at hchk
      split at hchk
      · cases hchk
      · next hend => simpa using hend
    have hlt := not_at_end_lt hne
    unfold pAdvance
    rw [if_neg (by rw [hne]; exact fun hx => nomatch hx)]
    exact ⟨rfl, rfl, hlt, rfl⟩
  · cases h

/-- The synchronize scan travels. -/
theorem syncGo_step : ∀ (fuel line : Nat) (st : PSt),
    PStep st (syncGo fuel line st) := by
  intro fuel
  induction fuel with
  | zero => intro line st; exact pStep_refl st
  | succ f ih =>
    intro line st
    show PStep st (if pIsAtEnd st = true then st
      else if (pPrevious st).type = "SEMICOLON" then st
      else if line < (pPeek st).line then st
      else if ["CLASS", "FUNCTION", "VAR", "CONST", "FOR", "IF", "WHILE",
          "RETURN"].contains (pPeek st).type = true then st
      else syncGo f line (pAdvance st))
    split
    · exact pStep_refl st
    split
    · exact pStep_refl st
    split
    · exact pStep_refl st
    split
    · exact pStep_refl st
    · exact pStep_trans (pAdvance_step st) (ih _ _)

/-- synchronize travels. -/
theorem synchronize_step (st : PSt) : PStep st (synchronize st) :=
  pStep_trans (pAdvance_step st) (syncGo_step _ _ _)

/-- pThen travels when both parts do. -/
theorem pThen_step {x : PR} {k : POut → PSt → PR} {st0 : PSt} {r : Except AErr POut}
    {st' : PSt}
    (hx : ∀ r1 s1, x = some (r1, s1) → PStep st0 s1)
    (hk : ∀ o s1 r2 s2, x = some (.ok o, s1) → k o s1 = some (r2, s2) → PStep s1 s2)
    (h : pThen x k = some (r, st')) : PStep st0 st' := by
  unfold pThen at h
  cases hx1 : x with
  | none => rw [hx1] at h; cases h
  | some p =>
    obtain ⟨r1, s1⟩ := p
    rw [hx1] at h
    cases r1 with
    | error e =>
      cases h
      exact hx _ _ hx1
    | ok o =>
      exact pStep_trans (hx _ _ hx1) (hk o s1 _ _ hx1 h)

/-- A consume followed by a pure result travels. -/
theorem consume_then_pure_step {ty msg : String} {s s' : PSt} {r : Except AErr POut}
    {out : PSt → Except AErr POut}
    (h : (match pConsume ty msg s with
          | .error e => some (.error e, s)
          | .ok s1 => some (out s1, s1)) = some (r, s')) : PStep s s' := by
  cases hcon : pConsume ty msg s with
  | error e =>
    rw [hcon] at h
    cases h
    exact pStep_refl s
  | ok s1 =>
    rw [hcon] at h
    cases h
    obtain ⟨heq, _, _, _⟩ := pConsume_ok_eq hcon
    rw [heq]
    exact pAdvance_step s

/-- A consume followed by a travelling continuation travels. -/
theorem consume_then_step {ty msg : String} {s s' : PSt} {r : Except AErr POut}
    {k : PSt → PR}
    (hk : ∀ s1 r2 s2, pConsume ty msg s = .ok s1 → k s1 = some (r2, s2) → PStep s1 s2)
    (h : (match pConsume ty msg s with
          | .error e => some (.error e, s)
          | .ok s1 => k s1) = some (r, s')) : PStep s s' := by
  cases hcon : pConsume ty msg s with
  | error e =>
    rw [hcon] at h
    cases h
    exact pStep_refl s
  | ok s1 =>
    rw [hcon] at h
    obtain ⟨heq, _, _, _⟩ := pConsume_ok_eq hcon
    refine pStep_trans ?_ (hk s1 _ _ hcon h)
    rw [heq]
    exact pAdvance_step s

set_option maxHeartbeats 4000000 in
/-- One parser step travels when its recursive calls do. -/
theorem parseStep_travel {rec : PTask → PSt → PR} (hp : PTravel rec) :
    PTravel (parseStep rec) := by
  intro t st r st' h
  cases t with
  | parseLoop acc =>
    simp only [parseStep] at h
    split at h
    · cases h; exact pStep_refl st
    · refine pThen_step (fun r1 s1 hx => hp _ _ _ _ hx) ?_ h
      intro o s1 r2 s2 hx hk
      cases hso : oStmtOpt o <;> rw [hso] at hk <;> exact hp _ _ _ _ hk
  | declaration =>
    simp only [parseStep] at h
    have hbody : ∀ (r1 : Except AErr POut) (s1 : PSt),
        (if (pMatch1 "VAR" st).1 then rec (.varDecl false) (pMatch1 "VAR" st).2
         else if (pMatch1 "CONST" st).1 then rec (.varDecl true) (pMatch1 "CONST" st).2
         else if (pMatch1 "FUNCTION" st).1 then rec .funcDecl (pMatch1 "FUNCTION" st).2
         else if (pMatch1 "CLASS" st).1 then rec .classDecl (pMatch1 "CLASS" st).2
         else rec .statement st) = some (r1, s1) → PStep st s1 := by
      intro r1 s1 hb
      split at hb
      · exact pStep_trans (pMatch1_step _ _) (hp _ _ _ _ hb)
      split at hb
      · exact pStep_trans (pMatch1_step _ _) (hp _ _ _ _ hb)
      split at hb
      · exact pStep_trans (pMatch1_step _ _) (hp _ _ _ _ hb)
      split at hb
      · exact pStep_trans (pMatch1_step _ _) (hp _ _ _ _ hb)
      · exact hp _ _ _ _ hb
    split at h
    · cases h
    · next o st1 heq =>
      cases h
      exact hbody _ _ heq
    · next e stE heq =>
      cases h
      exact pStep_trans (hbody _ _ heq)
        (pStep_trans (synchronize_step stE) ⟨rfl, le_refl _, fun hx => hx⟩)
  | varDecl isConst =>
    simp only [parseStep] at h
    refine consume_then_step ?_ h
    intro s1 r2 s2 hcon hk
    split at hk
    · refine pThen_step (fun r1 sA hx => pStep_trans (pMatch1_step _ _) (hp _ _ _ _ hx)) ?_ hk
      intro ot sA rB sB hx hk2
      split at hk2
      · refine pStep_trans (pMatch1_step _ _) (pThen_step (fun r1 sC hx2 => hp _ _ _ _ hx2) ?_ hk2)
        intro ov sC rD sD hx2 hk3
        exact consume_then_pure_step hk3
      split at hk2
      · cases hk2; exact pStep_refl _
      · exact consume_then_pure_step hk2
    · split at hk
      · refine pStep_trans (pMatch1_step _ _) (pThen_step (fun r1 sC hx2 => hp _ _ _ _ hx2) ?_ hk)
        intro ov sC rD sD hx2 hk3
        exact consume_then_pure_step hk3
      split at hk
      · cases hk; exact pStep_refl _
      · exact consume_then_pure_step hk
  | funcDecl =>
    simp only [parseStep] at h
    refine consume_then_step ?_ h
    intro s1 r2 s2 hcon hk
    refine consume_then_step ?_ hk
    intro s2 r3 s3 hcon2 hk2
    refine pThen_step ?_ ?_ hk2
    · intro r1 sA hxx
      split at hxx
      · cases hxx; exact pStep_refl _
      · exact hp _ _ _ _ hxx
    · intro op sA rB sB hxx hkk
      refine consume_then_step ?_ hkk
      intro sC rD sD hcon3 hkk2
      split at hkk2
      · refine pStep_trans (pMatch1_step _ _) (pThen_step (fun r1 sE hxE => hp _ _ _ _ hxE) ?_ hkk2)
        intro ot sE rF sF hxE hkE
        refine consume_then_step ?_ hkE
        intro sG rH sH hcon4 hkG
        refine pThen_step (fun r1 sI hxI => hp _ _ _ _ hxI) ?_ hkG
        intro ob sI rJ sJ hxI hkI
        cases hkI; exact pStep_refl _
      · refine consume_then_step ?_ hkk2
        intro sG rH sH hcon4 hkG
        refine pThen_step (fun r1 sI hxI => hp _ _ _ _ hxI) ?_ hkG
        intro ob sI rJ sJ hxI hkI
        cases hkI; exact pStep_refl _
  | classDecl =>
    simp only [parseStep] at h
    refine consume_then_step ?_ h
    intro s1 r2 s2 hcon hk
    split at hk
    · refine pStep_trans (pMatch1_step "EXTENDS" s1) (consume_then_step ?_ hk)
      intro s2 r3 s3 hcon2 hk2
      refine consume_then_step ?_ hk2
      intro s3 r4 s4 hcon3 hk3
      refine pThen_step (fun r1 sA hx => hp _ _ _ _ hx) ?_ hk3
      intro om sA rB sB hx hk4
      exact consume_then_pure_step hk4
    · refine consume_then_step ?_ hk
      intro s2 r3 s3 hcon2 hk2
      refine pThen_step (fun r1 sA hx => hp _ _ _ _ hx) ?_ hk2
      intro om sA rB sB hx hk3
      exact consume_then_pure_step hk3
  | classMembers acc =>
    simp only [parseStep] at h
    split at h
    · split at h
      · refine pStep_trans (pMatch1_step _ _)
          (pThen_step (fun r1 s1 hx => hp _ _ _ _ hx)
            (fun o s1 r2 s2 hx hk => hp _ _ _ _ hk) h)
      split at h
      · refine pStep_trans (pMatch1_step _ _)
          (pThen_step (fun r1 s1 hx => hp _ _ _ _ hx)
            (fun o s1 r2 s2 hx hk => hp _ _ _ _ hk) h)
      split at h
      · refine pStep_trans (pMatch1_step _ _)
          (pThen_step (fun r1 s1 hx => hp _ _ _ _ hx)
            (fun o s1 r2 s2 hx hk => hp _ _ _ _ hk) h)
      · cases h; exact pStep_refl st
    · cases h; exact pStep_refl st
  | ctorDecl =>
    simp only [parseStep] at h
    refine consume_then_step ?_ h
    intro s1 r2 s2 hcon hk
    refine pThen_step ?_ ?_ hk
    · intro r1 sA hxx
      split at hxx
      · cases hxx; exact pStep_refl _
      · exact hp _ _ _ _ hxx
    · intro op sA rB sB hxx hkk
      refine consume_then_step ?_ hkk
      intro sC rD sD hcon2 hkk2
      refine consume_then_step ?_ hkk2
      intro sE rF sF hcon3 hkk3
      refine pThen_step (fun r1 sG hxG => hp _ _ _ _ hxG) ?_ hkk3
      intro ob sG rH sH hxG hkG
      cases hkG; exact pStep_refl _
  | paramList acc msg =>
    simp only [parseStep] at h
    refine consume_then_step ?_ h
    intro s1 r2 s2 hcon hk
    split at hk
    · refine pThen_step (fun r1 sA hx => pStep_trans (pMatch1_step _ _) (hp _ _ _ _ hx)) ?_ hk
      intro ot sA rB sB hx hk2
      split at hk2
      · exact pStep_trans (pMatch1_step _ _) (hp _ _ _ _ hk2)
      · cases hk2; exact pStep_refl _
    · split at hk
      · exact pStep_trans (pMatch1_step _ _) (hp _ _ _ _ hk)
      · cases hk; exact pStep_refl _
  | parseType =>
    simp only [parseStep] at h
    have hsuf : ∀ (ty : String) (sA : PSt) (rB : Except AErr POut) (sB : PSt),
        (if (pMatch1 "LBRACKET" sA).1 then
          (match pConsume "RBRACKET"
              "Attendait \x27]\x27 pour fermer la déclaration de type tableau."
              (pMatch1 "LBRACKET" sA).2 with
           | .error e => some (.error e, (pMatch1 "LBRACKET" sA).2)
           | .ok st2 => some (.ok (.tystr (ty ++ "[]")), st2))
         else some (.ok (.tystr ty), sA)) = some (rB, sB) → PStep sA sB := by
      intro ty sA rB sB hb
      split at hb
      · exact pStep_trans (pMatch1_step _ _) (consume_then_pure_step hb)
      · cases hb; exact pStep_refl _
    split at h
    · exact pStep_trans (pMatch1_step _ _) (hsuf _ _ _ _ h)
    split at h
    · exact pStep_trans (pMatch1_step _ _) (hsuf _ _ _ _ h)
    split at h
    · exact pStep_trans (pMatch1_step _ _) (hsuf _ _ _ _ h)
    split at h
    · exact pStep_trans (pMatch1_step _ _) (hsuf _ _ _ _ h)
    split at h
    · exact pStep_trans (pMatch1_step _ _) (hsuf _ _ _ _ h)
    split at h
    · exact pStep_trans (pMatch1_step _ _) (hsuf _ _ _ _ h)
    split at h
    · exact hp _ _ _ _ h
    · cases h; exact pStep_refl st
  | parseObjectType =>
    simp only [parseStep] at h
    refine consume_then_step ?_ h
    intro s1 r2 s2 hcon hk
    refine pThen_step ?_ ?_ hk
    · intro r1 sA hxx
      split at hxx
      · cases hxx; exact pStep_refl _
      · exact hp _ _ _ _ hxx
    · intro ofl sA rB sB hxx hkk
      exact consume_then_pure_step hkk
  | objFieldList acc =>
    simp only [parseStep] at h
    refine consume_then_step ?_ h
    intro s1 r2 s2 hcon hk
    refine consume_then_step ?_ hk
    intro s2 r3 s3 hcon2 hk2
    refine pThen_step (fun r1 sA hx => hp _ _ _ _ hx) ?_ hk2
    intro ot sA rB sB hx hk3
    split at hk3
    · exact pStep_trans (pMatch1_step _ _) (hp _ _ _ _ hk3)
    · cases hk3; exact pStep_refl _
  | statement =>
    simp only [parseStep] at h
    split at h
    · refine pStep_trans (pMatch1_step _ _)
        (pThen_step (fun r1 s1 hx => hp _ _ _ _ hx) ?_ h)
      intro ob s1 r2 s2 hx hk
      cases hk; exact pStep_refl _
    split at h
    · exact pStep_trans (pMatch1_step _ _) (hp _ _ _ _ h)
    split at h
    · exact pStep_trans (pMatch1_step _ _) (hp _ _ _ _ h)
    split at h
    · exact pStep_trans (pMatch1_step _ _) (hp _ _ _ _ h)
    split at h
    · exact pStep_trans (pMatch1_step _ _) (hp _ _ _ _ h)
    split at h
    · exact pStep_trans (pMatch1_step _ _) (consume_then_pure_step h)
    split at h
    · exact pStep_trans (pMatch1_step _ _) (consume_then_pure_step h)
    · exact hp _ _ _ _ h
  | blockLoop acc =>
    simp only [parseStep] at h
    split at h
    · refine pThen_step (fun r1 s1 hx => hp _ _ _ _ hx) ?_ h
      intro o s1 r2 s2 hx hk
      cases hso : oStmtOpt o <;> rw [hso] at hk <;> exact hp _ _ _ _ hk
    · exact consume_then_pure_step h
  | ifS =>
    simp only [parseStep] at h
    refine consume_then_step ?_ h
    intro s1 r2 s2 hcon hk
    refine pThen_step (fun r1 sA hx => hp _ _ _ _ hx) ?_ hk
    intro oc sA rB sB hx hk2
    refine consume_then_step ?_ hk2
    intro sC rD sD hcon2 hk3
    refine pThen_step (fun r1 sE hx2 => hp _ _ _ _ hx2) ?_ hk3
    intro ot sE rF sF hx2 hk4
    split at hk4
    · refine pStep_trans (pMatch1_step _ _)
        (pThen_step (fun r1 sG hx3 => hp _ _ _ _ hx3) ?_ hk4)
      intro oe sG rH sH hx3 hk5
      cases hk5; exact pStep_refl _
    · cases hk4; exact pStep_refl _
  | whileS =>
    simp only [parseStep] at h
    refine consume_then_step ?_ h
    intro s1 r2 s2 hcon hk
    refine pThen_step (fun r1 sA hx => hp _ _ _ _ hx) ?_ hk
    intro oc sA rB sB hx hk2
    refine consume_then_step ?_ hk2
    intro sC rD sD hcon2 hk3
    refine pThen_step (fun r1 sE hx2 => hp _ _ _ _ hx2) ?_ hk3
    intro ob sE rF sF hx2 hk4
    cases hk4; exact pStep_refl _
  | forS =>
    simp only [parseStep] at h
    refine consume_then_step ?_ h
    intro s1 r2 s2 hcon hk
    refine pThen_step ?_ ?_ hk
    · intro r1 sA hxx
      split at hxx
      · cases hxx; exact pStep_trans (pMatch1_step _ _) (pStep_refl _)
      split at hxx
      · refine pStep_trans (pMatch1_step _ _)
          (pThen_step (fun r1 sB hx => hp _ _ _ _ hx) ?_ hxx)
        intro o sB rC sC hx hk2
        cases hk2; exact pStep_refl _
      · refine pThen_step (fun r1 sB hx => hp _ _ _ _ hx) ?_ hxx
        intro oe sB rC sC hx hk2
        exact consume_then_pure_step hk2
    · intro oi sA rB sB hxx hkk
      refine pThen_step ?_ ?_ hkk
      · intro r1 sC hxx2
        split at hxx2
        · cases hxx2; exact pStep_refl _
        · refine pThen_step (fun r1 sD hx => hp _ _ _ _ hx) ?_ hxx2
          intro o sD rE sE hx hk2
          cases hk2; exact pStep_refl _
      · intro oc sC rD sD hxx2 hkk2
        refine consume_then_step ?_ hkk2
        intro sE rF sF hcon2 hkk3
        refine pThen_step ?_ ?_ hkk3
        · intro r1 sG hxx3
          split at hxx3
          · cases hxx3; exact pStep_refl _
          · refine pThen_step (fun r1 sH hx => hp _ _ _ _ hx) ?_ hxx3
            intro o sH rI sI hx hk2
            cases hk2; exact pStep_refl _
        · intro ou sG rH sH hxx3 hkk4
          refine consume_then_step ?_ hkk4
          intro sI rJ sJ hcon3 hkk5
          refine pThen_step (fun r1 sK hx => hp _ _ _ _ hx) ?_ hkk5
          intro ob sK rL sL hx hk2
          cases hk2; exact pStep_refl _
  | returnS =>
    simp only [parseStep] at h
    refine pThen_step ?_ ?_ h
    · intro r1 sA hxx
      split at hxx
      · cases hxx; exact pStep_refl _
      · refine pThen_step (fun r1 sB hx => hp _ _ _ _ hx) ?_ hxx
        intro o sB rC sC hx hk2
        cases hk2; exact pStep_refl _
    · intro ov sA rB sB hxx hkk
      exact consume_then_pure_step hkk
  | exprS =>
    simp only [parseStep] at h
    refine pThen_step (fun r1 s1 hx => hp _ _ _ _ hx) ?_ h
    intro oe s1 r2 s2 hx hk
    exact consume_then_pure_step hk
  | expression => exact hp _ _ _ _ h
  | assignment =>
    simp only [parseStep] at h
    refine pThen_step (fun r1 s1 hx => hp _ _ _ _ hx) ?_ h
    intro o s1 r2 s2 hx hk
    split at hk
    · refine pStep_trans (pMatchMany_step _ _)
        (pThen_step (fun r1 sA hx2 => hp _ _ _ _ hx2) ?_ hk)
      intro ov sA rB sB hx2 hk2
      split at hk2 <;> (cases hk2; exact pStep_refl _)
    · cases hk; exact pStep_refl _
  | logicalOr =>
    exact pThen_step (fun r1 s1 hx => hp _ _ _ _ hx)
      (fun o s1 r2 s2 hx hk => hp _ _ _ _ hk) h
  | orLoop e =>
    simp only [parseStep] at h
    split at h
    · refine pStep_trans (pMatch1_step _ _)
        (pThen_step (fun r1 s1 hx => hp _ _ _ _ hx)
          (fun o s1 r2 s2 hx hk => hp _ _ _ _ hk) h)
    · cases h; exact pStep_refl st
  | logicalAnd =>
    exact pThen_step (fun r1 s1 hx => hp _ _ _ _ hx)
      (fun o s1 r2 s2 hx hk => hp _ _ _ _ hk) h
  | andLoop e =>
    simp only [parseStep] at h
    split at h
    · refine pStep_trans (pMatch1_step _ _)
        (pThen_step (fun r1 s1 hx => hp _ _ _ _ hx)
          (fun o s1 r2 s2 hx hk => hp _ _ _ _ hk) h)
    · cases h; exact pStep_refl st
  | equality =>
    exact pThen_step (fun r1 s1 hx => hp _ _ _ _ hx)
      (fun o s1 r2 s2 hx hk => hp _ _ _ _ hk) h
  | eqLoop e =>
    simp only [parseStep] at h
    split at h
    · refine pStep_trans (pMatchMany_step _ _)
        (pThen_step (fun r1 s1 hx => hp _ _ _ _ hx)
          (fun o s1 r2 s2 hx hk => hp _ _ _ _ hk) h)
    · cases h; exact pStep_refl st
  | comparison =>
    exact pThen_step (fun r1 s1 hx => hp _ _ _ _ hx)
      (fun o s1 r2 s2 hx hk => hp _ _ _ _ hk) h
  | cmpLoop e =>
    simp only [parseStep] at h
    split at h
    · refine pStep_trans (pMatchMany_step _ _)
        (pThen_step (fun r1 s1 hx => hp _ _ _ _ hx)
          (fun o s1 r2 s2 hx hk => hp _ _ _ _ hk) h)
    · cases h; exact pStep_refl st
  | term =>
    exact pThen_step (fun r1 s1 hx => hp _ _ _ _ hx)
      (fun o s1 r2 s2 hx hk => hp _ _ _ _ hk) h
  | termLoop e =>
    simp only [parseStep] at h
    split at h
    · refine pStep_trans (pMatchMany_step _ _)
        (pThen_step (fun r1 s1 hx => hp _ _ _ _ hx)
          (fun o s1 r2 s2 hx hk => hp _ _ _ _ hk) h)
    · cases h; exact pStep_refl st
  | factor =>
    exact pThen_step (fun r1 s1 hx => hp _ _ _ _ hx)
      (fun o s1 r2 s2 hx hk => hp _ _ _ _ hk) h
  | factorLoop e =>
    simp only [parseStep] at h
    split at h
    · refine pStep_trans (pMatchMany_step _ _)
        (pThen_step (fun r1 s1 hx => hp _ _ _ _ hx)
          (fun o s1 r2 s2 hx hk => hp _ _ _ _ hk) h)
    · cases h; exact pStep_refl st
  | unary =>
    simp only [parseStep] at h
    split at h
    · refine pStep_trans (pMatchMany_step _ _)
        (pThen_step (fun r1 s1 hx => hp _ _ _ _ hx) ?_ h)
      intro o s1 r2 s2 hx hk
      cases hk; exact pStep_refl _
    · exact hp _ _ _ _ h
  | call =>
    exact pThen_step (fun r1 s1 hx => hp _ _ _ _ hx)
      (fun o s1 r2 s2 hx hk => hp _ _ _ _ hk) h
  | callLoop e =>
    simp only [parseStep] at h
    split at h
    · refine pStep_trans (pMatch1_step _ _)
        (pThen_step (fun r1 s1 hx => hp _ _ _ _ hx)
          (fun o s1 r2 s2 hx hk => hp _ _ _ _ hk) h)
    split at h
    · refine pStep_trans (pMatch1_step _ _) (consume_then_step ?_ h)
      intro s1 r2 s2 hcon hk
      exact hp _ _ _ _ hk
    split at h
    · refine pStep_trans (pMatch1_step _ _)
        (pThen_step (fun r1 s1 hx => hp _ _ _ _ hx) ?_ h)
      intro oi s1 r2 s2 hx hk
      refine consume_then_step ?_ hk
      intro sA rB sB hcon hk2
      exact hp _ _ _ _ hk2
    · cases h; exact pStep_refl st
  | primary =>
    simp only [parseStep] at h
    split at h
    · cases h; exact pMatch1_step _ _
    split at h
    · cases h; exact pMatch1_step _ _
    split at h
    · cases h; exact pMatch1_step _ _
    split at h
    · cases h; exact pMatch1_step _ _
    split at h
    · cases h; exact pMatch1_step _ _
    split at h
    · cases h; exact pMatch1_step _ _
    split at h
    · refine pStep_trans (pMatch1_step _ _)
        (pThen_step (fun r1 s1 hx => hp _ _ _ _ hx) ?_ h)
      intro o s1 r2 s2 hx hk
      exact consume_then_pure_step hk
    split at h
    · exact pStep_trans (pMatch1_step _ _) (hp _ _ _ _ h)
    split at h
    · exact pStep_trans (pMatch1_step _ _) (hp _ _ _ _ h)
    split at h
    · cases h; exact pMatch1_step _ _
    · cases h; exact pStep_refl st
  | finishCall callee =>
    simp only [parseStep] at h
    refine pThen_step ?_ ?_ h
    · intro r1 sA hxx
      split at hxx
      · cases hxx; exact pStep_refl _
      · exact hp _ _ _ _ hxx
    · intro oa sA rB sB hxx hkk
      exact consume_then_pure_step hkk
  | argList acc =>
    simp only [parseStep] at h
    refine pThen_step (fun r1 s1 hx => hp _ _ _ _ hx) ?_ h
    intro o s1 r2 s2 hx hk
    split at hk
    · exact pStep_trans (pMatch1_step _ _) (hp _ _ _ _ hk)
    · cases hk; exact pStep_refl _
  | arrayLit =>
    simp only [parseStep] at h
    refine pThen_step ?_ ?_ h
    · intro r1 sA hxx
      split at hxx
      · cases hxx; exact pStep_refl _
      · exact hp _ _ _ _ hxx
    · intro oe sA rB sB hxx hkk
      exact consume_then_pure_step hkk
  | arrayElems acc =>
    simp only [parseStep] at h
    refine pThen_step (fun r1 s1 hx => hp _ _ _ _ hx) ?_ h
    intro o s1 r2 s2 hx hk
    split at hk
    · exact pStep_trans (pMatch1_step _ _) (hp _ _ _ _ hk)
    · cases hk; exact pStep_refl _
  | objectLit =>
    simp only [parseStep] at h
    refine pThen_step ?_ ?_ h
    · intro r1 sA hxx
      split at hxx
      · cases hxx; exact pStep_refl _
      · exact hp _ _ _ _ hxx
    · intro op sA rB sB hxx hkk
      exact consume_then_pure_step hkk
  | objProps acc =>
    simp only [parseStep] at h
    refine consume_then_step ?_ h
    intro s1 r2 s2 hcon hk
    refine consume_then_step ?_ hk
    intro s2 r3 s3 hcon2 hk2
    refine pThen_step (fun r1 sA hx => hp _ _ _ _ hx) ?_ hk2
    intro ov sA rB sB hx hk3
    split at hk3
    · exact pStep_trans (pMatch1_step _ _) (hp _ _ _ _ hk3)
    · cases hk3; exact pStep_refl _

/-- The parser travels at every fuel. -/
theorem parseGo_travel : ∀ fuel, PTravel (parseGo fuel) := by
  intro fuel
  induction fuel with
  | zero => intro t st r st' h; cases h
  | succ f ih => exact parseStep_travel ih

/-- Advancing off a real token moves the cursor by one. -/
theorem pAdvance_current {st : PSt} (h : pIsAtEnd st = false) :
    (pAdvance st).current = st.current + 1 := by
  unfold pAdvance
  rw [if_neg (by rw [h]; exact fun hx => nomatch hx)]

/-- A successful consume travels. -/
theorem pConsume_step {ty msg : String} {s s1 : PSt} (h : pConsume ty msg s = .ok s1) :
    PStep s s1 := by
  obtain ⟨heq, _, _, _⟩ := pConsume_ok_eq h
  rw [heq]
  exact pAdvance_step s

/-- Remaining tokens never increase along a travel step. -/
theorem rem_mono {s s' : PSt} (h : PStep s s') : pRemaining s' ≤ pRemaining s := by
  unfold pRemaining
  rw [h.1]
  have := h.2.1
  omega

/-- A successful consume reads exactly one remaining token. -/
theorem rem_consume {ty msg : String} {s s1 : PSt} (h : pConsume ty msg s = .ok s1) :
    pRemaining s1 + 1 = pRemaining s := by
  obtain ⟨-, h2, h3, h4⟩ := pConsume_ok_eq h
  unfold pRemaining
  rw [h4, h2]
  omega

/-- A successful single match reads exactly one remaining token. -/
theorem rem_match1 {ty : String} {s : PSt} (h : (pMatch1 ty s).1 = true) :
    pRemaining (pMatch1 ty s).2 + 1 = pRemaining s := by
  obtain ⟨h1, h2, h3⟩ := pMatch1_true h
  unfold pRemaining
  rw [h3, h1]
  omega

/-- A successful multi match reads exactly one remaining token. -/
theorem rem_matchMany {tys : List String} {s : PSt} (h : (pMatchMany tys s).1 = true) :
    pRemaining (pMatchMany tys s).2 + 1 = pRemaining s := by
  obtain ⟨h1, h2, h3⟩ := pMatchMany_true h
  unfold pRemaining
  rw [h3, h1]
  omega

/-- synchronize strictly advances on a state that is not at end. -/
theorem synchronize_strict {st : PSt} (h : pIsAtEnd st = false) :
    st.current < (synchronize st).current := by
  have h1 := (syncGo_step ((pAdvance st).tokens.length + 1)
    (pPrevious (pAdvance st)).line (pAdvance st)).2.1
  have h2 : (pAdvance st).current = st.current + 1 := pAdvance_current h
  show st.current < (syncGo ((pAdvance st).tokens.length + 1)
    (pPrevious (pAdvance st)).line (pAdvance st)).current
  omega

/-- After travelling from a not-at-end state, synchronize lands strictly
beyond the start: either travel already moved, or the cursor is unchanged
and the state is still not at end so the leading advance moves. -/
theorem sync_progress {st stE : PSt} (hst : PStep st stE)
    (hend : pIsAtEnd st = false) : st.current < (synchronize stE).current := by
  rcases Nat.lt_or_ge st.current stE.current with hlt | hge
  · exact lt_of_lt_of_le hlt (synchronize_step stE).2.1
  · have hcur : stE.current = st.current := le_antisymm hge hst.2.1
    have hpeek : pPeek stE = pPeek st := by
      unfold pPeek
      rw [hst.1, hcur]
    have hendE : pIsAtEnd stE = false := by
      unfold pIsAtEnd
      rw [hpeek]
      exact hend
    have := synchronize_strict hendE
    omega

/-- pThen is defined when its head is and its continuation is on every ok
head result. -/
theorem pThen_ne {x : PR} {k : POut → PSt → PR}
    (hx : x ≠ none)
    (hk : ∀ o s1, x = some (.ok o, s1) → k o s1 ≠ none) :
    pThen x k ≠ none := by
  cases hxe : x with
  | none => exact absurd hxe hx
  | some p =>
    obtain ⟨r1, s1⟩ := p
    cases r1 with
    | error e => exact fun hc => nomatch hc
    | ok o => exact hk o s1 hxe

/-- A consume-headed match is defined when its ok continuation is. -/
theorem consume_then_ne {ty msg : String} {s : PSt} {k : PSt → PR}
    (hk : ∀ s1, pConsume ty msg s = .ok s1 → k s1 ≠ none) :
    (match pConsume ty msg s with
     | .error e => some (.error e, s)
     | .ok s1 => k s1) ≠ none := by
  cases hcon : pConsume ty msg s with
  | error e => exact fun hc => nomatch hc
  | ok s1 => exact hk s1 hcon

/-- A consume followed by a pure result is always defined. -/
theorem consume_pure_ne {ty msg : String} {s : PSt} {out : PSt → Except AErr POut} :
    (match pConsume ty msg s with
     | .error e => some (.error e, s)
     | .ok s1 => some (out s1, s1)) ≠ none := by
  refine consume_then_ne ?_
  intro s1 _ hc
  exact Option.noConfusion hc

/-- A successful expression statement consumed at least its semicolon. -/
theorem exprS_ok_strict : ∀ (n : Nat) (st : PSt) (o : POut) (st' : PSt),
    parseGo n .exprS st = some (.ok o, st') → st.current < st'.current := by
  intro n st o st' h
  cases n with
  | zero => cases h
  | succ m =>
    have h' : pThen (parseGo m .expression st) (fun oe st1 =>
        match pConsume "SEMICOLON" "Attendait \x27;\x27 après l\x27expression." st1 with
        | Except.error e => (some (Except.error e, st1) : PR)
        | Except.ok st2 =>
            some (Except.ok (POut.stmt (Statement.exprStmt (oExpr oe))), st2))
        = some (.ok o, st') := h
    unfold pThen at h'
    cases hx : parseGo m .expression st with
    | none => rw [hx] at h'; cases h'
    | some p =>
      obtain ⟨r1, s1⟩ := p
      rw [hx] at h'
      cases r1 with
      | error e => cases h'
      | ok oe =>
        have h2 : (match pConsume "SEMICOLON"
              "Attendait \x27;\x27 après l\x27expression." s1 with
            | Except.error e => (some (Except.error e, s1) : PR)
            | Except.ok st2 =>
                some (Except.ok (POut.stmt (Statement.exprStmt (oExpr oe))), st2))
            = some (.ok o, st') := h'
        cases hcon : pConsume "SEMICOLON"
            "Attendait \x27;\x27 après l\x27expression." s1 with
        | error e => rw [hcon] at h2; cases h2
        | ok st2 =>
          rw [hcon] at h2
          cases h2
          have hs1 := (parseGo_travel m _ _ _ _ hx).2.1
          obtain ⟨-, hc2, -, -⟩ := pConsume_ok_eq hcon
          omega

/-- A successful statement consumed at least one token. -/
theorem statement_ok_strict : ∀ (n : Nat) (st : PSt) (o : POut) (st' : PSt),
    parseGo n .statement st = some (.ok o, st') → st.current < st'.current := by
  intro n st o st' h
  cases n with
  | zero => cases h
  | succ m =>
    have htr := parseGo_travel m
    have h' : parseStep (parseGo m) .statement st = some (.ok o, st') := h
    simp only [parseStep] at h'
    split at h'
    · rename_i hc
      obtain ⟨ha, hlt, -⟩ := pMatch1_true hc
      unfold pThen at h'
      cases hx : parseGo m (.blockLoop []) (pMatch1 "LBRACE" st).2 with
      | none => rw [hx] at h'; cases h'
      | some p =>
        obtain ⟨r1, s1⟩ := p
        rw [hx] at h'
        cases r1 with
        | error e => cases h'
        | ok ob =>
          cases h'
          have := (htr _ _ _ _ hx).2.1
          omega
    split at h'
    · rename_i hc
      obtain ⟨ha, -, -⟩ := pMatch1_true hc
      have := (htr _ _ _ _ h').2.1
      omega
    split at h'
    · rename_i hc
      obtain ⟨ha, -, -⟩ := pMatch1_true hc
      have := (htr _ _ _ _ h').2.1
      omega
    split at h'
    · rename_i hc
      obtain ⟨ha, -, -⟩ := pMatch1_true hc
      have := (htr _ _ _ _ h').2.1
      omega
    split at h'
    · rename_i hc
      obtain ⟨ha, -, -⟩ := pMatch1_true hc
      have := (htr _ _ _ _ h').2.1
      omega
    split at h'
    · rename_i hc
      obtain ⟨ha, -, -⟩ := pMatch1_true hc
      cases hcon : pConsume "SEMICOLON" "Attendait \x27;\x27 après \x27break\x27."
          (pMatch1 "BREAK" st).2 with
      | error e => rw [hcon] at h'; cases h'
      | ok st1 =>
        rw [hcon] at h'
        cases h'
        obtain ⟨-, hc2, -, -⟩ := pConsume_ok_eq hcon
        omega
    split at h'
    · rename_i hc
      obtain ⟨ha, -, -⟩ := pMatch1_true hc
      cases hcon : pConsume "SEMICOLON" "Attendait \x27;\x27 après \x27continue\x27."
          (pMatch1 "CONTINUE" st).2 with
      | error e => rw [hcon] at h'; cases h'
      | ok st1 =>
        rw [hcon] at h'
        cases h'
        obtain ⟨-, hc2, -, -⟩ := pConsume_ok_eq hcon
        omega
    · exact exprS_ok_strict m st o st' h'

/-- A declaration from a not-at-end state strictly advances, on the success
path because every statement consumes, and on the recovery path because
synchronize advances. -/
theorem declaration_strict : ∀ (n : Nat) (st : PSt) (r : Except AErr POut) (st' : PSt),
    parseGo n .declaration st = some (r, st') → pIsAtEnd st = false →
    st.current < st'.current := by
  intro n st r st' h hend
  cases n with
  | zero => cases h
  | succ m =>
    have htr := parseGo_travel m
    have h' : parseStep (parseGo m) .declaration st = some (r, st') := h
    simp only [parseStep] at h'
    split at h'
    · cases h'
    · rename_i o1 st1 heq
      cases h'
      split at heq
      · rename_i hc
        obtain ⟨ha, -, -⟩ := pMatch1_true hc
        have := (htr _ _ _ _ heq).2.1
        omega
      split at heq
      · rename_i hc
        obtain ⟨ha, -, -⟩ := pMatch1_true hc
        have := (htr _ _ _ _ heq).2.1
        omega
      split at heq
      · rename_i hc
        obtain ⟨ha, -, -⟩ := pMatch1_true hc
        have := (htr _ _ _ _ heq).2.1
        omega
      split at heq
      · rename_i hc
        obtain ⟨ha, -, -⟩ := pMatch1_true hc
        have := (htr _ _ _ _ heq).2.1
        omega
      · exact statement_ok_strict m st _ _ heq
    · rename_i e stE heq
      cases h'
      have hstep : PStep st stE := by
        split at heq
        · exact pStep_trans (pMatch1_step _ _) (htr _ _ _ _ heq)
        split at heq
        · exact pStep_trans (pMatch1_step _ _) (htr _ _ _ _ heq)
        split at heq
        · exact pStep_trans (pMatch1_step _ _) (htr _ _ _ _ heq)
        split at heq
        · exact pStep_trans (pMatch1_step _ _) (htr _ _ _ _ heq)
        · exact htr _ _ _ _ heq
      exact sync_progress hstep hend

set_option maxHeartbeats 8000000 in
/-- With fuel above the rank-plus-remaining measure, the parser never runs
out of fuel: every work item completes with an ok or error result.  Every
recursive call either consumes a token first (26 fuel per token) or moves
to a work item of strictly smaller rank at the same position. -/
theorem parseGo_progress : ∀ (n : Nat) (t : PTask) (st : PSt),
    pRank t + 26 * pRemaining st < n → parseGo n t st ≠ none := by
  intro n
  induction n with
  | zero => intro t st h; exact absurd h (Nat.not_lt_zero _)
  | succ m ih =>
    intro t st h
    show parseStep (parseGo m) t st ≠ none
    cases t with
    | parseLoop acc =>
      have h' : 25 + 26 * pRemaining st < m + 1 := h
      simp only [parseStep]
      split
      · exact fun hc => nomatch hc
      · rename_i hend'
        have hend : pIsAtEnd st = false := by simpa using hend'
        have hlen := not_at_end_lt hend
        refine pThen_ne (ih .declaration st ?_) ?_
        · show 24 + 26 * pRemaining st < m
          omega
        · intro o s1 hx
          have hstrict := declaration_strict m st _ s1 hx hend
          have htok := (parseGo_travel m _ _ _ _ hx).1
          have hrem : pRemaining s1 < pRemaining st := by
            unfold pRemaining
            rw [htok]
            omega
          cases hso : oStmtOpt o with
          | some s3 => exact ih _ s1 (by show 25 + 26 * pRemaining s1 < m; omega)
          | none => exact ih _ s1 (by show 25 + 26 * pRemaining s1 < m; omega)
    | declaration =>
      have h' : 24 + 26 * pRemaining st < m + 1 := h
      simp only [parseStep]
      have hbody : (if (pMatch1 "VAR" st).1 then parseGo m (.varDecl false) (pMatch1 "VAR" st).2
          else if (pMatch1 "CONST" st).1 then parseGo m (.varDecl true) (pMatch1 "CONST" st).2
          else if (pMatch1 "FUNCTION" st).1 then parseGo m .funcDecl (pMatch1 "FUNCTION" st).2
          else if (pMatch1 "CLASS" st).1 then parseGo m .classDecl (pMatch1 "CLASS" st).2
          else parseGo m .statement st) ≠ none := by
        split
        · rename_i hc
          have hrem := rem_match1 hc
          exact ih (.varDecl false) _
            (by show 22 + 26 * pRemaining (pMatch1 "VAR" st).2 < m; omega)
        split
        · rename_i hc
          have hrem := rem_match1 hc
          exact ih (.varDecl true) _
            (by show 22 + 26 * pRemaining (pMatch1 "CONST" st).2 < m; omega)
        split
        · rename_i hc
          have hrem := rem_match1 hc
          exact ih .funcDecl _
            (by show 22 + 26 * pRemaining (pMatch1 "FUNCTION" st).2 < m; omega)
        split
        · rename_i hc
          have hrem := rem_match1 hc
          exact ih .classDecl _
            (by show 22 + 26 * pRemaining (pMatch1 "CLASS" st).2 < m; omega)
        · exact ih .statement st (by show 23 + 26 * pRemaining st < m; omega)
      obtain ⟨p, hp⟩ := Option.ne_none_iff_exists'.mp hbody
      rw [hp]
      obtain ⟨r1, s1⟩ := p
      cases r1 with
      | ok o => exact fun hc => nomatch hc
      | error e => exact fun hc => nomatch hc
    | varDecl isConst =>
      have h' : 22 + 26 * pRemaining st < m + 1 := h
      simp only [parseStep]
      refine consume_then_ne ?_
      intro s1 hcon1
      have hrem1 := rem_consume hcon1
      split
      · rename_i hc
        have hrem2 := rem_match1 hc
        refine pThen_ne (ih .parseType _ ?_) ?_
        · show 5 + 26 * pRemaining (pMatch1 "COLON" s1).2 < m
          omega
        · intro ot s2 hx2
          have hs2 := rem_mono (parseGo_travel m _ _ _ _ hx2)
          split
          · rename_i hc2
            have hrem3 := rem_match1 hc2
            refine pThen_ne (ih .expression _ ?_) ?_
            · show 19 + 26 * pRemaining (pMatch1 "EQ" s2).2 < m
              omega
            · intro ov s3 hx3
              exact consume_pure_ne
          split
          · exact fun hc2 => nomatch hc2
          · exact consume_pure_ne
      · split
        · rename_i hc2
          have hrem3 := rem_match1 hc2
          refine pThen_ne (ih .expression _ ?_) ?_
          · show 19 + 26 * pRemaining (pMatch1 "EQ" s1).2 < m
            omega
          · intro ov s3 hx3
            exact consume_pure_ne
        split
        · exact fun hc2 => nomatch hc2
        · exact consume_pure_ne
    | funcDecl =>
      have h' : 22 + 26 * pRemaining st < m + 1 := h
      simp only [parseStep]
      refine consume_then_ne ?_
      intro s1 hcon1
      have hrem1 := rem_consume hcon1
      refine consume_then_ne ?_
      intro s2 hcon2
      have hrem2 := rem_consume hcon2
      refine pThen_ne ?_ ?_
      · split
        · exact fun hc => nomatch hc
        · exact ih (.paramList [] "Nom de paramètre attendu.") s2
            (by show 5 + 26 * pRemaining s2 < m; omega)
      · intro op s3 hx3
        have hs3 : pRemaining s3 ≤ pRemaining s2 := by
          split at hx3
          · cases hx3; exact le_refl _
          · exact rem_mono (parseGo_travel m _ _ _ _ hx3)
        refine consume_then_ne ?_
        intro s4 hcon4
        have hrem4 := rem_consume hcon4
        split
        · rename_i hc
          have hrem5 := rem_match1 hc
          refine pThen_ne (ih .parseType _ ?_) ?_
          · show 5 + 26 * pRemaining (pMatch1 "COLON" s4).2 < m
            omega
          · intro ot s5 hx5
            have hs5 := rem_mono (parseGo_travel m _ _ _ _ hx5)
            refine consume_then_ne ?_
            intro s6 hcon6
            have hrem6 := rem_consume hcon6
            refine pThen_ne (ih (.blockLoop []) s6 ?_) ?_
            · show 25 + 26 * pRemaining s6 < m
              omega
            · intro ob s7 hx7
              exact fun hc2 => nomatch hc2
        · refine consume_then_ne ?_
          intro s6 hcon6
          have hrem6 := rem_consume hcon6
          refine pThen_ne (ih (.blockLoop []) s6 ?_) ?_
          · show 25 + 26 * pRemaining s6 < m
            omega
          · intro ob s7 hx7
            exact fun hc2 => nomatch hc2
    | classDecl =>
      have h' : 22 + 26 * pRemaining st < m + 1 := h
      simp only [parseStep]
      refine consume_then_ne ?_
      intro s1 hcon1
      have hrem1 := rem_consume hcon1
      split
      · rename_i hc
        have hrem2 := rem_match1 hc
        refine consume_then_ne ?_
        intro s2 hcon2
        have hrem3 := rem_consume hcon2
        refine consume_then_ne ?_
        intro s3 hcon3
        have hrem4 := rem_consume hcon3
        refine pThen_ne (ih (.classMembers []) s3 ?_) ?_
        · show 25 + 26 * pRemaining s3 < m
          omega
        · intro om s4 hx4
          exact consume_pure_ne
      · refine consume_then_ne ?_
        intro s2 hcon2
        have hrem3 := rem_consume hcon2
        refine pThen_ne (ih (.classMembers []) s2 ?_) ?_
        · show 25 + 26 * pRemaining s2 < m
          omega
        · intro om s4 hx4
          exact consume_pure_ne
    | classMembers acc =>
      have h' : 25 + 26 * pRemaining st < m + 1 := h
      simp only [parseStep]
      split
      · split
        · rename_i hc
          have hrem1 := rem_match1 hc
          refine pThen_ne (ih (.varDecl false) _ ?_) ?_
          · show 22 + 26 * pRemaining (pMatch1 "VAR" st).2 < m
            omega
          · intro o s1 hx
            have hs1 := rem_mono (parseGo_travel m _ _ _ _ hx)
            exact ih _ s1 (by show 25 + 26 * pRemaining s1 < m; omega)
        split
        · rename_i hc
          have hrem1 := rem_match1 hc
          refine pThen_ne (ih .funcDecl _ ?_) ?_
          · show 22 + 26 * pRemaining (pMatch1 "FUNCTION" st).2 < m
            omega
          · intro o s1 hx
            have hs1 := rem_mono (parseGo_travel m _ _ _ _ hx)
            exact ih _ s1 (by show 25 + 26 * pRemaining s1 < m; omega)
        split
        · rename_i hc
          have hrem1 := rem_match1 hc
          refine pThen_ne (ih .ctorDecl _ ?_) ?_
          · show 22 + 26 * pRemaining (pMatch1 "CONSTRUCTOR" st).2 < m
            omega
          · intro o s1 hx
            have hs1 := rem_mono (parseGo_travel m _ _ _ _ hx)
            exact ih _ s1 (by show 25 + 26 * pRemaining s1 < m; omega)
        · exact fun hc2 => nomatch hc2
      · exact fun hc2 => nomatch hc2
    | ctorDecl =>
      have h' : 22 + 26 * pRemaining st < m + 1 := h
      simp only [parseStep]
      refine consume_then_ne ?_
      intro s1 hcon1
      have hrem1 := rem_consume hcon1
      refine pThen_ne ?_ ?_
      · split
        · exact fun hc => nomatch hc
        · exact ih (.paramList [] "Nom de paramètre attendu dans le constructeur.") s1
            (by show 5 + 26 * pRemaining s1 < m; omega)
      · intro op s2 hx2
        have hs2 : pRemaining s2 ≤ pRemaining s1 := by
          split at hx2
          · cases hx2; exact le_refl _
          · exact rem_mono (parseGo_travel m _ _ _ _ hx2)
        refine consume_then_ne ?_
        intro s3 hcon3
        have hrem3 := rem_consume hcon3
        refine consume_then_ne ?_
        intro s4 hcon4
        have hrem4 := rem_consume hcon4
        refine pThen_ne (ih (.blockLoop []) s4 ?_) ?_
        · show 25 + 26 * pRemaining s4 < m
          omega
        · intro ob s5 hx5
          exact fun hc2 => nomatch hc2
    | paramList acc msg =>
      have h' : 5 + 26 * pRemaining st < m + 1 := h
      simp only [parseStep]
      refine consume_then_ne ?_
      intro s1 hcon1
      have hrem1 := rem_consume hcon1
      split
      · rename_i hc
        have hrem2 := rem_match1 hc
        refine pThen_ne (ih .parseType _ ?_) ?_
        · show 5 + 26 * pRemaining (pMatch1 "COLON" s1).2 < m
          omega
        · intro ot s2 hx2
          have hs2 := rem_mono (parseGo_travel m _ _ _ _ hx2)
          split
          · rename_i hc2
            have hrem3 := rem_match1 hc2
            exact ih _ _ (by show 5 + 26 * pRemaining (pMatch1 "COMMA" s2).2 < m; omega)
          · exact fun hc2 => nomatch hc2
      · split
        · rename_i hc2
          have hrem3 := rem_match1 hc2
          exact ih _ _ (by show 5 + 26 * pRemaining (pMatch1 "COMMA" s1).2 < m; omega)
        · exact fun hc2 => nomatch hc2
    | parseType =>
      have h' : 5 + 26 * pRemaining st < m + 1 := h
      simp only [parseStep]
      split
      · split
        · exact consume_pure_ne
        · exact fun hc2 => nomatch hc2
      split
      · split
        · exact consume_pure_ne
        · exact fun hc2 => nomatch hc2
      split
      · split
        · exact consume_pure_ne
        · exact fun hc2 => nomatch hc2
      split
      · split
        · exact consume_pure_ne
        · exact fun hc2 => nomatch hc2
      split
      · split
        · exact consume_pure_ne
        · exact fun hc2 => nomatch hc2
      split
      · split
        · exact consume_pure_ne
        · exact fun hc2 => nomatch hc2
      split
      · exact ih .parseObjectType st (by show 4 + 26 * pRemaining st < m; omega)
      · exact fun hc2 => nomatch hc2
    | parseObjectType =>
      have h' : 4 + 26 * pRemaining st < m + 1 := h
      simp only [parseStep]
      refine consume_then_ne ?_
      intro s1 hcon1
      have hrem1 := rem_consume hcon1
      refine pThen_ne ?_ ?_
      · split
        · exact fun hc => nomatch hc
        · exact ih (.objFieldList []) s1 (by show 3 + 26 * pRemaining s1 < m; omega)
      · intro ofl s2 hx2
        exact consume_pure_ne
    | objFieldList acc =>
      have h' : 3 + 26 * pRemaining st < m + 1 := h
      simp only [parseStep]
      refine consume_then_ne ?_
      intro s1 hcon1
      have hrem1 := rem_consume hcon1
      refine consume_then_ne ?_
      intro s2 hcon2
      have hrem2 := rem_consume hcon2
      refine pThen_ne (ih .parseType s2 ?_) ?_
      · show 5 + 26 * pRemaining s2 < m
        omega
      · intro ot s3 hx3
        have hs3 := rem_mono (parseGo_travel m _ _ _ _ hx3)
        split
        · rename_i hc
          have hrem3 := rem_match1 hc
          exact ih _ _ (by show 3 + 26 * pRemaining (pMatch1 "COMMA" s3).2 < m; omega)
        · exact fun hc2 => nomatch hc2
    | statement =>
      have h' : 23 + 26 * pRemaining st < m + 1 := h
      simp only [parseStep]
      split
      · rename_i hc
        have hrem1 := rem_match1 hc
        refine pThen_ne (ih (.blockLoop []) _ ?_) ?_
        · show 25 + 26 * pRemaining (pMatch1 "LBRACE" st).2 < m
          omega
        · intro ob s1 hx
          exact fun hc2 => nomatch hc2
      split
      · rename_i hc
        have hrem1 := rem_match1 hc
        exact ih .ifS _ (by show 22 + 26 * pRemaining (pMatch1 "IF" st).2 < m; omega)
      split
      · rename_i hc
        have hrem1 := rem_match1 hc
        exact ih .whileS _ (by show 22 + 26 * pRemaining (pMatch1 "WHILE" st).2 < m; omega)
      split
      · rename_i hc
        have hrem1 := rem_match1 hc
        exact ih .forS _ (by show 22 + 26 * pRemaining (pMatch1 "FOR" st).2 < m; omega)
      split
      · rename_i hc
        have hrem1 := rem_match1 hc
        exact ih .returnS _ (by show 22 + 26 * pRemaining (pMatch1 "RETURN" st).2 < m; omega)
      split
      · exact consume_pure_ne
      split
      · exact consume_pure_ne
      · exact ih .exprS st (by show 22 + 26 * pRemaining st < m; omega)
    | blockLoop acc =>
      have h' : 25 + 26 * pRemaining st < m + 1 := h
      simp only [parseStep]
      split
      · rename_i hg
        have hend : pIsAtEnd st = false := by
          have hand := (Bool.and_eq_true _ _).mp hg
          simpa using hand.2
        have hlen := not_at_end_lt hend
        refine pThen_ne (ih .declaration st ?_) ?_
        · show 24 + 26 * pRemaining st < m
          omega
        · intro o s1 hx
          have hstrict := declaration_strict m st _ s1 hx hend
          have htok := (parseGo_travel m _ _ _ _ hx).1
          have hrem : pRemaining s1 < pRemaining st := by
            unfold pRemaining
            rw [htok]
            omega
          cases hso : oStmtOpt o with
          | some s3 => exact ih _ s1 (by show 25 + 26 * pRemaining s1 < m; omega)
          | none => exact ih _ s1 (by show 25 + 26 * pRemaining s1 < m; omega)
      · exact consume_pure_ne
    | ifS =>
      have h' : 22 + 26 * pRemaining st < m + 1 := h
      simp only [parseStep]
      refine consume_then_ne ?_
      intro s1 hcon1
      have hrem1 := rem_consume hcon1
      refine pThen_ne (ih .expression s1 ?_) ?_
      · show 19 + 26 * pRemaining s1 < m
        omega
      · intro oc s2 hx2
        have hs2 := rem_mono (parseGo_travel m _ _ _ _ hx2)
        refine consume_then_ne ?_
        intro s3 hcon3
        have hrem3 := rem_consume hcon3
        refine pThen_ne (ih .statement s3 ?_) ?_
        · show 23 + 26 * pRemaining s3 < m
          omega
        · intro ot s4 hx4
          have hs4 := rem_mono (parseGo_travel m _ _ _ _ hx4)
          split
          · rename_i hc
            have hrem5 := rem_match1 hc
            refine pThen_ne (ih .statement _ ?_) ?_
            · show 23 + 26 * pRemaining (pMatch1 "ELSE" s4).2 < m
              omega
            · intro oe s5 hx5
              exact fun hc2 => nomatch hc2
          · exact fun hc2 => nomatch hc2
    | whileS =>
      have h' : 22 + 26 * pRemaining st < m + 1 := h
      simp only [parseStep]
      refine consume_then_ne ?_
      intro s1 hcon1
      have hrem1 := rem_consume hcon1
      refine pThen_ne (ih .expression s1 ?_) ?_
      · show 19 + 26 * pRemaining s1 < m
        omega
      · intro oc s2 hx2
        have hs2 := rem_mono (parseGo_travel m _ _ _ _ hx2)
        refine consume_then_ne ?_
        intro s3 hcon3
        have hrem3 := rem_consume hcon3
        refine pThen_ne (ih .statement s3 ?_) ?_
        · show 23 + 26 * pRemaining s3 < m
          omega
        · intro ob s4 hx4
          exact fun hc2 => nomatch hc2
    | forS =>
      have h' : 22 + 26 * pRemaining st < m + 1 := h
      simp only [parseStep]
      refine consume_then_ne ?_
      intro s1 hcon1
      have hrem1 := rem_consume hcon1
      refine pThen_ne ?_ ?_
      · split
        · exact fun hc => nomatch hc
        split
        · rename_i hc
          have hrem2 := rem_match1 hc
          refine pThen_ne (ih (.varDecl false) _ ?_) ?_
          · show 22 + 26 * pRemaining (pMatch1 "VAR" s1).2 < m
            omega
          · intro o s hx
            exact fun hc2 => nomatch hc2
        · refine pThen_ne (ih .expression s1 ?_) ?_
          · show 19 + 26 * pRemaining s1 < m
            omega
          · intro oe s hx
            exact consume_pure_ne
      · intro oi s2 hx2
        have hs2 : pRemaining s2 ≤ pRemaining s1 := by
          split at hx2
          · cases hx2
            exact rem_mono (pMatch1_step _ _)
          split at hx2
          · refine rem_mono (pThen_step
              (fun r1 sA hxA => pStep_trans (pMatch1_step _ _) (parseGo_travel m _ _ _ _ hxA)) ?_ hx2)
            intro oX sA rB sB hxA hkA
            cases hkA
            exact pStep_refl _
          · refine rem_mono (pThen_step
              (fun r1 sA hxA => parseGo_travel m _ _ _ _ hxA) ?_ hx2)
            intro oX sA rB sB hxA hkA
            exact consume_then_pure_step hkA
        refine pThen_ne ?_ ?_
        · split
          · exact fun hc => nomatch hc
          · refine pThen_ne (ih .expression s2 ?_) ?_
            · show 19 + 26 * pRemaining s2 < m
              omega
            · intro o s hx
              exact fun hc2 => nomatch hc2
        · intro oc s3 hx3
          have hs3 : pRemaining s3 ≤ pRemaining s2 := by
            split at hx3
            · cases hx3; exact le_refl _
            · refine rem_mono (pThen_step
                (fun r1 sA hxA => parseGo_travel m _ _ _ _ hxA) ?_ hx3)
              intro oX sA rB sB hxA hkA
              cases hkA
              exact pStep_refl _
          refine consume_then_ne ?_
          intro s4 hcon4
          have hrem4 := rem_consume hcon4
          refine pThen_ne ?_ ?_
          · split
            · exact fun hc => nomatch hc
            · refine pThen_ne (ih .expression s4 ?_) ?_
              · show 19 + 26 * pRemaining s4 < m
                omega
              · intro o s hx
                exact fun hc2 => nomatch hc2
          · intro ou s5 hx5
            have hs5 : pRemaining s5 ≤ pRemaining s4 := by
              split at hx5
              · cases hx5; exact le_refl _
              · refine rem_mono (pThen_step
                  (fun r1 sA hxA => parseGo_travel m _ _ _ _ hxA) ?_ hx5)
                intro oX sA rB sB hxA hkA
                cases hkA
                exact pStep_refl _
            refine consume_then_ne ?_
            intro s6 hcon6
            have hrem6 := rem_consume hcon6
            refine pThen_ne (ih .statement s6 ?_) ?_
            · show 23 + 26 * pRemaining s6 < m
              omega
            · intro ob s7 hx7
              exact fun hc2 => nomatch hc2
    | returnS =>
      have h' : 22 + 26 * pRemaining st < m + 1 := h
      simp only [parseStep]
      refine pThen_ne ?_ ?_
      · split
        · exact fun hc => nomatch hc
        · refine pThen_ne (ih .expression st ?_) ?_
          · show 19 + 26 * pRemaining st < m
            omega
          · intro o s hx
            exact fun hc2 => nomatch hc2
      · intro ov s1 hx1
        exact consume_pure_ne
    | exprS =>
      have h' : 22 + 26 * pRemaining st < m + 1 := h
      simp only [parseStep]
      refine pThen_ne (ih .expression st ?_) ?_
      · show 19 + 26 * pRemaining st < m
        omega
      · intro oe s1 hx
        exact consume_pure_ne
    | expression =>
      have h' : 19 + 26 * pRemaining st < m + 1 := h
      exact ih .assignment st (by show 18 + 26 * pRemaining st < m; omega)
    | assignment =>
      have h' : 18 + 26 * pRemaining st < m + 1 := h
      simp only [parseStep]
      refine pThen_ne (ih .logicalOr st ?_) ?_
      · show 17 + 26 * pRemaining st < m
        omega
      · intro oe s1 hx1
        have hs1 := rem_mono (parseGo_travel m _ _ _ _ hx1)
        split
        · rename_i hc
          have hrem2 := rem_matchMany hc
          refine pThen_ne (ih .assignment _ ?_) ?_
          · show 18 + 26 * pRemaining
              (pMatchMany ["EQ", "PLUS_EQ", "MINUS_EQ", "MUL_EQ", "DIV_EQ", "MOD_EQ"] s1).2 < m
            omega
          · intro ov s2 hx2
            cases hoe : oExpr oe <;> exact fun hc2 => nomatch hc2
        · exact fun hc2 => nomatch hc2
    | logicalOr =>
      have h' : 17 + 26 * pRemaining st < m + 1 := h
      simp only [parseStep]
      refine pThen_ne (ih .logicalAnd st ?_) ?_
      · show 15 + 26 * pRemaining st < m
        omega
      · intro o s1 hx
        have hs1 := rem_mono (parseGo_travel m _ _ _ _ hx)
        exact ih _ s1 (by show 16 + 26 * pRemaining s1 < m; omega)
    | orLoop e =>
      have h' : 16 + 26 * pRemaining st < m + 1 := h
      simp only [parseStep]
      split
      · rename_i hc
        have hrem1 := rem_match1 hc
        refine pThen_ne (ih .logicalAnd _ ?_) ?_
        · show 15 + 26 * pRemaining (pMatch1 "OR" st).2 < m
          omega
        · intro o s1 hx
          have hs1 := rem_mono (parseGo_travel m _ _ _ _ hx)
          exact ih _ s1 (by show 16 + 26 * pRemaining s1 < m; omega)
      · exact fun hc2 => nomatch hc2
    | logicalAnd =>
      have h' : 15 + 26 * pRemaining st < m + 1 := h
      simp only [parseStep]
      refine pThen_ne (ih .equality st ?_) ?_
      · show 13 + 26 * pRemaining st < m
        omega
      · intro o s1 hx
        have hs1 := rem_mono (parseGo_travel m _ _ _ _ hx)
        exact ih _ s1 (by show 14 + 26 * pRemaining s1 < m; omega)
    | andLoop e =>
      have h' : 14 + 26 * pRemaining st < m + 1 := h
      simp only [parseStep]
      split
      · rename_i hc
        have hrem1 := rem_match1 hc
        refine pThen_ne (ih .equality _ ?_) ?_
        · show 13 + 26 * pRemaining (pMatch1 "AND" st).2 < m
          omega
        · intro o s1 hx
          have hs1 := rem_mono (parseGo_travel m _ _ _ _ hx)
          exact ih _ s1 (by show 14 + 26 * pRemaining s1 < m; omega)
      · exact fun hc2 => nomatch hc2
    | equality =>
      have h' : 13 + 26 * pRemaining st < m + 1 := h
      simp only [parseStep]
      refine pThen_ne (ih .comparison st ?_) ?_
      · show 11 + 26 * pRemaining st < m
        omega
      · intro o s1 hx
        have hs1 := rem_mono (parseGo_travel m _ _ _ _ hx)
        exact ih _ s1 (by show 12 + 26 * pRemaining s1 < m; omega)
    | eqLoop e =>
      have h' : 12 + 26 * pRemaining st < m + 1 := h
      simp only [parseStep]
      split
      · rename_i hc
        have hrem1 := rem_matchMany hc
        refine pThen_ne (ih .comparison _ ?_) ?_
        · show 11 + 26 * pRemaining (pMatchMany ["EQ_EQ", "NOT_EQ"] st).2 < m
          omega
        · intro o s1 hx
          have hs1 := rem_mono (parseGo_travel m _ _ _ _ hx)
          exact ih _ s1 (by show 12 + 26 * pRemaining s1 < m; omega)
      · exact fun hc2 => nomatch hc2
    | comparison =>
      have h' : 11 + 26 * pRemaining st < m + 1 := h
      simp only [parseStep]
      refine pThen_ne (ih .term st ?_) ?_
      · show 9 + 26 * pRemaining st < m
        omega
      · intro o s1 hx
        have hs1 := rem_mono (parseGo_travel m _ _ _ _ hx)
        exact ih _ s1 (by show 10 + 26 * pRemaining s1 < m; omega)
    | cmpLoop e =>
      have h' : 10 + 26 * pRemaining st < m + 1 := h
      simp only [parseStep]
      split
      · rename_i hc
        have hrem1 := rem_matchMany hc
        refine pThen_ne (ih .term _ ?_) ?_
        · show 9 + 26 * pRemaining
            (pMatchMany ["LESS", "LESS_EQ", "GREATER", "GREATER_EQ"] st).2 < m
          omega
        · intro o s1 hx
          have hs1 := rem_mono (parseGo_travel m _ _ _ _ hx)
          exact ih _ s1 (by show 10 + 26 * pRemaining s1 < m; omega)
      · exact fun hc2 => nomatch hc2
    | term =>
      have h' : 9 + 26 * pRemaining st < m + 1 := h
      simp only [parseStep]
      refine pThen_ne (ih .factor st ?_) ?_
      · show 7 + 26 * pRemaining st < m
        omega
      · intro o s1 hx
        have hs1 := rem_mono (parseGo_travel m _ _ _ _ hx)
        exact ih _ s1 (by show 8 + 26 * pRemaining s1 < m; omega)
    | termLoop e =>
      have h' : 8 + 26 * pRemaining st < m + 1 := h
      simp only [parseStep]
      split
      · rename_i hc
        have hrem1 := rem_matchMany hc
        refine pThen_ne (ih .factor _ ?_) ?_
        · show 7 + 26 * pRemaining (pMatchMany ["PLUS", "MINUS"] st).2 < m
          omega
        · intro o s1 hx
          have hs1 := rem_mono (parseGo_travel m _ _ _ _ hx)
          exact ih _ s1 (by show 8 + 26 * pRemaining s1 < m; omega)
      · exact fun hc2 => nomatch hc2
    | factor =>
      have h' : 7 + 26 * pRemaining st < m + 1 := h
      simp only [parseStep]
      refine pThen_ne (ih .unary st ?_) ?_
      · show 5 + 26 * pRemaining st < m
        omega
      · intro o s1 hx
        have hs1 := rem_mono (parseGo_travel m _ _ _ _ hx)
        exact ih _ s1 (by show 6 + 26 * pRemaining s1 < m; omega)
    | factorLoop e =>
      have h' : 6 + 26 * pRemaining st < m + 1 := h
      simp only [parseStep]
      split
      · rename_i hc
        have hrem1 := rem_matchMany hc
        refine pThen_ne (ih .unary _ ?_) ?_
        · show 5 + 26 * pRemaining (pMatchMany ["MUL", "DIV", "MOD"] st).2 < m
          omega
        · intro o s1 hx
          have hs1 := rem_mono (parseGo_travel m _ _ _ _ hx)
          exact ih _ s1 (by show 6 + 26 * pRemaining s1 < m; omega)
      · exact fun hc2 => nomatch hc2
    | unary =>
      have h' : 5 + 26 * pRemaining st < m + 1 := h
      simp only [parseStep]
      split
      · rename_i hc
        have hrem1 := rem_matchMany hc
        refine pThen_ne (ih .unary _ ?_) ?_
        · show 5 + 26 * pRemaining (pMatchMany ["NOT", "MINUS"] st).2 < m
          omega
        · intro o s1 hx
          exact fun hc2 => nomatch hc2
      · exact ih .call st (by show 4 + 26 * pRemaining st < m; omega)
    | call =>
      have h' : 4 + 26 * pRemaining st < m + 1 := h
      simp only [parseStep]
      refine pThen_ne (ih .primary st ?_) ?_
      · show 2 + 26 * pRemaining st < m
        omega
      · intro o s1 hx
        have hs1 := rem_mono (parseGo_travel m _ _ _ _ hx)
        exact ih _ s1 (by show 3 + 26 * pRemaining s1 < m; omega)
    | callLoop e =>
      have h' : 3 + 26 * pRemaining st < m + 1 := h
      simp only [parseStep]
      split
      · rename_i hc
        have hrem1 := rem_match1 hc
        refine pThen_ne (ih (.finishCall e) _ ?_) ?_
        · show 21 + 26 * pRemaining (pMatch1 "LPAREN" st).2 < m
          omega
        · intro o s1 hx
          have hs1 := rem_mono (parseGo_travel m _ _ _ _ hx)
          exact ih _ s1 (by show 3 + 26 * pRemaining s1 < m; omega)
      split
      · rename_i hc
        have hrem1 := rem_match1 hc
        refine consume_then_ne ?_
        intro s1 hcon
        have hrem2 := rem_consume hcon
        exact ih _ s1 (by show 3 + 26 * pRemaining s1 < m; omega)
      split
      · rename_i hc
        have hrem1 := rem_match1 hc
        refine pThen_ne (ih .expression _ ?_) ?_
        · show 19 + 26 * pRemaining (pMatch1 "LBRACKET" st).2 < m
          omega
        · intro oi s1 hx
          have hs1 := rem_mono (parseGo_travel m _ _ _ _ hx)
          refine consume_then_ne ?_
          intro s2 hcon
          have hrem2 := rem_consume hcon
          exact ih _ s2 (by show 3 + 26 * pRemaining s2 < m; omega)
      · exact fun hc2 => nomatch hc2
    | primary =>
      have h' : 2 + 26 * pRemaining st < m + 1 := h
      simp only [parseStep]
      split
      · exact fun hc => nomatch hc
      split
      · exact fun hc => nomatch hc
      split
      · exact fun hc => nomatch hc
      split
      · exact fun hc => nomatch hc
      split
      · exact fun hc => nomatch hc
      split
      · exact fun hc => nomatch hc
      split
      · rename_i hc
        have hrem1 := rem_match1 hc
        refine pThen_ne (ih .expression _ ?_) ?_
        · show 19 + 26 * pRemaining (pMatch1 "LPAREN" st).2 < m
          omega
        · intro o s1 hx
          exact consume_pure_ne
      split
      · rename_i hc
        have hrem1 := rem_match1 hc
        exact ih .arrayLit _
          (by show 21 + 26 * pRemaining (pMatch1 "LBRACKET" st).2 < m; omega)
      split
      · rename_i hc
        have hrem1 := rem_match1 hc
        exact ih .objectLit _
          (by show 21 + 26 * pRemaining (pMatch1 "LBRACE" st).2 < m; omega)
      split
      · exact fun hc => nomatch hc
      · exact fun hc => nomatch hc
    | finishCall callee =>
      have h' : 21 + 26 * pRemaining st < m + 1 := h
      simp only [parseStep]
      refine pThen_ne ?_ ?_
      · split
        · exact fun hc => nomatch hc
        · exact ih (.argList []) st (by show 20 + 26 * pRemaining st < m; omega)
      · intro oa s1 hx
        exact consume_pure_ne
    | argList acc =>
      have h' : 20 + 26 * pRemaining st < m + 1 := h
      simp only [parseStep]
      refine pThen_ne (ih .expression st ?_) ?_
      · show 19 + 26 * pRemaining st < m
        omega
      · intro o s1 hx
        have hs1 := rem_mono (parseGo_travel m _ _ _ _ hx)
        split
        · rename_i hc
          have hrem2 := rem_match1 hc
          exact ih _ _ (by show 20 + 26 * pRemaining (pMatch1 "COMMA" s1).2 < m; omega)
        · exact fun hc2 => nomatch hc2
    | arrayLit =>
      have h' : 21 + 26 * pRemaining st < m + 1 := h
      simp only [parseStep]
      refine pThen_ne ?_ ?_
      · split
        · exact fun hc => nomatch hc
        · exact ih (.arrayElems []) st (by show 20 + 26 * pRemaining st < m; omega)
      · intro oe s1 hx
        exact consume_pure_ne
    | arrayElems acc =>
      have h' : 20 + 26 * pRemaining st < m + 1 := h
      simp only [parseStep]
      refine pThen_ne (ih .expression st ?_) ?_
      · show 19 + 26 * pRemaining st < m
        omega
      · intro o s1 hx
        have hs1 := rem_mono (parseGo_travel m _ _ _ _ hx)
        split
        · rename_i hc
          have hrem2 := rem_match1 hc
          exact ih _ _ (by show 20 + 26 * pRemaining (pMatch1 "COMMA" s1).2 < m; omega)
        · exact fun hc2 => nomatch hc2
    | objectLit =>
      have h' : 21 + 26 * pRemaining st < m + 1 := h
      simp only [parseStep]
      refine pThen_ne ?_ ?_
      · split
        · exact fun hc => nomatch hc
        · exact ih (.objProps []) st (by show 20 + 26 * pRemaining st < m; omega)
      · intro op s1 hx
        exact consume_pure_ne
    | objProps acc =>
      have h' : 20 + 26 * pRemaining st < m + 1 := h
      simp only [parseStep]
      refine consume_then_ne ?_
      intro s1 hcon1
      have hrem1 := rem_consume hcon1
      refine consume_then_ne ?_
      intro s2 hcon2
      have hrem2 := rem_consume hcon2
      refine pThen_ne (ih .expression s2 ?_) ?_
      · show 19 + 26 * pRemaining s2 < m
        omega
      · intro ov s3 hx
        have hs3 := rem_mono (parseGo_travel m _ _ _ _ hx)
        split
        · rename_i hc
          have hrem3 := rem_match1 hc
          exact ih _ _ (by show 20 + 26 * pRemaining (pMatch1 "COMMA" s3).2 < m; omega)
        · exact fun hc2 => nomatch hc2

/-- declaration never produces an error result: its catch clause converts
every ParseError into an ok none with a recorded error. -/
theorem declaration_no_error : ∀ (n : Nat) (st : PSt) (e : AErr) (st' : PSt),
    parseGo n .declaration st = some (.error e, st') → False := by
  intro n st e st' h
  cases n with
  | zero => cases h
  | succ m =>
    have h' : parseStep (parseGo m) .declaration st = some (.error e, st') := h
    simp only [parseStep] at h'
    split at h'
    · cases h'
    · cases h'
    · cases h'

/-- The declaration loop only ever produces a Program result. -/
theorem parseLoop_shape : ∀ (n : Nat) (acc : List Statement) (st : PSt)
    (r : Except AErr POut) (st' : PSt),
    parseGo n (.parseLoop acc) st = some (r, st') →
    ∃ prog : Program, r = .ok (.prog prog) := by
  intro n
  induction n with
  | zero => intro acc st r st' h; cases h
  | succ m ih =>
    intro acc st r st' h
    have h' : parseStep (parseGo m) (.parseLoop acc) st = some (r, st') := h
    simp only [parseStep] at h'
    split at h'
    · cases h'
      exact ⟨⟨acc⟩, rfl⟩
    · unfold pThen at h'
      cases hx : parseGo m .declaration st with
      | none => rw [hx] at h'; cases h'
      | some p =>
        obtain ⟨r1, s1⟩ := p
        rw [hx] at h'
        cases r1 with
        | error e => exact (declaration_no_error m st e s1 hx).elim
        | ok o =>
          have h2 : (match oStmtOpt o with
              | some s => parseGo m (.parseLoop (acc ++ [s])) s1
              | none => parseGo m (.parseLoop acc) s1) = some (r, st') := h'
          cases hso : oStmtOpt o with
          | some s3 => rw [hso] at h2; exact ih _ _ _ _ h2
          | none => rw [hso] at h2; exact ih _ _ _ _ h2

/-- C6: for every token list produced by tokenizing any source string,
parse terminates within fuel linear in the token count and returns a
Program together with the recorded error list (no exception escapes: the
result is always some), and error recovery via synchronize strictly
advances the cursor whenever the parser is not at end of input. -/
theorem c6_parser_totality :
    (∀ src : String,
      ∃ (prog : Program) (errs : List AErr),
        parse (26 * (tokenize src).length + 26) (tokenize src) = some (prog, errs)) ∧
    (∀ st : PSt, pIsAtEnd st = false → st.current < (synchronize st).current) := by
  constructor
  · intro src
    have hne := parseGo_progress (26 * (tokenize src).length + 26) (.parseLoop [])
      ⟨tokenize src, 0, []⟩
      (by show 25 + 26 * ((tokenize src).length - 0) < 26 * (tokenize src).length + 26
          omega)
    obtain ⟨p, hp⟩ := Option.ne_none_iff_exists'.mp hne
    obtain ⟨r, st'⟩ := p
    obtain ⟨prog, hr⟩ := parseLoop_shape _ _ _ _ _ hp
    subst hr
    refine ⟨prog, st'.errors, ?_⟩
    unfold parse
    rw [hp]
  · intro st hend
    exact synchronize_strict hend

/-- C6 witness: the totality bound and the synchronize-progress bound hold
at the concrete source "var x = 1;". -/
theorem c6_parser_totality_witness :
    (∃ (prog : Program) (errs : List AErr),
      parse (26 * (tokenize "var x = 1;").length + 26) (tokenize "var x = 1;")
        = some (prog, errs)) ∧
    ((⟨tokenize "var x = 1;", 0, []⟩ : PSt).current <
      (synchronize ⟨tokenize "var x = 1;", 0, []⟩).current) :=
  ⟨c6_parser_totality.1 "var x = 1;",
   c6_parser_totality.2 ⟨tokenize "var x = 1;", 0, []⟩ rfl⟩

end LNG
